import Mathlib

/-!
# SmtpClient for Qt: the protocol state machine of `src/smtpclient.cpp`

A shallow embedding of `SmtpClient::connectToHost`, `login`, `sendMail`, `quit`,
`waitForResponse` and `sendMessage`, and the properties of the specification
that concern them.

The Qt socket is an external collaborator.  It is modelled as a scripted device:
the answers of its blocking calls (`waitForConnected`, `waitForEncrypted`,
`waitForReadyRead`, `waitForBytesWritten`) are read from scripts stored in the
socket, and every call made on the socket, as well as every `emit smtpError(..)`,
is appended to one chronological trace.  The three timeout durations are passed
by the source to those blocking calls only; the scripts stand for their outcome.

Modelling conventions:
* a `QString` is its list of characters; a `QByteArray` is a list of byte values;
* data reaches the read buffer only inside `waitForReadyRead`, as whole lines
  (an arrival with no line stands for data that does not complete a line), and a
  line is the text `readLine` returns, converted to a `QString`;
* an exhausted arrival script means that nothing more ever arrives (time-out);
  an exhausted flush script means that every further write is flushed;
* the `qDebug()` output of the source is left out.

Layout: the embedding of the source, then the vocabulary used to state the
properties (observations on traces, scripted responses), then the lemmas, then one
section per property.
-/

namespace Smtp

/-! ## Qt values -/

/-- Characters of a `QString`. -/
abbrev QString := List Char

/-- Bytes of a `QByteArray`, each below 256. -/
abbrev QByteArray := List Nat

/-- UTF-8 encoding of one character. -/
def utf8EncodeChar (ch : Char) : QByteArray :=
  let v := ch.toNat
  if v ≤ 0x7f then [v]
  else if v ≤ 0x7ff then [0xc0 + v / 64, 0x80 + v % 64]
  else if v ≤ 0xffff then [0xe0 + v / 4096, 0x80 + v / 64 % 64, 0x80 + v % 64]
  else [0xf0 + v / 262144, 0x80 + v / 4096 % 64, 0x80 + v / 64 % 64, 0x80 + v % 64]

/-- The method `QString::toUtf8()`. -/
def toUtf8 (s : QString) : QByteArray :=
  s.flatMap utf8EncodeChar

/-- The Base64 alphabet of RFC 4648. -/
def base64Alphabet : List Char :=
  "ABCDEFGHIJKLMNOPQRSTUVWXYZabcdefghijklmnopqrstuvwxyz0123456789+/".toList

/-- The Base64 digit of a 6-bit value. -/
def base64Digit (n : Nat) : Char :=
  base64Alphabet.getD n (Char.ofNat 61)

/-- The method `QByteArray::toBase64()`; its output is ASCII and is given here as
the characters it converts to when it is joined to a `QString`. -/
def toBase64 : QByteArray → QString
  | [] => []
  | [a] => [base64Digit (a / 4), base64Digit (a % 4 * 16), Char.ofNat 61, Char.ofNat 61]
  | [a, b] =>
    [base64Digit (a / 4), base64Digit (a % 4 * 16 + b / 16), base64Digit (b % 16 * 4),
      Char.ofNat 61]
  | a :: b :: d :: rest =>
    base64Digit (a / 4) :: base64Digit (a % 4 * 16 + b / 16) ::
      base64Digit (b % 16 * 4 + d / 64) :: base64Digit (d % 64) :: toBase64 rest

/-- The method `QChar::isSpace()`: the separator categories and the control
characters U+0009..U+000D, U+0085. -/
def isSpace (ch : Char) : Bool :=
  let v := ch.toNat
  (9 ≤ v && v ≤ 13) || v == 0x20 || v == 0x85 || v == 0xa0 || v == 0x1680 ||
    (0x2000 ≤ v && v ≤ 0x200a) || v == 0x2028 || v == 0x2029 || v == 0x202f ||
    v == 0x205f || v == 0x3000

/-- An ASCII decimal digit. -/
def isDigit (ch : Char) : Bool :=
  48 ≤ ch.toNat && ch.toNat ≤ 57

/-- Value of a run of decimal digits. -/
def digitsValue (ds : List Char) : Nat :=
  ds.foldl (fun acc d => 10 * acc + (d.toNat - 48)) 0

/-- Value of an unsigned decimal numeral, 0 when it is not one. -/
def unsignedValue (ds : List Char) : Int :=
  if ds ≠ [] ∧ ds.all isDigit then (digitsValue ds : Int) else 0

/-- The method `QString::toInt()` in base 10, on texts short enough not to
overflow an `int`: surrounding white space is skipped, one ASCII sign is allowed,
the rest must be ASCII decimal digits, at least one; the result is 0 when the
conversion fails. -/
def toInt (s : QString) : Int :=
  match ((s.dropWhile isSpace).reverse.dropWhile isSpace).reverse with
  | [] => 0
  | ch :: ds =>
    if ch = Char.ofNat 43 then unsignedValue ds
    else if ch = Char.ofNat 45 then - unsignedValue ds
    else unsignedValue (ch :: ds)

/-- The method `QString::left(n)`. -/
def left (n : Nat) (s : QString) : QString :=
  s.take n

/-- Reading `s[i]` through `QString::operator[]` on a non-const string: the
`QCharRef` obtained converts to the null `QChar` when `i` is past the end. -/
def charAt (s : QString) (i : Nat) : Char :=
  s.getD i (Char.ofNat 0)

/-! ## Enumerations of the class -/

/-- The enumeration `SmtpClient::SmtpError`. -/
inductive SmtpError
  | ConnectionTimeoutError
  | ResponseTimeoutError
  | SendDataTimeoutError
  | AuthenticationFailedError
  | ServerError
  | ClientError
  deriving DecidableEq, Repr

/-- The enumeration `SmtpClient::ConnectionType`. -/
inductive ConnectionType
  | TcpConnection
  | SslConnection
  | TlsConnection
  deriving DecidableEq, Repr

/-- The enumeration `SmtpClient::AuthMethod`. -/
inductive AuthMethod
  | AuthPlain
  | AuthLogin
  deriving DecidableEq, Repr

/-- The enumeration `QAbstractSocket::SocketState`. -/
inductive SocketState
  | UnconnectedState
  | HostLookupState
  | ConnectingState
  | ConnectedState
  | BoundState
  | ClosingState
  | ListeningState
  deriving DecidableEq, Repr

/-- The two exceptions thrown by the protected methods. -/
inductive Exn
  | ResponseTimeoutException
  | SendMessageTimeoutException
  deriving DecidableEq, Repr

/-! ## The socket and the trace -/

/-- One observable step of a run: a call on the socket with its answer, or an
emitted `smtpError` signal. -/
inductive Event
  | connectToHost
  | connectToHostEncrypted
  | waitForConnected (ok : Bool)
  | waitForReadyRead (ok : Bool)
  | readLine (line : QString)
  | write (bytes : QByteArray)
  | waitForBytesWritten (ok : Bool)
  | startClientEncryption
  | waitForEncrypted (ok : Bool)
  | disconnectFromHost
  | smtpError (e : SmtpError)
  deriving DecidableEq, Repr

/-- The scripted socket. -/
structure Socket where
  /-- Answer of `waitForConnected`. -/
  connects : Bool
  /-- Answer of `waitForEncrypted`. -/
  encrypts : Bool
  /-- Answers of the successive `waitForReadyRead` calls: `none` is a time-out,
  `some ls` delivers the complete lines `ls` to the read buffer. -/
  arrivals : List (Option (List QString))
  /-- Answers of the successive `waitForBytesWritten` calls. -/
  flushes : List Bool
  /-- Complete lines waiting in the read buffer. -/
  buffer : List QString
  /-- Value of `state()`. -/
  state : SocketState
  deriving DecidableEq, Repr

/-- The fields of `SmtpClient` read or written by the protocol methods, and the
trace of the run so far. -/
structure SmtpClient where
  socket : Socket
  host : QString
  port : Int
  connectionType : ConnectionType
  name : QString
  user : QString
  password : QString
  authMethod : AuthMethod
  responseText : QString
  responseCode : Int
  trace : List Event
  deriving DecidableEq, Repr

/-- The input of `sendMail` as the method reads it from `MimeMessage`: the
sender address, the addresses of the three recipient lists and the text given
by `toString()`. -/
structure MimeMessage where
  sender : QString
  recipientsTo : List QString
  recipientsCc : List QString
  recipientsBcc : List QString
  content : QString
  deriving DecidableEq, Repr

/-- Append one event to the trace. -/
def record (c : SmtpClient) (ev : Event) : SmtpClient :=
  { c with trace := c.trace ++ [ev] }

/-- The statement `emit smtpError(e)`. -/
def emit (c : SmtpClient) (e : SmtpError) : SmtpClient :=
  record c (Event.smtpError e)

/-- The call `socket->waitForConnected(connectionTimeout)`. -/
def socketWaitForConnected (c : SmtpClient) : Bool × SmtpClient :=
  let st := if c.socket.connects then SocketState.ConnectedState
    else SocketState.UnconnectedState
  (c.socket.connects,
    record { c with socket := { c.socket with state := st } }
      (Event.waitForConnected c.socket.connects))

/-- The calls `startClientEncryption()` and `waitForEncrypted(connectionTimeout)`. -/
def socketWaitForEncrypted (c : SmtpClient) : Bool × SmtpClient :=
  (c.socket.encrypts,
    record (record c Event.startClientEncryption) (Event.waitForEncrypted c.socket.encrypts))

/-- The call `socket->waitForReadyRead(responseTimeout)` when the script has
the answer `a` next and `rest` after it. -/
def socketWaitForReadyRead (c : SmtpClient) (a : Option (List QString))
    (rest : List (Option (List QString))) : SmtpClient :=
  match a with
  | none =>
    record { c with socket := { c.socket with arrivals := rest } }
      (Event.waitForReadyRead false)
  | some ls =>
    record { c with socket := { c.socket with arrivals := rest, buffer := c.socket.buffer ++ ls } }
      (Event.waitForReadyRead true)

/-- The call `socket->readLine()` when the buffer holds `line` first. -/
def socketReadLine (c : SmtpClient) (line : QString) (rest : List QString) : SmtpClient :=
  record { c with socket := { c.socket with buffer := rest } } (Event.readLine line)

/-- The call `socket->write(bytes)`. -/
def socketWrite (c : SmtpClient) (bytes : QByteArray) : SmtpClient :=
  record c (Event.write bytes)

/-- The call `socket->waitForBytesWritten(sendMessageTimeout)`. -/
def socketWaitForBytesWritten (c : SmtpClient) : Bool × SmtpClient :=
  let ok := c.socket.flushes.headD true
  (ok, record { c with socket := { c.socket with flushes := c.socket.flushes.tail } }
    (Event.waitForBytesWritten ok))

/-- The call `socket->disconnectFromHost()`: the socket starts closing. -/
def socketDisconnectFromHost (c : SmtpClient) : SmtpClient :=
  record { c with socket := { c.socket with state := SocketState.ClosingState } }
    Event.disconnectFromHost

/-! ## Protected methods -/

/-- The text written after every command. -/
def crlf : QByteArray := [13, 10]

/-- The method `SmtpClient::sendMessage`. -/
def sendMessage (c : SmtpClient) (text : QString) : Except Exn Unit × SmtpClient :=
  let c1 := socketWrite c (toUtf8 text ++ crlf)
  match socketWaitForBytesWritten c1 with
  | (false, c2) =>
    (Except.error Exn.SendMessageTimeoutException, emit c2 SmtpError.SendDataTimeoutError)
  | (true, c2) => (Except.ok (), c2)

/-- The loop `while (socket->canReadLine())` of `waitForResponse`, run on the
lines of the buffer; the flag tells whether the method returned from inside. -/
def readLines (c : SmtpClient) : List QString → Bool × SmtpClient
  | [] => (false, c)
  | line :: rest =>
    let c1 := socketReadLine c line rest
    let c2 := { c1 with responseText := line }
    let c3 := { c2 with responseCode := toInt (left 3 c2.responseText) }
    let c4 := if c3.responseCode.tdiv 100 = 4 then emit c3 SmtpError.ServerError else c3
    let c5 := if c4.responseCode.tdiv 100 = 5 then emit c4 SmtpError.ClientError else c4
    if charAt c5.responseText 3 = Char.ofNat 32 then (true, c5) else readLines c5 rest

/-- The loop `do .. while (true)` of `waitForResponse`, run on the arrival script. -/
def waitForResponseLoop (c : SmtpClient) :
    List (Option (List QString)) → Except Exn Unit × SmtpClient
  | [] =>
    (Except.error Exn.ResponseTimeoutException,
      emit (record c (Event.waitForReadyRead false)) SmtpError.ResponseTimeoutError)
  | none :: rest =>
    (Except.error Exn.ResponseTimeoutException,
      emit (socketWaitForReadyRead c none rest) SmtpError.ResponseTimeoutError)
  | some ls :: rest =>
    let c1 := socketWaitForReadyRead c (some ls) rest
    match readLines c1 c1.socket.buffer with
    | (true, c2) => (Except.ok (), c2)
    | (false, c2) => waitForResponseLoop c2 rest

/-- The method `SmtpClient::waitForResponse`. -/
def waitForResponse (c : SmtpClient) : Except Exn Unit × SmtpClient :=
  waitForResponseLoop c c.socket.arrivals

/-! ## Public methods -/

/-- The method `SmtpClient::connectToHost`. -/
def connectToHost (c : SmtpClient) : Bool × SmtpClient :=
  let c0 :=
    match c.connectionType with
    | ConnectionType.TlsConnection => record c Event.connectToHost
    | ConnectionType.TcpConnection => record c Event.connectToHost
    | ConnectionType.SslConnection => record c Event.connectToHostEncrypted
  match socketWaitForConnected c0 with
  | (false, c1) => (false, emit c1 SmtpError.ConnectionTimeoutError)
  | (true, c1) =>
    match waitForResponse c1 with
    | (Except.error _, c2) => (false, c2)
    | (Except.ok _, c2) =>
      if c2.responseCode ≠ 220 then (false, emit c2 SmtpError.ServerError)
      else
        match sendMessage c2 ("EHLO ".toList ++ c2.name) with
        | (Except.error _, c3) => (false, c3)
        | (Except.ok _, c3) =>
          match waitForResponse c3 with
          | (Except.error _, c4) => (false, c4)
          | (Except.ok _, c4) =>
            if c4.responseCode ≠ 250 then (false, emit c4 SmtpError.ServerError)
            else if c4.connectionType = ConnectionType.TlsConnection then
              match sendMessage c4 "STARTTLS".toList with
              | (Except.error _, c5) => (false, c5)
              | (Except.ok _, c5) =>
                match waitForResponse c5 with
                | (Except.error _, c6) => (false, c6)
                | (Except.ok _, c6) =>
                  if c6.responseCode ≠ 220 then (false, emit c6 SmtpError.ServerError)
                  else
                    match socketWaitForEncrypted c6 with
                    | (false, c7) => (false, emit c7 SmtpError.ConnectionTimeoutError)
                    | (true, c7) =>
                      match sendMessage c7 ("EHLO ".toList ++ c7.name) with
                      | (Except.error _, c8) => (false, c8)
                      | (Except.ok _, c8) =>
                        match waitForResponse c8 with
                        | (Except.error _, c9) => (false, c9)
                        | (Except.ok _, c9) =>
                          if c9.responseCode ≠ 250 then (false, emit c9 SmtpError.ServerError)
                          else (true, c9)
            else (true, c4)

/-- The text of the `AUTH PLAIN` command built by `login`. -/
def authPlainCommand (user password : QString) : QString :=
  "AUTH PLAIN ".toList ++ toBase64 ([0] ++ toUtf8 user ++ [0] ++ toUtf8 password)

/-- The method `SmtpClient::login(user, password, method)`. -/
def login (c : SmtpClient) (user password : QString) (method : AuthMethod) :
    Bool × SmtpClient :=
  match method with
  | AuthMethod.AuthPlain =>
    match sendMessage c (authPlainCommand user password) with
    | (Except.error _, c1) => (false, emit c1 SmtpError.AuthenticationFailedError)
    | (Except.ok _, c1) =>
      match waitForResponse c1 with
      | (Except.error _, c2) => (false, emit c2 SmtpError.AuthenticationFailedError)
      | (Except.ok _, c2) =>
        if c2.responseCode ≠ 235 then (false, emit c2 SmtpError.AuthenticationFailedError)
        else (true, c2)
  | AuthMethod.AuthLogin =>
    match sendMessage c "AUTH LOGIN".toList with
    | (Except.error _, c1) => (false, emit c1 SmtpError.AuthenticationFailedError)
    | (Except.ok _, c1) =>
      match waitForResponse c1 with
      | (Except.error _, c2) => (false, emit c2 SmtpError.AuthenticationFailedError)
      | (Except.ok _, c2) =>
        if c2.responseCode ≠ 334 then (false, emit c2 SmtpError.AuthenticationFailedError)
        else
          match sendMessage c2 (toBase64 (toUtf8 user)) with
          | (Except.error _, c3) => (false, emit c3 SmtpError.AuthenticationFailedError)
          | (Except.ok _, c3) =>
            match waitForResponse c3 with
            | (Except.error _, c4) => (false, emit c4 SmtpError.AuthenticationFailedError)
            | (Except.ok _, c4) =>
              if c4.responseCode ≠ 334 then
                (false, emit c4 SmtpError.AuthenticationFailedError)
              else
                match sendMessage c4 (toBase64 (toUtf8 password)) with
                | (Except.error _, c5) => (false, emit c5 SmtpError.AuthenticationFailedError)
                | (Except.ok _, c5) =>
                  match waitForResponse c5 with
                  | (Except.error _, c6) =>
                    (false, emit c6 SmtpError.AuthenticationFailedError)
                  | (Except.ok _, c6) =>
                    if c6.responseCode ≠ 235 then
                      (false, emit c6 SmtpError.AuthenticationFailedError)
                    else (true, c6)

/-- The method `SmtpClient::login()`, which passes the stored credentials. -/
def loginStored (c : SmtpClient) : Bool × SmtpClient :=
  login c c.user c.password c.authMethod

/-- How one of the recipient loops of `sendMail` ends. -/
inductive LoopExit
  | finished
  | returnedFalse
  | threw (e : Exn)
  deriving DecidableEq, Repr

/-- One recipient loop of `sendMail`; the three loops differ in the list they
walk and in the text `opening` put before the address. -/
def rcptLoop (opening : QString) : List QString → SmtpClient → LoopExit × SmtpClient
  | [], c => (LoopExit.finished, c)
  | addr :: rest, c =>
    match sendMessage c (opening ++ addr ++ ">".toList) with
    | (Except.error e, c1) => (LoopExit.threw e, c1)
    | (Except.ok _, c1) =>
      match waitForResponse c1 with
      | (Except.error e, c2) => (LoopExit.threw e, c2)
      | (Except.ok _, c2) =>
        if c2.responseCode ≠ 250 then (LoopExit.returnedFalse, c2)
        else rcptLoop opening rest c2

/-- The part of `sendMail` from the `DATA` command to the end. -/
def sendData (c : SmtpClient) (email : MimeMessage) : Bool × SmtpClient :=
  match sendMessage c "DATA".toList with
  | (Except.error _, c1) => (false, c1)
  | (Except.ok _, c1) =>
    match waitForResponse c1 with
    | (Except.error _, c2) => (false, c2)
    | (Except.ok _, c2) =>
      if c2.responseCode ≠ 354 then (false, c2)
      else
        match sendMessage c2 email.content with
        | (Except.error _, c3) => (false, c3)
        | (Except.ok _, c3) =>
          match sendMessage c3 ".".toList with
          | (Except.error _, c4) => (false, c4)
          | (Except.ok _, c4) =>
            match waitForResponse c4 with
            | (Except.error _, c5) => (false, c5)
            | (Except.ok _, c5) =>
              if c5.responseCode ≠ 250 then (false, c5) else (true, c5)

/-- The method `SmtpClient::sendMail`. -/
def sendMail (c : SmtpClient) (email : MimeMessage) : Bool × SmtpClient :=
  match sendMessage c ("MAIL FROM: <".toList ++ email.sender ++ ">".toList) with
  | (Except.error _, c1) => (false, c1)
  | (Except.ok _, c1) =>
    match waitForResponse c1 with
    | (Except.error _, c2) => (false, c2)
    | (Except.ok _, c2) =>
      if c2.responseCode ≠ 250 then (false, c2)
      else
        match rcptLoop "RCPT TO:<".toList email.recipientsTo c2 with
        | (LoopExit.threw _, c3) => (false, c3)
        | (LoopExit.returnedFalse, c3) => (false, c3)
        | (LoopExit.finished, c3) =>
          match rcptLoop "RCPT TO:<".toList email.recipientsCc c3 with
          | (LoopExit.threw _, c4) => (false, c4)
          | (LoopExit.returnedFalse, c4) => (false, c4)
          | (LoopExit.finished, c4) =>
            match rcptLoop "RCPT TO: <".toList email.recipientsBcc c4 with
            | (LoopExit.threw _, c5) => (false, c5)
            | (LoopExit.returnedFalse, c5) => (false, c5)
            | (LoopExit.finished, c5) => sendData c5 email

/-- The method `SmtpClient::quit`. -/
def quit (c : SmtpClient) : SmtpClient :=
  match sendMessage c "QUIT".toList with
  | (Except.ok _, c1) => c1
  | (Except.error _, c1) =>
    if c1.socket.state = SocketState.ConnectedState ∨
        c1.socket.state = SocketState.ConnectingState ∨
        c1.socket.state = SocketState.HostLookupState then
      socketDisconnectFromHost c1
    else c1


/-! ## Observations on traces -/

/-- The byte strings handed to `socket->write`, in order. -/
def sentOf : List Event → List QByteArray
  | [] => []
  | Event.write bytes :: evs => bytes :: sentOf evs
  | _ :: evs => sentOf evs

/-- The `smtpError` signals emitted, in order. -/
def signalsOf : List Event → List SmtpError
  | [] => []
  | Event.smtpError e :: evs => e :: signalsOf evs
  | _ :: evs => signalsOf evs

/-- The lines taken from the socket by `readLine`, in order. -/
def linesOf : List Event → List QString
  | [] => []
  | Event.readLine line :: evs => line :: linesOf evs
  | _ :: evs => linesOf evs

/-- The events appended to the trace between the states `c` and `c2`. -/
def eventsSince (c c2 : SmtpClient) : List Event :=
  c2.trace.drop c.trace.length

/-- The bytes `sendMessage` writes for the command `text`. -/
def wire (text : QString) : QByteArray :=
  toUtf8 text ++ crlf

/-- A line ends a response when its character at index 3 is a space. -/
def isFinal (line : QString) : Bool :=
  decide (charAt line 3 = Char.ofNat 32)

/-- The response code `waitForResponse` stores for a line. -/
def codeOf (line : QString) : Int :=
  toInt (left 3 line)

/-- The signals `waitForResponse` emits for one line it reads. -/
def advisory (line : QString) : List SmtpError :=
  (if (codeOf line).tdiv 100 = 4 then [SmtpError.ServerError] else []) ++
    (if (codeOf line).tdiv 100 = 5 then [SmtpError.ClientError] else [])

/-- The events of reading one line. -/
def lineEvents (line : QString) : List Event :=
  Event.readLine line :: (advisory line).map Event.smtpError

/-- The events of one successful `waitForReadyRead` followed by reading `ls`. -/
def chunkEvents (ls : List QString) : List Event :=
  Event.waitForReadyRead true :: ls.flatMap lineEvents

/-- The state in which `waitForResponse` returns after the events `evs`, with
`text` the last line read, `buf` left in the buffer and `rest` left in the
arrival script. -/
def afterRead (c : SmtpClient) (evs : List Event) (text : QString) (buf : List QString)
    (rest : List (Option (List QString))) : SmtpClient :=
  { c with
    socket := { c.socket with arrivals := rest, buffer := buf }
    responseText := text
    responseCode := codeOf text
    trace := c.trace ++ evs }

/-- The state in which `sendMessage` returns normally. -/
def afterSend (c : SmtpClient) (text : QString) : SmtpClient :=
  { c with
    socket := { c.socket with flushes := c.socket.flushes.tail }
    trace := c.trace ++ [Event.write (wire text), Event.waitForBytesWritten true] }




/-! ## Scripted responses -/

/-- One complete response of the server as it reaches the socket: the arrivals
`chunks`, which hold continuation lines only, then one last arrival made of the
continuation lines `lastPre` and the line `fin` that ends the response. -/
structure Reply where
  chunks : List (List QString)
  lastPre : List QString
  fin : QString
  deriving DecidableEq, Repr

/-- The lines of a response, in order. -/
def Reply.lines (r : Reply) : List QString :=
  r.chunks.flatten ++ r.lastPre ++ [r.fin]

/-- A response is well formed when its last line, and no line before it, has a
space at index 3. -/
def Reply.wellFormed (r : Reply) : Bool :=
  (r.chunks.flatten ++ r.lastPre).all (fun l => !isFinal l) && isFinal r.fin

/-- The entries a response contributes to the arrival script. -/
def Reply.arrivals (r : Reply) : List (Option (List QString)) :=
  r.chunks.map some ++ [some (r.lastPre ++ [r.fin])]

/-- The code of a response: the integer value of the first three characters of
its last line. -/
def Reply.code (r : Reply) : Int :=
  codeOf r.fin

/-- The events of reading a response. -/
def Reply.events (r : Reply) : List Event :=
  r.chunks.flatMap chunkEvents ++ chunkEvents (r.lastPre ++ [r.fin])

/-- The response made of the single line `text`. -/
def Reply.single (text : String) : Reply :=
  { chunks := [], lastPre := [], fin := text.toList }

/-- The arrival script that delivers the responses `rs` one after the other. -/
def arrivalsOf (rs : List Reply) : List (Option (List QString)) :=
  rs.flatMap Reply.arrivals

/-- No `waitForBytesWritten` of the flush script times out. -/
def NoSendTimeout (c : SmtpClient) : Prop :=
  ∀ b ∈ c.socket.flushes, b = true

/-- The state after the command `text` has been written and the response `r` to
it has been read, `rest` being left in the arrival script. -/
def afterExchange (c : SmtpClient) (text : QString) (r : Reply)
    (rest : List (Option (List QString))) : SmtpClient :=
  afterRead (afterSend c text) r.events r.fin [] rest

/-- A client on a fresh socket with the given arrival and flush scripts. -/
def scripted (arrivals : List (Option (List QString))) (flushes : List Bool)
    (connectionType : ConnectionType) : SmtpClient :=
  { socket :=
      { connects := true, encrypts := true, arrivals := arrivals, flushes := flushes,
        buffer := [], state := SocketState.UnconnectedState }
    host := "smtp.example.com".toList
    port := 587
    connectionType := connectionType
    name := "client.local".toList
    user := "user".toList
    password := "secret".toList
    authMethod := AuthMethod.AuthPlain
    responseText := []
    responseCode := 0
    trace := [] }

/-- A client whose socket is in the connected state, with the given scripts. -/
def scriptedConnected (arrivals : List (Option (List QString))) (flushes : List Bool)
    (connectionType : ConnectionType) : SmtpClient :=
  { scripted arrivals flushes connectionType with
    socket :=
      { connects := true, encrypts := true, arrivals := arrivals, flushes := flushes,
        buffer := [], state := SocketState.ConnectedState } }

/-- A message with one recipient of each role. -/
def sampleMail : MimeMessage :=
  { sender := "alice@example.com".toList
    recipientsTo := ["bob@example.com".toList]
    recipientsCc := ["carol@example.com".toList]
    recipientsBcc := ["dave@example.com".toList]
    content := "Subject: hi\r\n\r\nhello".toList }

/-- The text of the `MAIL FROM` command of `sendMail`. -/
def mailFromCommand (email : MimeMessage) : QString :=
  "MAIL FROM: <".toList ++ email.sender ++ ">".toList

/-- The texts of the `RCPT TO` commands of `sendMail`, in the order of its three
loops: the To list, then the Cc list, then the Bcc list. -/
def rcptCommands (email : MimeMessage) : List QString :=
  email.recipientsTo.map (fun a => "RCPT TO:<".toList ++ a ++ ">".toList) ++
    (email.recipientsCc.map (fun a => "RCPT TO:<".toList ++ a ++ ">".toList) ++
      email.recipientsBcc.map (fun a => "RCPT TO: <".toList ++ a ++ ">".toList))

/-- The recipient loop of `sendMail` run on command texts: used to reason about
the three loops as one loop over `rcptCommands`. -/
def commandLoop : List QString → SmtpClient → LoopExit × SmtpClient
  | [], c => (LoopExit.finished, c)
  | text :: rest, c =>
    match sendMessage c text with
    | (Except.error e, c1) => (LoopExit.threw e, c1)
    | (Except.ok _, c1) =>
      match waitForResponse c1 with
      | (Except.error e, c2) => (LoopExit.threw e, c2)
      | (Except.ok _, c2) =>
        if c2.responseCode ≠ 250 then (LoopExit.returnedFalse, c2)
        else commandLoop rest c2

/-- The events of writing the command `text` and reading the response `r`. -/
def exchangeEvents (text : QString) (r : Reply) : List Event :=
  [Event.write (wire text), Event.waitForBytesWritten true] ++ r.events

/-- The events of the exchanges of the commands `texts` with the responses `rs`. -/
def scriptEvents : List QString → List Reply → List Event
  | text :: texts, r :: rs => exchangeEvents text r ++ scriptEvents texts rs
  | _, _ => []


/-! ## Classifying the events of a run -/

/-- A blocking call on the socket that timed out. -/
def failedWait : Event → Bool
  | Event.waitForConnected false => true
  | Event.waitForReadyRead false => true
  | Event.waitForBytesWritten false => true
  | Event.waitForEncrypted false => true
  | _ => false

/-- Events among which no blocking call timed out and whose signals are those of
the response reader only: one per line read with a code in 400..599. -/
def Smooth (evs : List Event) : Prop :=
  (∀ ev ∈ evs, failedWait ev = false) ∧ signalsOf evs = (linesOf evs).flatMap advisory

/-- The events that end a `waitForResponse` call: none when it returns, the
timed out `waitForReadyRead` and the signal emitted for it when it throws. -/
def readerTail : Except Exn Unit → List Event
  | Except.ok _ => []
  | Except.error _ =>
    [Event.waitForReadyRead false, Event.smtpError SmtpError.ResponseTimeoutError]

/-- The events that end a `sendMessage` call after the write. -/
def senderTail : Except Exn Unit → List Event
  | Except.ok _ => [Event.waitForBytesWritten true]
  | Except.error _ =>
    [Event.waitForBytesWritten false, Event.smtpError SmtpError.SendDataTimeoutError]

/-- The events on which a call that met a time-out in `waitForResponse` or in
`sendMessage` stops. -/
def timeoutTails : List (List Event) :=
  [[Event.waitForReadyRead false, Event.smtpError SmtpError.ResponseTimeoutError],
    [Event.waitForBytesWritten false, Event.smtpError SmtpError.SendDataTimeoutError]]

/-- The events on which a failing `connectToHost` stops: the signal for a
response with the wrong code, or a timed out call followed by its signal. -/
def connectFailureTails : List (List Event) :=
  [[Event.smtpError SmtpError.ServerError],
    [Event.waitForConnected false, Event.smtpError SmtpError.ConnectionTimeoutError],
    [Event.waitForEncrypted false, Event.smtpError SmtpError.ConnectionTimeoutError],
    [Event.waitForReadyRead false, Event.smtpError SmtpError.ResponseTimeoutError],
    [Event.waitForBytesWritten false, Event.smtpError SmtpError.SendDataTimeoutError]]

/-- The run that started in `c0` has reached `c` without a failure: the events
since `c0` are smooth. -/
def Progress (c0 c : SmtpClient) : Prop :=
  ∃ sm, c.trace = c0.trace ++ sm ∧ Smooth sm

/-- The run that started in `c0` has stopped in `c` on one of the `tails`, after
smooth events. -/
def StoppedOn (tails : List (List Event)) (c0 c : SmtpClient) : Prop :=
  ∃ sm tail, c.trace = c0.trace ++ (sm ++ tail) ∧ Smooth sm ∧ tail ∈ tails


/-! ## Vocabulary of the specification -/

/-- The signals the specification assigns to a response code: `ServerError` for a
code in 400..499, `ClientError` for a code in 500..599, none otherwise. -/
def signalsForCode (code : Int) : List SmtpError :=
  if 400 ≤ code ∧ code ≤ 499 then [SmtpError.ServerError]
  else if 500 ≤ code ∧ code ≤ 599 then [SmtpError.ClientError]
  else []

/-- The events of reading one line, with the signals of the specification. -/
def lineEventsSpec (line : QString) : List Event :=
  Event.readLine line :: (signalsForCode (codeOf line)).map Event.smtpError

/-- The events of one round of the response reader, with the signals of the
specification. -/
def roundEventsSpec (ls : List QString) : List Event :=
  Event.waitForReadyRead true :: ls.flatMap lineEventsSpec

/-- Every line of the response carries the code `k`. -/
def Reply.hasCode (r : Reply) (k : Int) : Prop :=
  ∀ l ∈ r.lines, codeOf l = k

/-- A three-line response whose lines all start with 450. -/
def busyReply : Reply :=
  { chunks := [["450-mailbox busy".toList]], lastPre := ["450-try again".toList],
    fin := "450 later".toList }

/-- A text is a number for `QString::toInt` when it is a non-empty run of ASCII
decimal digits, after at most one ASCII sign, between runs of white space. -/
def IsNumber (s : QString) : Prop :=
  ∃ ws1 sign ds ws2 : List Char, s = ws1 ++ sign ++ ds ++ ws2 ∧
    (∀ ch ∈ ws1, isSpace ch = true) ∧ (∀ ch ∈ ws2, isSpace ch = true) ∧
    (sign = [] ∨ sign = [Char.ofNat 43] ∨ sign = [Char.ofNat 45]) ∧
    ds ≠ [] ∧ ∀ ch ∈ ds, isDigit ch = true

/-- The decimal digits of a natural number. -/
def decimalDigits (k : Nat) : QString :=
  (Nat.repr k).toList

/-- The response codes the state machine compares `responseCode` with. -/
def expectedCodes : List Nat :=
  [220, 235, 250, 334, 354]

/-- The `w` low binary digits of `n`, most significant first. -/
def bitsOf : Nat → Nat → List Nat
  | 0, _ => []
  | w + 1, n => bitsOf w (n / 2) ++ [n % 2]

/-- The number written by a list of binary digits, most significant first. -/
def ofBits (bs : List Nat) : Nat :=
  bs.foldl (fun acc b => 2 * acc + b) 0

/-- The UTF-8 octets of a character number as the table of RFC 3629 gives them:
`0xxxxxxx` up to U+007F, `110xxxxx 10xxxxxx` up to U+07FF,
`1110xxxx 10xxxxxx 10xxxxxx` up to U+FFFF and
`11110xxx 10xxxxxx 10xxxxxx 10xxxxxx` above, the `x` being the binary digits of
the character number. -/
def utf8CharSpec (n : Nat) : QByteArray :=
  if n ≤ 0x7f then [ofBits (0 :: bitsOf 7 n)]
  else if n ≤ 0x7ff then
    [ofBits ([1, 1, 0] ++ (bitsOf 11 n).take 5), ofBits ([1, 0] ++ (bitsOf 11 n).drop 5)]
  else if n ≤ 0xffff then
    [ofBits ([1, 1, 1, 0] ++ (bitsOf 16 n).take 4),
      ofBits ([1, 0] ++ ((bitsOf 16 n).drop 4).take 6),
      ofBits ([1, 0] ++ (bitsOf 16 n).drop 10)]
  else
    [ofBits ([1, 1, 1, 1, 0] ++ (bitsOf 21 n).take 3),
      ofBits ([1, 0] ++ ((bitsOf 21 n).drop 3).take 6),
      ofBits ([1, 0] ++ ((bitsOf 21 n).drop 9).take 6),
      ofBits ([1, 0] ++ (bitsOf 21 n).drop 15)]

/-- The UTF-8 encoding of a text, character by character, after RFC 3629. -/
def utf8Spec (s : QString) : QByteArray :=
  s.flatMap (fun ch => utf8CharSpec ch.toNat)

/-- The character of a 6-bit value in table 1 of RFC 4648: `A`..`Z` for 0..25,
`a`..`z` for 26..51, `0`..`9` for 52..61, `+` for 62 and `/` for 63. -/
def base64CharSpec (v : Nat) : Char :=
  if v < 26 then Char.ofNat (65 + v)
  else if v < 52 then Char.ofNat (97 + (v - 26))
  else if v < 62 then Char.ofNat (48 + (v - 52))
  else if v = 62 then Char.ofNat 43
  else Char.ofNat 47

/-- The Base64 encoding as RFC 4648 words it: every group of three bytes is read
as one 24-bit number and written as its four 6-bit digits; a last group of one
byte is padded with zero bits to 12 bits and written as two digits and `==`; a
last group of two bytes is padded to 18 bits and written as three digits and `=`. -/
def base64Spec : QByteArray → QString
  | [] => []
  | [a] =>
    [base64CharSpec (a * 16 / 64 % 64), base64CharSpec (a * 16 % 64), Char.ofNat 61,
      Char.ofNat 61]
  | [a, b] =>
    [base64CharSpec ((a * 256 + b) * 4 / 4096 % 64),
      base64CharSpec ((a * 256 + b) * 4 / 64 % 64),
      base64CharSpec ((a * 256 + b) * 4 % 64), Char.ofNat 61]
  | a :: b :: d :: rest =>
    base64CharSpec ((a * 65536 + b * 256 + d) / 262144 % 64) ::
      base64CharSpec ((a * 65536 + b * 256 + d) / 4096 % 64) ::
      base64CharSpec ((a * 65536 + b * 256 + d) / 64 % 64) ::
      base64CharSpec ((a * 65536 + b * 256 + d) % 64) :: base64Spec rest

/-- The first `k` writes of the script are flushed within the send time-out. -/
def FlushesFirst (k : Nat) (c : SmtpClient) : Prop :=
  ∀ b ∈ c.socket.flushes.take k, b = true

/-- A message to one recipient whose text has a line made of a single `.`. -/
def dottedMail : MimeMessage :=
  { sender := "alice@example.com".toList
    recipientsTo := ["bob@example.com".toList]
    recipientsCc := []
    recipientsBcc := []
    content := "hi\r\n.\r\nbye".toList }

/-- The run that started in `c0` has reached `c` with the name and the connection
type unchanged, having written exactly the byte strings `sent`. -/
def Wrote (c0 c : SmtpClient) (sent : List QByteArray) : Prop :=
  c.name = c0.name ∧ c.connectionType = c0.connectionType ∧
    ∃ evs, c.trace = c0.trace ++ evs ∧ sentOf evs = sent

/-- One step of the check that every line written is answered before the next
one is written.  The state is `none` before the first write and `some n` after a
write, `n` being the number of responses read since: a write is allowed at the
start and after exactly one response; a line that ends a response counts one. -/
def disciplineStep (s : Option Nat) : Event → Option (Option Nat)
  | Event.write _ =>
    match s with
    | none => some (some 0)
    | some 1 => some (some 0)
    | some _ => none
  | Event.readLine line => if isFinal line = true then some (s.map (· + 1)) else some s
  | _ => some s

/-- The check run over a list of events; `none` when a write breaks the rule. -/
def disciplineRun : Option Nat → List Event → Option (Option Nat)
  | s, [] => some s
  | s, ev :: evs =>
    match disciplineStep s ev with
    | none => none
    | some s2 => disciplineRun s2 evs

/-- The run that started in `c0` has reached `c` keeping the rule, in the state
`s` of the check. -/
def Disc (c0 c : SmtpClient) (s : Option Nat) : Prop :=
  ∃ evs, c.trace = c0.trace ++ evs ∧ disciplineRun none evs = some s

theorem sentOf_append (a b : List Event) : sentOf (a ++ b) = sentOf a ++ sentOf b := by
  induction a with
  | nil => rfl
  | cons ev a ih => cases ev <;> simp [sentOf, ih]

theorem signalsOf_append (a b : List Event) :
    signalsOf (a ++ b) = signalsOf a ++ signalsOf b := by
  induction a with
  | nil => rfl
  | cons ev a ih => cases ev <;> simp [signalsOf, ih]

theorem linesOf_append (a b : List Event) : linesOf (a ++ b) = linesOf a ++ linesOf b := by
  induction a with
  | nil => rfl
  | cons ev a ih => cases ev <;> simp [linesOf, ih]

theorem signalsOf_map_smtpError (es : List SmtpError) :
    signalsOf (es.map Event.smtpError) = es := by
  induction es with
  | nil => rfl
  | cons e es ih => simp [signalsOf, ih]

theorem sentOf_map_smtpError (es : List SmtpError) :
    sentOf (es.map Event.smtpError) = [] := by
  induction es with
  | nil => rfl
  | cons e es ih => simp [sentOf, ih]

theorem linesOf_map_smtpError (es : List SmtpError) :
    linesOf (es.map Event.smtpError) = [] := by
  induction es with
  | nil => rfl
  | cons e es ih => simp [linesOf, ih]

theorem linesOf_lineEvents (l : QString) : linesOf (lineEvents l) = [l] := by
  simp [lineEvents, linesOf, linesOf_map_smtpError]

theorem sentOf_lineEvents (l : QString) : sentOf (lineEvents l) = [] := by
  simp [lineEvents, sentOf, sentOf_map_smtpError]

theorem signalsOf_lineEvents (l : QString) : signalsOf (lineEvents l) = advisory l := by
  simp [lineEvents, signalsOf, signalsOf_map_smtpError]

theorem linesOf_flatMap_lineEvents (ls : List QString) :
    linesOf (ls.flatMap lineEvents) = ls := by
  induction ls with
  | nil => rfl
  | cons l ls ih => simp [List.flatMap_cons, linesOf_append, linesOf_lineEvents, ih]

theorem sentOf_flatMap_lineEvents (ls : List QString) :
    sentOf (ls.flatMap lineEvents) = [] := by
  induction ls with
  | nil => rfl
  | cons l ls ih => simp [List.flatMap_cons, sentOf_append, sentOf_lineEvents, ih]

theorem signalsOf_flatMap_lineEvents (ls : List QString) :
    signalsOf (ls.flatMap lineEvents) = ls.flatMap advisory := by
  induction ls with
  | nil => rfl
  | cons l ls ih => simp [List.flatMap_cons, signalsOf_append, signalsOf_lineEvents, ih]

theorem linesOf_chunkEvents (ls : List QString) : linesOf (chunkEvents ls) = ls := by
  simp [chunkEvents, linesOf, linesOf_flatMap_lineEvents]

theorem sentOf_chunkEvents (ls : List QString) : sentOf (chunkEvents ls) = [] := by
  simp [chunkEvents, sentOf, sentOf_flatMap_lineEvents]

theorem signalsOf_chunkEvents (ls : List QString) :
    signalsOf (chunkEvents ls) = ls.flatMap advisory := by
  simp [chunkEvents, signalsOf, signalsOf_flatMap_lineEvents]

theorem linesOf_flatMap_chunkEvents (chunks : List (List QString)) :
    linesOf (chunks.flatMap chunkEvents) = chunks.flatten := by
  induction chunks with
  | nil => rfl
  | cons ch chunks ih => simp [List.flatMap_cons, linesOf_append, linesOf_chunkEvents, ih]

theorem sentOf_flatMap_chunkEvents (chunks : List (List QString)) :
    sentOf (chunks.flatMap chunkEvents) = [] := by
  induction chunks with
  | nil => rfl
  | cons ch chunks ih => simp [List.flatMap_cons, sentOf_append, sentOf_chunkEvents, ih]

theorem signalsOf_flatMap_chunkEvents (chunks : List (List QString)) :
    signalsOf (chunks.flatMap chunkEvents) = chunks.flatten.flatMap advisory := by
  induction chunks with
  | nil => rfl
  | cons ch chunks ih =>
    simp [List.flatMap_cons, signalsOf_append, signalsOf_chunkEvents, ih, List.flatMap_append]

theorem eventsSince_of_trace (c c2 : SmtpClient) (evs : List Event)
    (h : c2.trace = c.trace ++ evs) : eventsSince c c2 = evs := by
  simp [eventsSince, h]


/-! ## Reading responses -/

/-- One step of the line loop, in terms of `isFinal`, `codeOf` and `lineEvents`. -/
theorem readLines_cons (c : SmtpClient) (line : QString) (rest : List QString) :
    readLines c (line :: rest) =
      if isFinal line = true then (true, afterRead c (lineEvents line) line rest c.socket.arrivals)
      else readLines (afterRead c (lineEvents line) line rest c.socket.arrivals) rest := by
  simp only [readLines, socketReadLine, record, emit, isFinal, codeOf, lineEvents, advisory,
    afterRead]
  by_cases h4 : (toInt (left 3 line)).tdiv 100 = 4 <;>
    by_cases h5 : (toInt (left 3 line)).tdiv 100 = 5 <;> simp [h4, h5]

theorem afterRead_afterRead (c : SmtpClient) (e1 e2 : List Event) (t1 t2 : QString)
    (b1 b2 : List QString) (r1 r2 : List (Option (List QString))) :
    afterRead (afterRead c e1 t1 b1 r1) e2 t2 b2 r2 = afterRead c (e1 ++ e2) t2 b2 r2 := by
  simp [afterRead]

/-- Lines that do not end a response are all consumed and the loop falls through. -/
theorem readLines_nonfinal (ls : List QString) :
    ∀ c : SmtpClient, c.socket.buffer = ls → (∀ l ∈ ls, isFinal l = false) →
      ∃ t k, readLines c ls = (false,
        { afterRead c (ls.flatMap lineEvents) t [] c.socket.arrivals with
          responseCode := k }) := by
  induction ls with
  | nil =>
    intro c hb _
    refine ⟨c.responseText, c.responseCode, ?_⟩
    obtain ⟨⟨cn, en, ar, fl, bu, st⟩, ho, po, ct, na, us, pw, am, rt, rc, tr⟩ := c
    simp only at hb
    subst hb
    simp [readLines, afterRead]
  | cons l ls ih =>
    intro c _ hnf
    have hl : isFinal l = false := hnf l (List.mem_cons_self _ _)
    rw [readLines_cons, if_neg (by simp [hl])]
    obtain ⟨t, k, h⟩ := ih (afterRead c (lineEvents l) l ls c.socket.arrivals) rfl
      (fun x hx => hnf x (List.mem_cons_of_mem _ hx))
    refine ⟨t, k, ?_⟩
    rw [h]
    simp [afterRead]

/-- The line loop returns at the first line that ends a response. -/
theorem readLines_final (pre : List QString) (fin : QString) (post : List QString) :
    ∀ c : SmtpClient, (∀ l ∈ pre, isFinal l = false) → isFinal fin = true →
      readLines c (pre ++ fin :: post) =
        (true, afterRead c ((pre ++ [fin]).flatMap lineEvents) fin post c.socket.arrivals) := by
  induction pre with
  | nil =>
    intro c _ hf
    simp [readLines_cons, hf]
  | cons l pre ih =>
    intro c hnf hf
    have hl : isFinal l = false := hnf l (List.mem_cons_self _ _)
    rw [List.cons_append, readLines_cons, if_neg (by simp [hl]),
      ih _ (fun x hx => hnf x (List.mem_cons_of_mem _ hx)) hf]
    simp [afterRead]

/-- One round of the response loop when the arrival holds no line that ends a
response. -/
theorem waitForResponseLoop_nonfinal (c : SmtpClient) (ch : List QString)
    (rest : List (Option (List QString))) (hb : c.socket.buffer = [])
    (hnf : ∀ l ∈ ch, isFinal l = false) :
    ∃ t k, waitForResponseLoop c (some ch :: rest) =
      waitForResponseLoop { afterRead c (chunkEvents ch) t [] rest with responseCode := k }
        rest := by
  obtain ⟨t, k, h⟩ := readLines_nonfinal ch (socketWaitForReadyRead c (some ch) rest)
    (by simp [socketWaitForReadyRead, record, hb]) hnf
  refine ⟨t, k, ?_⟩
  have hstep : waitForResponseLoop c (some ch :: rest) =
      match readLines (socketWaitForReadyRead c (some ch) rest) ch with
      | (true, c2) => (Except.ok (), c2)
      | (false, c2) => waitForResponseLoop c2 rest := by
    simp [waitForResponseLoop, socketWaitForReadyRead, record, hb]
  rw [hstep, h]
  simp [afterRead, socketWaitForReadyRead, record, chunkEvents]

/-- One round of the response loop when the arrival holds a line that ends a
response. -/
theorem waitForResponseLoop_final (c : SmtpClient) (pre : List QString) (fin : QString)
    (post : List QString) (rest : List (Option (List QString))) (hb : c.socket.buffer = [])
    (hnf : ∀ l ∈ pre, isFinal l = false) (hf : isFinal fin = true) :
    waitForResponseLoop c (some (pre ++ fin :: post) :: rest) =
      (Except.ok (), afterRead c (chunkEvents (pre ++ [fin])) fin post rest) := by
  have hstep : waitForResponseLoop c (some (pre ++ fin :: post) :: rest) =
      match readLines (socketWaitForReadyRead c (some (pre ++ fin :: post)) rest)
        (pre ++ fin :: post) with
      | (true, c2) => (Except.ok (), c2)
      | (false, c2) => waitForResponseLoop c2 rest := by
    simp [waitForResponseLoop, socketWaitForReadyRead, record, hb]
  rw [hstep, readLines_final pre fin post _ hnf hf]
  simp [afterRead, socketWaitForReadyRead, record, chunkEvents]

/-- The response loop over arrivals of which the last one holds the first line
that ends a response. -/
theorem waitForResponseLoop_chunks (chunks : List (List QString)) (lastPre : List QString)
    (fin : QString) (post : List QString) (rest : List (Option (List QString))) :
    ∀ c : SmtpClient, c.socket.buffer = [] →
      (∀ ch ∈ chunks, ∀ l ∈ ch, isFinal l = false) → (∀ l ∈ lastPre, isFinal l = false) →
      isFinal fin = true →
      waitForResponseLoop c (chunks.map some ++ some (lastPre ++ fin :: post) :: rest) =
        (Except.ok (), afterRead c
          (chunks.flatMap chunkEvents ++ chunkEvents (lastPre ++ [fin])) fin post rest) := by
  induction chunks with
  | nil =>
    intro c hb _ hl hf
    simpa using waitForResponseLoop_final c lastPre fin post rest hb hl hf
  | cons ch chunks ih =>
    intro c hb hnf hl hf
    obtain ⟨t, k, h⟩ := waitForResponseLoop_nonfinal c ch
      (chunks.map some ++ some (lastPre ++ fin :: post) :: rest) hb
      (hnf ch (List.mem_cons_self _ _))
    rw [List.map_cons, List.cons_append, h,
      ih _ rfl (fun x hx => hnf x (List.mem_cons_of_mem _ hx)) hl hf]
    simp [afterRead]


/-! ## Exchanges with a scripted server -/

theorem sendMessage_flushed (c : SmtpClient) (text : QString)
    (h : c.socket.flushes.headD true = true) :
    sendMessage c text = (Except.ok (), afterSend c text) := by
  simp only [sendMessage, socketWrite, socketWaitForBytesWritten, record, h, afterSend, wire,
    List.append_assoc, List.singleton_append]

theorem sendMessage_stalled (c : SmtpClient) (text : QString)
    (h : c.socket.flushes.headD true = false) :
    sendMessage c text = (Except.error Exn.SendMessageTimeoutException,
      { c with
        socket := { c.socket with flushes := c.socket.flushes.tail }
        trace := c.trace ++ [Event.write (wire text), Event.waitForBytesWritten false,
          Event.smtpError SmtpError.SendDataTimeoutError] }) := by
  simp only [sendMessage, socketWrite, socketWaitForBytesWritten, record, emit, h, wire,
    List.append_assoc, List.singleton_append]
  rfl

theorem NoSendTimeout.headD {c : SmtpClient} (h : NoSendTimeout c) :
    c.socket.flushes.headD true = true := by
  unfold NoSendTimeout at h
  cases hf : c.socket.flushes with
  | nil => rfl
  | cons b bs =>
    rw [hf] at h
    simpa using h b (List.mem_cons_self _ _)

theorem NoSendTimeout.afterSend {c : SmtpClient} (h : NoSendTimeout c) (text : QString) :
    NoSendTimeout (afterSend c text) := by
  intro b hb
  exact h b (List.mem_of_mem_tail hb)

theorem waitForResponse_reply (c : SmtpClient) (r : Reply)
    (rest : List (Option (List QString))) (hb : c.socket.buffer = [])
    (ha : c.socket.arrivals = r.arrivals ++ rest) (hw : r.wellFormed = true) :
    waitForResponse c = (Except.ok (), afterRead c r.events r.fin [] rest) := by
  simp only [Reply.wellFormed, Bool.and_eq_true, List.all_eq_true, Bool.not_eq_true',
    List.mem_append] at hw
  have h := waitForResponseLoop_chunks r.chunks r.lastPre r.fin [] rest c hb
    (fun ch hch l hl => hw.1 l (Or.inl (List.mem_flatten.mpr ⟨ch, hch, hl⟩)))
    (fun l hl => hw.1 l (Or.inr hl)) hw.2
  unfold waitForResponse
  rw [ha]
  simpa [Reply.arrivals, Reply.events] using h

/-- A command answered by a well-formed response: both calls return normally. -/
theorem exchange (c : SmtpClient) (text : QString) (r : Reply)
    (rest : List (Option (List QString))) (hs : NoSendTimeout c) (hb : c.socket.buffer = [])
    (ha : c.socket.arrivals = r.arrivals ++ rest) (hw : r.wellFormed = true) :
    sendMessage c text = (Except.ok (), afterSend c text) ∧
      waitForResponse (afterSend c text) = (Except.ok (), afterExchange c text r rest) :=
  ⟨sendMessage_flushed c text hs.headD, waitForResponse_reply (afterSend c text) r rest hb ha hw⟩

theorem afterExchange_noSendTimeout {c : SmtpClient} (hs : NoSendTimeout c) (text : QString)
    (r : Reply) (rest : List (Option (List QString))) :
    NoSendTimeout (afterExchange c text r rest) :=
  hs.afterSend text

@[simp] theorem afterExchange_buffer (c : SmtpClient) (text : QString) (r : Reply)
    (rest : List (Option (List QString))) : (afterExchange c text r rest).socket.buffer = [] :=
  rfl

@[simp] theorem afterExchange_arrivals (c : SmtpClient) (text : QString) (r : Reply)
    (rest : List (Option (List QString))) :
    (afterExchange c text r rest).socket.arrivals = rest :=
  rfl

@[simp] theorem afterExchange_responseCode (c : SmtpClient) (text : QString) (r : Reply)
    (rest : List (Option (List QString))) :
    (afterExchange c text r rest).responseCode = r.code :=
  rfl

@[simp] theorem afterExchange_trace (c : SmtpClient) (text : QString) (r : Reply)
    (rest : List (Option (List QString))) :
    (afterExchange c text r rest).trace =
      c.trace ++ ([Event.write (wire text), Event.waitForBytesWritten true] ++ r.events) := by
  simp [afterExchange, afterRead, afterSend]

@[simp] theorem afterExchange_name (c : SmtpClient) (text : QString) (r : Reply)
    (rest : List (Option (List QString))) : (afterExchange c text r rest).name = c.name :=
  rfl

@[simp] theorem afterExchange_connectionType (c : SmtpClient) (text : QString) (r : Reply)
    (rest : List (Option (List QString))) :
    (afterExchange c text r rest).connectionType = c.connectionType :=
  rfl

@[simp] theorem sentOf_reply_events (r : Reply) : sentOf r.events = [] := by
  simp [Reply.events, sentOf_append, sentOf_flatMap_chunkEvents, sentOf_chunkEvents]

@[simp] theorem linesOf_reply_events (r : Reply) : linesOf r.events = r.lines := by
  simp [Reply.events, Reply.lines, linesOf_append, linesOf_flatMap_chunkEvents,
    linesOf_chunkEvents]

@[simp] theorem signalsOf_reply_events (r : Reply) :
    signalsOf r.events = r.lines.flatMap advisory := by
  simp [Reply.events, Reply.lines, signalsOf_append, signalsOf_flatMap_chunkEvents,
    signalsOf_chunkEvents, List.flatMap_append]


/-! ## Traces of the protected methods on an arbitrary socket -/

theorem readLines_trace (ls : List QString) :
    ∀ c : SmtpClient, ∃ read : List QString,
      (readLines c ls).2.trace = c.trace ++ read.flatMap lineEvents := by
  induction ls with
  | nil => intro c; exact ⟨[], by simp [readLines]⟩
  | cons l ls ih =>
    intro c
    rw [readLines_cons]
    by_cases hf : isFinal l = true
    · rw [if_pos hf]
      exact ⟨[l], by simp [afterRead]⟩
    · rw [if_neg hf]
      obtain ⟨read, h⟩ := ih (afterRead c (lineEvents l) l ls c.socket.arrivals)
      exact ⟨l :: read, by rw [h]; simp [afterRead]⟩

theorem waitForResponseLoop_trace (arr : List (Option (List QString))) :
    ∀ c : SmtpClient, ∃ segs : List (List QString),
      (waitForResponseLoop c arr).2.trace =
        c.trace ++ (segs.flatMap chunkEvents ++ readerTail (waitForResponseLoop c arr).1) := by
  induction arr with
  | nil => intro c; exact ⟨[], by simp [waitForResponseLoop, emit, record, readerTail]⟩
  | cons a arr ih =>
    intro c
    cases a with
    | none =>
      exact ⟨[], by simp [waitForResponseLoop, socketWaitForReadyRead, emit, record, readerTail]⟩
    | some ls =>
      obtain ⟨read, hr⟩ := readLines_trace (c.socket.buffer ++ ls)
        (socketWaitForReadyRead c (some ls) arr)
      have hstep : waitForResponseLoop c (some ls :: arr) =
          match readLines (socketWaitForReadyRead c (some ls) arr) (c.socket.buffer ++ ls) with
          | (true, c2) => (Except.ok (), c2)
          | (false, c2) => waitForResponseLoop c2 arr := by
        simp [waitForResponseLoop, socketWaitForReadyRead, record]
      rw [hstep]
      rcases hrl : readLines (socketWaitForReadyRead c (some ls) arr) (c.socket.buffer ++ ls)
        with ⟨b, c2⟩
      rw [hrl] at hr
      cases b with
      | true =>
        refine ⟨[read], ?_⟩
        simp only []
        rw [hr]
        simp [socketWaitForReadyRead, record, chunkEvents, readerTail]
      | false =>
        obtain ⟨segs, hs⟩ := ih c2
        refine ⟨read :: segs, ?_⟩
        simp only []
        rw [hs, hr]
        simp [socketWaitForReadyRead, record, chunkEvents]

/-- The trace of any `waitForResponse` call: rounds of a successful
`waitForReadyRead` followed by the lines read, then the tail of its exit. -/
theorem waitForResponse_trace (c : SmtpClient) :
    ∃ segs : List (List QString),
      (waitForResponse c).2.trace =
        c.trace ++ (segs.flatMap chunkEvents ++ readerTail (waitForResponse c).1) :=
  waitForResponseLoop_trace c.socket.arrivals c

/-- The trace of any `sendMessage` call. -/
theorem sendMessage_trace (c : SmtpClient) (text : QString) :
    (sendMessage c text).2.trace =
      c.trace ++ (Event.write (wire text) :: senderTail (sendMessage c text).1) := by
  cases h : c.socket.flushes.headD true with
  | true => rw [sendMessage_flushed c text h]; simp [afterSend, senderTail]
  | false => rw [sendMessage_stalled c text h]; simp [senderTail]

theorem Smooth.nil : Smooth [] := by
  simp [Smooth, signalsOf, linesOf]

theorem Smooth.append {a b : List Event} (ha : Smooth a) (hb : Smooth b) : Smooth (a ++ b) := by
  refine ⟨?_, ?_⟩
  · intro ev hev
    rcases List.mem_append.mp hev with h | h
    · exact ha.1 ev h
    · exact hb.1 ev h
  · rw [signalsOf_append, linesOf_append, List.flatMap_append, ha.2, hb.2]

theorem Smooth.lineEvents (l : QString) : Smooth (lineEvents l) := by
  refine ⟨?_, ?_⟩
  · intro ev hev
    simp only [Smtp.lineEvents, List.mem_cons, List.mem_map] at hev
    rcases hev with h | ⟨e, _, h⟩ <;> subst h <;> rfl
  · simp [signalsOf_lineEvents, linesOf_lineEvents]

theorem Smooth.flatMap_lineEvents (ls : List QString) : Smooth (ls.flatMap Smtp.lineEvents) := by
  induction ls with
  | nil => exact Smooth.nil
  | cons l ls ih =>
    rw [List.flatMap_cons]
    exact (Smooth.lineEvents l).append ih

theorem Smooth.of_quiet (evs : List Event) (h1 : ∀ ev ∈ evs, failedWait ev = false)
    (h2 : signalsOf evs = []) (h3 : linesOf evs = []) : Smooth evs :=
  ⟨h1, by rw [h2, h3]; rfl⟩

theorem Smooth.chunkEvents (ls : List QString) : Smooth (chunkEvents ls) := by
  have h : Smtp.chunkEvents ls = [Event.waitForReadyRead true] ++ ls.flatMap Smtp.lineEvents := rfl
  rw [h]
  exact (Smooth.of_quiet [Event.waitForReadyRead true] (by simp [failedWait]) rfl rfl).append (Smooth.flatMap_lineEvents ls)

theorem Smooth.flatMap_chunkEvents (segs : List (List QString)) :
    Smooth (segs.flatMap Smtp.chunkEvents) := by
  induction segs with
  | nil => exact Smooth.nil
  | cons s segs ih =>
    rw [List.flatMap_cons]
    exact (Smooth.chunkEvents s).append ih


/-! ## Progress of a run -/

theorem Progress.refl (c : SmtpClient) : Progress c c :=
  ⟨[], by simp, Smooth.nil⟩

theorem Progress.extend {c0 c c1 : SmtpClient} (h : Progress c0 c) (evs : List Event)
    (ht : c1.trace = c.trace ++ evs) (hs : Smooth evs) : Progress c0 c1 := by
  obtain ⟨sm, h1, h2⟩ := h
  exact ⟨sm ++ evs, by rw [ht, h1, List.append_assoc], h2.append hs⟩

theorem Progress.stop {c0 c c1 : SmtpClient} (h : Progress c0 c) (tails : List (List Event))
    (evs tail : List Event) (ht : c1.trace = c.trace ++ (evs ++ tail)) (hs : Smooth evs)
    (hm : tail ∈ tails) : StoppedOn tails c0 c1 := by
  obtain ⟨sm, h1, h2⟩ := h
  exact ⟨sm ++ evs, tail, by rw [ht, h1]; simp, h2.append hs, hm⟩

theorem Progress.record_call {c0 c : SmtpClient} (h : Progress c0 c) (ev : Event)
    (h1 : failedWait ev = false) (h2 : signalsOf [ev] = []) (h3 : linesOf [ev] = []) :
    Progress c0 (record c ev) :=
  h.extend [ev] rfl (Smooth.of_quiet [ev] (by simpa using h1) h2 h3)

theorem Progress.send_ok {c0 c c1 : SmtpClient} {text : QString} {u : Unit}
    (h : Progress c0 c) (hr : sendMessage c text = (Except.ok u, c1)) : Progress c0 c1 := by
  have ht := sendMessage_trace c text
  rw [hr] at ht
  exact h.extend _ ht (Smooth.of_quiet _ (by simp [senderTail, failedWait]) rfl rfl)

theorem Progress.send_error {c0 c c1 : SmtpClient} {text : QString} {e : Exn}
    (h : Progress c0 c) (hr : sendMessage c text = (Except.error e, c1))
    (tails : List (List Event))
    (hm : [Event.waitForBytesWritten false,
      Event.smtpError SmtpError.SendDataTimeoutError] ∈ tails) :
    StoppedOn tails c0 c1 := by
  have ht := sendMessage_trace c text
  rw [hr] at ht
  exact h.stop tails [Event.write (wire text)] _ ht
    (Smooth.of_quiet _ (by simp [failedWait]) rfl rfl) hm

theorem Progress.read_ok {c0 c c1 : SmtpClient} {u : Unit}
    (h : Progress c0 c) (hr : waitForResponse c = (Except.ok u, c1)) : Progress c0 c1 := by
  obtain ⟨segs, ht⟩ := waitForResponse_trace c
  rw [hr] at ht
  exact h.extend _ (by simpa [readerTail] using ht) (Smooth.flatMap_chunkEvents segs)

theorem Progress.read_error {c0 c c1 : SmtpClient} {e : Exn}
    (h : Progress c0 c) (hr : waitForResponse c = (Except.error e, c1))
    (tails : List (List Event))
    (hm : [Event.waitForReadyRead false,
      Event.smtpError SmtpError.ResponseTimeoutError] ∈ tails) :
    StoppedOn tails c0 c1 := by
  obtain ⟨segs, ht⟩ := waitForResponse_trace c
  rw [hr] at ht
  exact h.stop tails _ _ ht (Smooth.flatMap_chunkEvents segs) hm

theorem Progress.emit_stop {c0 c : SmtpClient} (h : Progress c0 c) (e : SmtpError)
    (tails : List (List Event)) (hm : [Event.smtpError e] ∈ tails) :
    StoppedOn tails c0 (emit c e) :=
  h.stop tails [] _ (by simp [emit, record]) Smooth.nil hm


/-! ## The recipient loops as one loop -/

theorem rcptLoop_eq_commandLoop (opening : QString) (addrs : List QString) :
    ∀ c : SmtpClient, rcptLoop opening addrs c =
      commandLoop (addrs.map (fun a => opening ++ a ++ ">".toList)) c := by
  induction addrs with
  | nil => intro c; rfl
  | cons a addrs ih =>
    intro c
    simp only [rcptLoop, List.map_cons, commandLoop, ih]

theorem commandLoop_append (xs ys : List QString) :
    ∀ c : SmtpClient, commandLoop (xs ++ ys) c =
      match commandLoop xs c with
      | (LoopExit.finished, c1) => commandLoop ys c1
      | other => other := by
  induction xs with
  | nil => intro c; rfl
  | cons x xs ih =>
    intro c
    simp only [List.cons_append, commandLoop]
    rcases sendMessage c x with ⟨_ | _, c1⟩
    · rfl
    · simp only []
      rcases waitForResponse c1 with ⟨_ | _, c2⟩
      · rfl
      · simp only []
        split
        · rfl
        · exact ih c2

/-- The method `sendMail` with its three recipient loops seen as one loop over
`rcptCommands`. -/
theorem sendMail_eq (c : SmtpClient) (email : MimeMessage) :
    sendMail c email =
      match sendMessage c (mailFromCommand email) with
      | (Except.error _, c1) => (false, c1)
      | (Except.ok _, c1) =>
        match waitForResponse c1 with
        | (Except.error _, c2) => (false, c2)
        | (Except.ok _, c2) =>
          if c2.responseCode ≠ 250 then (false, c2)
          else
            match commandLoop (rcptCommands email) c2 with
            | (LoopExit.finished, c3) => sendData c3 email
            | (_, c3) => (false, c3) := by
  unfold sendMail mailFromCommand
  rcases sendMessage c ("MAIL FROM: <".toList ++ email.sender ++ ">".toList) with ⟨_ | _, c1⟩
  · rfl
  simp only []
  rcases waitForResponse c1 with ⟨_ | _, c2⟩
  · rfl
  simp only []
  split
  · rfl
  simp only [rcptLoop_eq_commandLoop, rcptCommands, commandLoop_append]
  rcases commandLoop (email.recipientsTo.map (fun a => "RCPT TO:<".toList ++ a ++ ">".toList)) c2
    with ⟨_ | _ | _, c3⟩
  · simp only []
    rcases commandLoop
      (email.recipientsCc.map (fun a => "RCPT TO:<".toList ++ a ++ ">".toList)) c3
      with ⟨_ | _ | _, c4⟩
    · simp only []
      rcases commandLoop
        (email.recipientsBcc.map (fun a => "RCPT TO: <".toList ++ a ++ ">".toList)) c4
        with ⟨_ | _ | _, c5⟩ <;> rfl
    · rfl
    · rfl
  · rfl
  · rfl


/-! ## The mail transaction with a scripted server -/

theorem arrivalsOf_cons (r : Reply) (rs : List Reply) :
    arrivalsOf (r :: rs) = r.arrivals ++ arrivalsOf rs := by
  simp [arrivalsOf, List.flatMap_cons]

theorem arrivalsOf_append (xs ys : List Reply) :
    arrivalsOf (xs ++ ys) = arrivalsOf xs ++ arrivalsOf ys := by
  simp [arrivalsOf, List.flatMap_append]

theorem sentOf_exchangeEvents (text : QString) (r : Reply) :
    sentOf (exchangeEvents text r) = [wire text] := by
  simp [exchangeEvents, sentOf_append, sentOf]

theorem sentOf_scriptEvents (texts : List QString) :
    ∀ rs : List Reply, sentOf (scriptEvents texts rs) = (texts.take rs.length).map wire := by
  induction texts with
  | nil => intro rs; cases rs <;> rfl
  | cons t texts ih =>
    intro rs
    cases rs with
    | nil => rfl
    | cons r rs => simp [scriptEvents, sentOf_append, sentOf_exchangeEvents, ih]

/-- Responses that all have code 250 let the loop run to its end. -/
theorem commandLoop_accepted (texts : List QString) :
    ∀ (rs : List Reply) (c : SmtpClient) (rest : List (Option (List QString))),
      rs.length = texts.length → (∀ r ∈ rs, r.wellFormed = true ∧ r.code = 250) →
      NoSendTimeout c → c.socket.buffer = [] → c.socket.arrivals = arrivalsOf rs ++ rest →
      ∃ c2, commandLoop texts c = (LoopExit.finished, c2) ∧ NoSendTimeout c2 ∧
        c2.socket.buffer = [] ∧ c2.socket.arrivals = rest ∧
        c2.trace = c.trace ++ scriptEvents texts rs := by
  induction texts with
  | nil =>
    intro rs c rest hl _ hs hb ha
    cases rs with
    | nil => exact ⟨c, rfl, hs, hb, by simpa [arrivalsOf] using ha, by simp [scriptEvents]⟩
    | cons r rs => simp at hl
  | cons t texts ih =>
    intro rs c rest hl hok hs hb ha
    cases rs with
    | nil => simp at hl
    | cons r rs =>
      have hr := hok r (List.mem_cons_self _ _)
      rw [arrivalsOf_cons, List.append_assoc] at ha
      obtain ⟨s1, w1⟩ := exchange c t r (arrivalsOf rs ++ rest) hs hb ha hr.1
      obtain ⟨c2, h1, h2, h3, h4, h5⟩ := ih rs (afterExchange c t r (arrivalsOf rs ++ rest)) rest
        (by simpa using hl) (fun x hx => hok x (List.mem_cons_of_mem _ hx))
        (afterExchange_noSendTimeout hs _ _ _) rfl rfl
      refine ⟨c2, ?_, h2, h3, h4, ?_⟩
      · simp only [commandLoop, s1, w1, afterExchange_responseCode]
        simp [hr.2, h1]
      · rw [h5]
        simp [scriptEvents, exchangeEvents]

/-- The first response with a code other than 250 ends the loop, and `sendMail`
with it, right after the command it answers. -/
theorem commandLoop_rejected (texts : List QString) :
    ∀ (pre : List Reply) (bad : Reply) (c : SmtpClient)
      (rest : List (Option (List QString))),
      pre.length < texts.length → (∀ r ∈ pre, r.wellFormed = true ∧ r.code = 250) →
      bad.wellFormed = true → bad.code ≠ 250 →
      NoSendTimeout c → c.socket.buffer = [] →
      c.socket.arrivals = arrivalsOf (pre ++ [bad]) ++ rest →
      ∃ c2, commandLoop texts c = (LoopExit.returnedFalse, c2) ∧
        c2.trace = c.trace ++ scriptEvents texts (pre ++ [bad]) := by
  induction texts with
  | nil => intro pre bad c rest hl; simp at hl
  | cons t texts ih =>
    intro pre bad c rest hl hok hbw hbc hs hb ha
    cases pre with
    | nil =>
      rw [List.nil_append, arrivalsOf_cons, List.append_assoc] at ha
      obtain ⟨s1, w1⟩ := exchange c t bad (arrivalsOf [] ++ rest) hs hb ha hbw
      refine ⟨afterExchange c t bad (arrivalsOf [] ++ rest), ?_, ?_⟩
      · simp only [commandLoop, s1, w1, afterExchange_responseCode]
        simp [hbc]
      · cases texts <;> simp [scriptEvents, exchangeEvents]
    | cons r pre =>
      have hr := hok r (List.mem_cons_self _ _)
      rw [List.cons_append, arrivalsOf_cons, List.append_assoc] at ha
      obtain ⟨s1, w1⟩ := exchange c t r (arrivalsOf (pre ++ [bad]) ++ rest) hs hb ha hr.1
      obtain ⟨c2, h1, h5⟩ := ih pre bad
        (afterExchange c t r (arrivalsOf (pre ++ [bad]) ++ rest)) rest
        (by simpa using hl) (fun x hx => hok x (List.mem_cons_of_mem _ hx)) hbw hbc
        (afterExchange_noSendTimeout hs _ _ _) rfl rfl
      refine ⟨c2, ?_, ?_⟩
      · simp only [commandLoop, s1, w1, afterExchange_responseCode]
        simp [hr.2, h1]
      · rw [h5]
        simp [scriptEvents, exchangeEvents]

theorem readLines_flushes (ls : List QString) :
    ∀ c : SmtpClient, (readLines c ls).2.socket.flushes = c.socket.flushes := by
  induction ls with
  | nil => intro c; rfl
  | cons l ls ih =>
    intro c
    rw [readLines_cons]
    split
    · rfl
    · rw [ih]; rfl

theorem waitForResponseLoop_flushes (arr : List (Option (List QString))) :
    ∀ c : SmtpClient, (waitForResponseLoop c arr).2.socket.flushes = c.socket.flushes := by
  induction arr with
  | nil => intro c; rfl
  | cons a arr ih =>
    intro c
    cases a with
    | none => rfl
    | some ls =>
      have hstep : waitForResponseLoop c (some ls :: arr) =
          match readLines (socketWaitForReadyRead c (some ls) arr) (c.socket.buffer ++ ls) with
          | (true, c2) => (Except.ok (), c2)
          | (false, c2) => waitForResponseLoop c2 arr := by
        simp [waitForResponseLoop, socketWaitForReadyRead, record]
      have hr := readLines_flushes (c.socket.buffer ++ ls)
        (socketWaitForReadyRead c (some ls) arr)
      rw [hstep]
      rcases hrl : readLines (socketWaitForReadyRead c (some ls) arr) (c.socket.buffer ++ ls)
        with ⟨b, c2⟩
      rw [hrl] at hr
      cases b with
      | true => exact hr
      | false =>
        simp only []
        rw [ih c2]
        exact hr

/-- Reading a response leaves the flush script untouched. -/
theorem waitForResponse_noSendTimeout {c : SmtpClient} (hs : NoSendTimeout c) :
    NoSendTimeout (waitForResponse c).2 := by
  unfold NoSendTimeout
  rw [show (waitForResponse c).2.socket.flushes = c.socket.flushes from
    waitForResponseLoop_flushes c.socket.arrivals c]
  exact hs

/-- Reading a response writes nothing. -/
theorem waitForResponse_sent (c : SmtpClient) :
    ∃ evs, (waitForResponse c).2.trace = c.trace ++ evs ∧ sentOf evs = [] := by
  obtain ⟨segs, h⟩ := waitForResponse_trace c
  refine ⟨_, h, ?_⟩
  rw [sentOf_append, sentOf_flatMap_chunkEvents]
  cases (waitForResponse c).1 <;> rfl


/-! ## Recipients (C1) -/

/-- What `sendMail` writes from the `DATA` command on when no write times out:
`DATA` alone, or `DATA`, the message text and the terminating `.`. -/
theorem sendData_sent (c : SmtpClient) (email : MimeMessage) (hs : NoSendTimeout c) :
    ∃ evs tail, (sendData c email).2.trace = c.trace ++ evs ∧
      sentOf evs = wire "DATA".toList :: tail ∧
      (tail = [] ∨ tail = [wire email.content, wire ".".toList]) := by
  have s1 := sendMessage_flushed c "DATA".toList hs.headD
  have hs1 : NoSendTimeout (afterSend c "DATA".toList) := hs.afterSend _
  obtain ⟨ev2, t2, n2⟩ := waitForResponse_sent (afterSend c "DATA".toList)
  have hs2 := waitForResponse_noSendTimeout hs1
  generalize hres : sendData c email = res
  unfold sendData at hres
  rw [s1] at hres
  simp only [] at hres
  rcases hw : waitForResponse (afterSend c "DATA".toList) with ⟨_ | _, c2⟩
  all_goals rw [hw] at hres t2 hs2; simp only [] at hres t2 hs2
  · subst hres
    exact ⟨[Event.write (wire "DATA".toList), Event.waitForBytesWritten true] ++ ev2, [],
      by rw [t2]; simp [afterSend], by simp [sentOf_append, sentOf, n2], Or.inl rfl⟩
  split at hres
  · subst hres
    exact ⟨[Event.write (wire "DATA".toList), Event.waitForBytesWritten true] ++ ev2, [],
      by rw [t2]; simp [afterSend], by simp [sentOf_append, sentOf, n2], Or.inl rfl⟩
  have s3 := sendMessage_flushed c2 email.content hs2.headD
  have hs3 : NoSendTimeout (afterSend c2 email.content) := hs2.afterSend _
  have s4 := sendMessage_flushed (afterSend c2 email.content) ".".toList hs3.headD
  obtain ⟨ev5, t5, n5⟩ := waitForResponse_sent
    (afterSend (afterSend c2 email.content) ".".toList)
  rw [s3] at hres
  simp only [] at hres
  rw [s4] at hres
  simp only [] at hres
  have hfin : (waitForResponse (afterSend (afterSend c2 email.content) ".".toList)).2.trace =
      c.trace ++ ([Event.write (wire "DATA".toList), Event.waitForBytesWritten true] ++ ev2 ++
        [Event.write (wire email.content), Event.waitForBytesWritten true,
          Event.write (wire ".".toList), Event.waitForBytesWritten true] ++ ev5) := by
    rw [t5]; simp [afterSend, t2]
  have hsent : sentOf ([Event.write (wire "DATA".toList), Event.waitForBytesWritten true] ++
      ev2 ++ [Event.write (wire email.content), Event.waitForBytesWritten true,
        Event.write (wire ".".toList), Event.waitForBytesWritten true] ++ ev5) =
      [wire "DATA".toList, wire email.content, wire ".".toList] := by
    simp [sentOf_append, sentOf, n2, n5]
  rcases hw5 : waitForResponse (afterSend (afterSend c2 email.content) ".".toList)
    with ⟨_ | _, c5⟩
  all_goals rw [hw5] at hres hfin; simp only [] at hres hfin
  · subst hres
    exact ⟨_, _, hfin, hsent, Or.inr rfl⟩
  split at hres <;> subst hres <;> exact ⟨_, _, hfin, hsent, Or.inr rfl⟩

theorem rcptCommands_length (email : MimeMessage) :
    (rcptCommands email).length =
      email.recipientsTo.length + email.recipientsCc.length + email.recipientsBcc.length := by
  simp [rcptCommands, Nat.add_assoc]

theorem wire_cons_ascii (ch : Char) (t : QString) (h : ch.toNat ≤ 0x7f) :
    wire (ch :: t) = ch.toNat :: wire t := by
  simp [wire, toUtf8, utf8EncodeChar, h]

theorem data_ne_of_head (t : QString) (ch : Char) (h : ch.toNat ≤ 0x7f)
    (hne : ch.toNat ≠ 68) : wire "DATA".toList ≠ wire (ch :: t) := by
  rw [wire_cons_ascii ch t h]
  have hd : wire "DATA".toList = 68 :: wire "ATA".toList := wire_cons_ascii _ _ (by decide)
  rw [hd]
  intro heq
  exact hne (List.cons.inj heq).1.symm

theorem data_not_mem_rcptCommands (email : MimeMessage) (n : Nat) :
    wire "DATA".toList ∉ ((rcptCommands email).take n).map wire := by
  intro h
  obtain ⟨t, ht, heq⟩ := List.mem_map.mp h
  have ht2 := List.mem_of_mem_take ht
  simp only [rcptCommands, List.mem_append, List.mem_map] at ht2
  rcases ht2 with ⟨a, _, ha⟩ | ⟨a, _, ha⟩ | ⟨a, _, ha⟩ <;> subst ha <;>
    exact data_ne_of_head _ (Char.ofNat 82) (by decide) (by decide) heq.symm

/-- C1: `sendMail` on a socket where no write times out and `MAIL FROM` is answered
by a well-formed response of code 250.  When the next responses are N well-formed
responses of code 250, N being the total length of the To, Cc and Bcc lists, the
commands written are `MAIL FROM`, then exactly the N `RCPT TO` commands of
`rcptCommands` (the To addresses in list order, then Cc, then Bcc), then `DATA`
and what follows it.  When the responses to the first `k - 1` recipients have code
250 and the `k`-th has another code, the commands written are `MAIL FROM` and
exactly the first `k` `RCPT TO` commands, `DATA` is not written, and `sendMail`
returns false. -/
theorem sendMail_rcpt_commands (c : SmtpClient) (email : MimeMessage) (mail : Reply)
    (hs : NoSendTimeout c) (hb : c.socket.buffer = []) (hmw : mail.wellFormed = true)
    (hmc : mail.code = 250) :
    (∀ (rcpts : List Reply) (rest : List (Option (List QString))),
        c.socket.arrivals = mail.arrivals ++ (arrivalsOf rcpts ++ rest) →
        rcpts.length = email.recipientsTo.length + email.recipientsCc.length +
          email.recipientsBcc.length →
        (∀ r ∈ rcpts, r.wellFormed = true ∧ r.code = 250) →
        ∃ tail, sentOf (eventsSince c (sendMail c email).2) =
            wire (mailFromCommand email) ::
              ((rcptCommands email).map wire ++ wire "DATA".toList :: tail) ∧
          (tail = [] ∨ tail = [wire email.content, wire ".".toList])) ∧
      (∀ (pre : List Reply) (bad : Reply) (rest : List (Option (List QString))),
        c.socket.arrivals = mail.arrivals ++ (arrivalsOf (pre ++ [bad]) ++ rest) →
        pre.length < email.recipientsTo.length + email.recipientsCc.length +
          email.recipientsBcc.length →
        (∀ r ∈ pre, r.wellFormed = true ∧ r.code = 250) →
        bad.wellFormed = true → bad.code ≠ 250 →
        (sendMail c email).1 = false ∧
          sentOf (eventsSince c (sendMail c email).2) =
            wire (mailFromCommand email) ::
              ((rcptCommands email).take (pre.length + 1)).map wire ∧
          wire "DATA".toList ∉ sentOf (eventsSince c (sendMail c email).2)) := by
  refine ⟨?_, ?_⟩
  · intro rcpts rest ha hl hok
    obtain ⟨s1, w1⟩ := exchange c (mailFromCommand email) mail (arrivalsOf rcpts ++ rest)
      hs hb ha hmw
    obtain ⟨c3, h1, h2, _, _, h5⟩ := commandLoop_accepted (rcptCommands email) rcpts
      (afterExchange c (mailFromCommand email) mail (arrivalsOf rcpts ++ rest)) rest
      (by rw [rcptCommands_length]; exact hl) hok (afterExchange_noSendTimeout hs _ _ _)
      rfl rfl
    obtain ⟨evs, tail, t6, n6, htail⟩ := sendData_sent c3 email h2
    have hrun : sendMail c email = sendData c3 email := by
      rw [sendMail_eq]
      simp only [s1, w1, afterExchange_responseCode, h1]
      simp [hmc]
    refine ⟨tail, ?_, htail⟩
    rw [hrun, eventsSince_of_trace c _
      (([Event.write (wire (mailFromCommand email)), Event.waitForBytesWritten true] ++
        mail.events) ++ scriptEvents (rcptCommands email) rcpts ++ evs)
      (by rw [t6, h5]; simp)]
    have hlen : rcpts.length = (rcptCommands email).length := by
      rw [rcptCommands_length]; exact hl
    simp [sentOf_append, sentOf, sentOf_scriptEvents, n6, hlen]
  · intro pre bad rest ha hl hok hbw hbc
    obtain ⟨s1, w1⟩ := exchange c (mailFromCommand email) mail
      (arrivalsOf (pre ++ [bad]) ++ rest) hs hb ha hmw
    obtain ⟨c3, h1, h5⟩ := commandLoop_rejected (rcptCommands email) pre bad
      (afterExchange c (mailFromCommand email) mail (arrivalsOf (pre ++ [bad]) ++ rest)) rest
      (by rw [rcptCommands_length]; exact hl) hok hbw hbc
      (afterExchange_noSendTimeout hs _ _ _) rfl rfl
    have hrun : sendMail c email = (false, c3) := by
      rw [sendMail_eq]
      simp only [s1, w1, afterExchange_responseCode, h1]
      simp [hmc]
    have hsent : sentOf (eventsSince c (sendMail c email).2) =
        wire (mailFromCommand email) ::
          ((rcptCommands email).take (pre.length + 1)).map wire := by
      rw [hrun, eventsSince_of_trace c _
        (([Event.write (wire (mailFromCommand email)), Event.waitForBytesWritten true] ++
          mail.events) ++ scriptEvents (rcptCommands email) (pre ++ [bad]))
        (by rw [h5]; simp)]
      simp [sentOf_append, sentOf, sentOf_scriptEvents]
    refine ⟨by rw [hrun], hsent, ?_⟩
    rw [hsent]
    intro hmem
    rcases List.mem_cons.mp hmem with h | h
    · exact data_ne_of_head _ (Char.ofNat 77) (by decide) (by decide) h
    · exact data_not_mem_rcptCommands email _ h

theorem sendMail_rcpt_commands_witness :
    (sendMail (scripted (arrivalsOf [Reply.single "250 sender ok", Reply.single "250 ok",
        Reply.single "550 no such user"]) [] ConnectionType.TcpConnection) sampleMail).1 =
        false ∧
      sentOf (eventsSince
        (scripted (arrivalsOf [Reply.single "250 sender ok", Reply.single "250 ok",
          Reply.single "550 no such user"]) [] ConnectionType.TcpConnection)
        (sendMail (scripted (arrivalsOf [Reply.single "250 sender ok", Reply.single "250 ok",
          Reply.single "550 no such user"]) [] ConnectionType.TcpConnection) sampleMail).2) =
        [wire "MAIL FROM: <alice@example.com>".toList, wire "RCPT TO:<bob@example.com>".toList,
          wire "RCPT TO:<carol@example.com>".toList] := by
  have h := (sendMail_rcpt_commands
    (scripted (arrivalsOf [Reply.single "250 sender ok", Reply.single "250 ok",
      Reply.single "550 no such user"]) [] ConnectionType.TcpConnection) sampleMail
    (Reply.single "250 sender ok") (by intro b hb; cases hb) rfl (by decide) (by decide)).2
    [Reply.single "250 ok"] (Reply.single "550 no such user") [] (by rfl) (by decide)
    (by decide) (by decide) (by decide)
  exact ⟨h.1, h.2.1⟩


/-! ## The whole transaction (C2) -/

theorem exists_first_rejected (rs : List Reply) (h : ¬ ∀ r ∈ rs, r.code = 250) :
    ∃ pre bad post, rs = pre ++ bad :: post ∧ (∀ r ∈ pre, r.code = 250) ∧ bad.code ≠ 250 := by
  induction rs with
  | nil => simp at h
  | cons r rs ih =>
    by_cases hr : r.code = 250
    · have h2 : ¬ ∀ x ∈ rs, x.code = 250 := by
        intro hall
        apply h
        intro x hx
        rcases List.mem_cons.mp hx with hx | hx
        · rw [hx]; exact hr
        · exact hall x hx
      obtain ⟨pre, bad, post, h3, h4, h5⟩ := ih h2
      refine ⟨r :: pre, bad, post, by rw [h3]; rfl, ?_, h5⟩
      intro x hx
      rcases List.mem_cons.mp hx with hx | hx
      · rw [hx]; exact hr
      · exact h4 x hx
    · exact ⟨[], r, rs, rfl, by simp, hr⟩

/-- The run of `sendMail` from `DATA` on when no write times out and both the
`DATA` command and the terminating `.` are answered. -/
theorem sendData_run (c : SmtpClient) (email : MimeMessage) (data fin : Reply)
    (rest : List (Option (List QString))) (hs : NoSendTimeout c) (hb : c.socket.buffer = [])
    (ha : c.socket.arrivals = data.arrivals ++ (fin.arrivals ++ rest))
    (hdw : data.wellFormed = true) (hfw : fin.wellFormed = true) :
    ∃ c5, sendData c email = (decide (data.code = 354 ∧ fin.code = 250), c5) ∧
      (data.code = 354 → c5.trace = c.trace ++ (exchangeEvents "DATA".toList data ++
        ([Event.write (wire email.content), Event.waitForBytesWritten true] ++
          exchangeEvents ".".toList fin))) := by
  obtain ⟨s1, w1⟩ := exchange c "DATA".toList data (fin.arrivals ++ rest) hs hb ha hdw
  have hs2 := afterExchange_noSendTimeout hs "DATA".toList data (fin.arrivals ++ rest)
  have s3 := sendMessage_flushed _ email.content hs2.headD
  obtain ⟨s4, w4⟩ := exchange
    (afterSend (afterExchange c "DATA".toList data (fin.arrivals ++ rest)) email.content)
    ".".toList fin rest (hs2.afterSend _) rfl rfl hfw
  by_cases hd : data.code = 354
  · refine ⟨afterExchange
      (afterSend (afterExchange c "DATA".toList data (fin.arrivals ++ rest)) email.content)
      ".".toList fin rest, ?_, ?_⟩
    · simp only [sendData, s1, w1, s3, s4, w4, afterExchange_responseCode]
      by_cases hf : fin.code = 250 <;> simp [hd, hf]
    · intro _
      simp [afterSend, exchangeEvents]
  · refine ⟨afterExchange c "DATA".toList data (fin.arrivals ++ rest), ?_, ?_⟩
    · simp only [sendData, s1, w1, afterExchange_responseCode]
      simp [hd]
    · intro h; exact absurd h hd

/-- C2: `sendMail` on a socket where no write times out and whose script answers
`MAIL FROM`, each of the N recipients, `DATA` and the terminating `.` by
well-formed responses.  It returns true if and only if the codes of these
responses are 250, 250 for every recipient, 354 and 250; and when it returns true
the lines written are exactly `MAIL FROM: <sender>`, one `RCPT TO` per recipient
in the order of `rcptCommands`, `DATA`, the message text and `.`. -/
theorem sendMail_true_iff (c : SmtpClient) (email : MimeMessage) (mail : Reply)
    (rcpts : List Reply) (data fin : Reply) (rest : List (Option (List QString)))
    (hs : NoSendTimeout c) (hb : c.socket.buffer = [])
    (ha : c.socket.arrivals = arrivalsOf (mail :: rcpts ++ [data, fin]) ++ rest)
    (hl : rcpts.length = email.recipientsTo.length + email.recipientsCc.length +
      email.recipientsBcc.length)
    (hw : ∀ r ∈ mail :: rcpts ++ [data, fin], r.wellFormed = true) :
    ((sendMail c email).1 = true ↔
        mail.code = 250 ∧ (∀ r ∈ rcpts, r.code = 250) ∧ data.code = 354 ∧ fin.code = 250) ∧
      ((sendMail c email).1 = true →
        sentOf (eventsSince c (sendMail c email).2) =
          wire (mailFromCommand email) :: ((rcptCommands email).map wire ++
            [wire "DATA".toList, wire email.content, wire ".".toList])) := by
  have hmw : mail.wellFormed = true := hw mail (by simp)
  have hrw : ∀ r ∈ rcpts, r.wellFormed = true := fun r hr => hw r (by simp [hr])
  have hdw : data.wellFormed = true := hw data (by simp)
  have hfw : fin.wellFormed = true := hw fin (by simp)
  have ha2 : c.socket.arrivals = mail.arrivals ++
      (arrivalsOf rcpts ++ (data.arrivals ++ (fin.arrivals ++ rest))) := by
    rw [ha]
    simp [arrivalsOf, List.flatMap_cons, List.flatMap_append]
  obtain ⟨s1, w1⟩ := exchange c (mailFromCommand email) mail _ hs hb ha2 hmw
  have hs1 := afterExchange_noSendTimeout hs (mailFromCommand email) mail
    (arrivalsOf rcpts ++ (data.arrivals ++ (fin.arrivals ++ rest)))
  by_cases hm : mail.code = 250
  swap
  · have hrun : (sendMail c email).1 = false := by
      rw [sendMail_eq]
      simp only [s1, w1, afterExchange_responseCode]
      simp [hm]
    rw [hrun]
    simp [hm]
  by_cases hr : ∀ r ∈ rcpts, r.code = 250
  swap
  · obtain ⟨pre, bad, post, h3, h4, h5⟩ := exists_first_rejected rcpts hr
    have hlen : pre.length < (rcptCommands email).length := by
      rw [rcptCommands_length, ← hl, h3]
      simp
    obtain ⟨c3, h1, _⟩ := commandLoop_rejected (rcptCommands email) pre bad
      (afterExchange c (mailFromCommand email) mail
        (arrivalsOf rcpts ++ (data.arrivals ++ (fin.arrivals ++ rest))))
      (arrivalsOf post ++ (data.arrivals ++ (fin.arrivals ++ rest))) hlen
      (fun x hx => ⟨hrw x (by rw [h3]; simp [hx]), h4 x hx⟩)
      (hrw bad (by rw [h3]; simp)) h5 hs1 rfl
      (by rw [afterExchange_arrivals, h3]
          simp [arrivalsOf, List.flatMap_cons, List.flatMap_append])
    have hrun : (sendMail c email).1 = false := by
      rw [sendMail_eq]
      simp only [s1, w1, afterExchange_responseCode, h1]
      simp [hm]
    rw [hrun]
    simp [hr]
  obtain ⟨c3, h1, h2, h3, h4, h5⟩ := commandLoop_accepted (rcptCommands email) rcpts
    (afterExchange c (mailFromCommand email) mail
      (arrivalsOf rcpts ++ (data.arrivals ++ (fin.arrivals ++ rest))))
    (data.arrivals ++ (fin.arrivals ++ rest))
    (by rw [rcptCommands_length]; exact hl) (fun x hx => ⟨hrw x hx, hr x hx⟩) hs1 rfl rfl
  obtain ⟨c5, h6, h7⟩ := sendData_run c3 email data fin rest h2 h3 h4 hdw hfw
  have hrun : sendMail c email = (decide (data.code = 354 ∧ fin.code = 250), c5) := by
    rw [sendMail_eq]
    simp only [s1, w1, afterExchange_responseCode, h1]
    simp [hm, h6]
  rw [hrun]
  refine ⟨?_, ?_⟩
  · simp only [decide_eq_true_eq]
    exact ⟨fun h => ⟨hm, hr, h.1, h.2⟩, fun h => ⟨h.2.2.1, h.2.2.2⟩⟩
  intro htrue
  have hd : data.code = 354 := by
    simp only [decide_eq_true_eq] at htrue
    exact htrue.1
  have hlen : rcpts.length = (rcptCommands email).length := by
    rw [rcptCommands_length]; exact hl
  rw [eventsSince_of_trace c _
    (([Event.write (wire (mailFromCommand email)), Event.waitForBytesWritten true] ++
      mail.events) ++ scriptEvents (rcptCommands email) rcpts ++
      (exchangeEvents "DATA".toList data ++
        ([Event.write (wire email.content), Event.waitForBytesWritten true] ++
          exchangeEvents ".".toList fin)))
    (by rw [h7 hd, h5]; simp)]
  simp [sentOf_append, sentOf, sentOf_scriptEvents, sentOf_exchangeEvents, hlen]

theorem sendMail_true_iff_witness :
    (sendMail (scripted (arrivalsOf [Reply.single "250 sender ok", Reply.single "250 ok",
        Reply.single "250 ok", Reply.single "250 ok", Reply.single "354 go ahead",
        Reply.single "250 queued"]) [] ConnectionType.TcpConnection) sampleMail).1 = true ∧
      sentOf (eventsSince
        (scripted (arrivalsOf [Reply.single "250 sender ok", Reply.single "250 ok",
          Reply.single "250 ok", Reply.single "250 ok", Reply.single "354 go ahead",
          Reply.single "250 queued"]) [] ConnectionType.TcpConnection)
        (sendMail (scripted (arrivalsOf [Reply.single "250 sender ok", Reply.single "250 ok",
          Reply.single "250 ok", Reply.single "250 ok", Reply.single "354 go ahead",
          Reply.single "250 queued"]) [] ConnectionType.TcpConnection) sampleMail).2) =
        [wire "MAIL FROM: <alice@example.com>".toList, wire "RCPT TO:<bob@example.com>".toList,
          wire "RCPT TO:<carol@example.com>".toList, wire "RCPT TO: <dave@example.com>".toList,
          wire "DATA".toList, wire "Subject: hi\r\n\r\nhello".toList, wire ".".toList] := by
  have h := sendMail_true_iff
    (scripted (arrivalsOf [Reply.single "250 sender ok", Reply.single "250 ok",
      Reply.single "250 ok", Reply.single "250 ok", Reply.single "354 go ahead",
      Reply.single "250 queued"]) [] ConnectionType.TcpConnection) sampleMail
    (Reply.single "250 sender ok")
    [Reply.single "250 ok", Reply.single "250 ok", Reply.single "250 ok"]
    (Reply.single "354 go ahead") (Reply.single "250 queued") []
    (by intro b hb; cases hb) rfl (by rfl) (by decide) (by decide)
  have ht := h.1.mpr (by decide)
  exact ⟨ht, h.2 ht⟩


/-! ## Connecting (C3) -/

/-- C3: when the transport connects and the greeting, a well-formed response,
has a code other than 220, `connectToHost` returns false, emits `ServerError`
(after the signals of the reader, as the last signal of the call) and writes
nothing to the socket. -/
theorem connectToHost_rejects_greeting (c : SmtpClient) (greeting : Reply)
    (rest : List (Option (List QString))) (hconn : c.socket.connects = true)
    (hbuf : c.socket.buffer = [])
    (harr : c.socket.arrivals = greeting.arrivals ++ rest)
    (hwf : greeting.wellFormed = true) (hcode : greeting.code ≠ 220) :
    (connectToHost c).1 = false ∧
      SmtpError.ServerError ∈ signalsOf (eventsSince c (connectToHost c).2) ∧
      signalsOf (eventsSince c (connectToHost c).2) =
        greeting.lines.flatMap advisory ++ [SmtpError.ServerError] ∧
      sentOf (eventsSince c (connectToHost c).2) = [] := by
  have hw : ∀ c1 : SmtpClient, c1.socket.buffer = [] →
      c1.socket.arrivals = c.socket.arrivals →
      waitForResponse c1 = (Except.ok (), afterRead c1 greeting.events greeting.fin [] rest) :=
    fun c1 h1 h2 => waitForResponse_reply c1 greeting rest h1 (h2.trans harr) hwf
  have hcode2 : ¬ codeOf greeting.fin = 220 := hcode
  generalize hres : connectToHost c = res
  unfold connectToHost at hres
  cases hct : c.connectionType <;> rw [hct] at hres <;>
    simp only [socketWaitForConnected, record, hconn] at hres <;>
    rw [hw _ (by exact hbuf) (by rfl)] at hres <;>
    subst hres <;>
    simp [afterRead, hcode2, emit, record, eventsSince, signalsOf_append, sentOf_append,
      signalsOf, sentOf]

theorem connectToHost_rejects_greeting_witness :
    (connectToHost (scripted (Reply.single "554 no service").arrivals []
        ConnectionType.TlsConnection)).1 = false ∧
      SmtpError.ServerError ∈ signalsOf (eventsSince
        (scripted (Reply.single "554 no service").arrivals [] ConnectionType.TlsConnection)
        (connectToHost (scripted (Reply.single "554 no service").arrivals []
          ConnectionType.TlsConnection)).2) ∧
      sentOf (eventsSince
        (scripted (Reply.single "554 no service").arrivals [] ConnectionType.TlsConnection)
        (connectToHost (scripted (Reply.single "554 no service").arrivals []
          ConnectionType.TlsConnection)).2) = [] := by
  have h := connectToHost_rejects_greeting
    (scripted (Reply.single "554 no service").arrivals [] ConnectionType.TlsConnection)
    (Reply.single "554 no service") [] rfl rfl (by simp [scripted]) (by decide) (by decide)
  exact ⟨h.1, h.2.1, h.2.2.2⟩


/-! ## Signals of `connectToHost` (C4) -/

theorem Progress.connected {c0 c c1 : SmtpClient} (h : Progress c0 c)
    (hr : socketWaitForConnected c = (true, c1)) : Progress c0 c1 := by
  simp only [socketWaitForConnected, Prod.mk.injEq] at hr
  obtain ⟨h1, h2⟩ := hr
  subst h2
  rw [h1]
  exact h.extend [Event.waitForConnected true] rfl (Smooth.of_quiet _ (by simp [failedWait]) rfl rfl)

theorem Progress.not_connected {c0 c c1 : SmtpClient} (h : Progress c0 c)
    (hr : socketWaitForConnected c = (false, c1)) :
    StoppedOn connectFailureTails c0 (emit c1 SmtpError.ConnectionTimeoutError) := by
  simp only [socketWaitForConnected, Prod.mk.injEq] at hr
  obtain ⟨h1, h2⟩ := hr
  subst h2
  rw [h1]
  exact h.stop _ [] [Event.waitForConnected false,
    Event.smtpError SmtpError.ConnectionTimeoutError] (by simp [emit, record]) Smooth.nil
    (by simp [connectFailureTails])

theorem Progress.encrypted {c0 c c1 : SmtpClient} (h : Progress c0 c)
    (hr : socketWaitForEncrypted c = (true, c1)) : Progress c0 c1 := by
  simp only [socketWaitForEncrypted, Prod.mk.injEq] at hr
  obtain ⟨h1, h2⟩ := hr
  subst h2
  rw [h1]
  exact h.extend [Event.startClientEncryption, Event.waitForEncrypted true]
    (by simp [record]) (Smooth.of_quiet _ (by simp [failedWait]) rfl rfl)

theorem Progress.not_encrypted {c0 c c1 : SmtpClient} (h : Progress c0 c)
    (hr : socketWaitForEncrypted c = (false, c1)) :
    StoppedOn connectFailureTails c0 (emit c1 SmtpError.ConnectionTimeoutError) := by
  simp only [socketWaitForEncrypted, Prod.mk.injEq] at hr
  obtain ⟨h1, h2⟩ := hr
  subst h2
  rw [h1]
  exact h.stop _ [Event.startClientEncryption] [Event.waitForEncrypted false,
    Event.smtpError SmtpError.ConnectionTimeoutError] (by simp [emit, record])
    (Smooth.of_quiet _ (by simp [failedWait]) rfl rfl) (by simp [connectFailureTails])

theorem connectToHost_outcome (c : SmtpClient) :
    ((connectToHost c).1 = true ∧ Progress c (connectToHost c).2) ∨
      ((connectToHost c).1 = false ∧
        StoppedOn connectFailureTails c (connectToHost c).2) := by
  have hopen : ∀ ev, failedWait ev = false → signalsOf [ev] = [] → linesOf [ev] = [] →
      Progress c (record c ev) := fun ev a b d => (Progress.refl c).record_call ev a b d
  have hrt : [Event.waitForReadyRead false, Event.smtpError SmtpError.ResponseTimeoutError] ∈
      connectFailureTails := by simp [connectFailureTails]
  have hst : [Event.waitForBytesWritten false,
      Event.smtpError SmtpError.SendDataTimeoutError] ∈ connectFailureTails := by
    simp [connectFailureTails]
  have hse : [Event.smtpError SmtpError.ServerError] ∈ connectFailureTails := by
    simp [connectFailureTails]
  generalize hres : connectToHost c = res
  unfold connectToHost at hres
  split at hres
  all_goals
    simp only [] at hres
    split at hres
    · rename_i c1 h1
      subst hres
      first
        | exact Or.inr ⟨rfl, (hopen Event.connectToHost rfl rfl rfl).not_connected h1⟩
        | exact Or.inr ⟨rfl, (hopen Event.connectToHostEncrypted rfl rfl rfl).not_connected h1⟩
    rename_i c1 h1
    have p1 : Progress c c1 := by
      first
        | exact (hopen Event.connectToHost rfl rfl rfl).connected h1
        | exact (hopen Event.connectToHostEncrypted rfl rfl rfl).connected h1
    split at hres
    · rename_i e2 c2 h2
      subst hres
      exact Or.inr ⟨rfl, p1.read_error h2 _ hrt⟩
    rename_i u2 c2 h2
    have p2 := p1.read_ok h2
    split at hres
    · subst hres
      exact Or.inr ⟨rfl, p2.emit_stop _ _ hse⟩
    split at hres
    · rename_i e3 c3 h3
      subst hres
      exact Or.inr ⟨rfl, p2.send_error h3 _ hst⟩
    rename_i u3 c3 h3
    have p3 := p2.send_ok h3
    split at hres
    · rename_i e4 c4 h4
      subst hres
      exact Or.inr ⟨rfl, p3.read_error h4 _ hrt⟩
    rename_i u4 c4 h4
    have p4 := p3.read_ok h4
    split at hres
    · subst hres
      exact Or.inr ⟨rfl, p4.emit_stop _ _ hse⟩
    split at hres
    swap
    · subst hres
      exact Or.inl ⟨rfl, p4⟩
    split at hres
    · rename_i e5 c5 h5
      subst hres
      exact Or.inr ⟨rfl, p4.send_error h5 _ hst⟩
    rename_i u5 c5 h5
    have p5 := p4.send_ok h5
    split at hres
    · rename_i e6 c6 h6
      subst hres
      exact Or.inr ⟨rfl, p5.read_error h6 _ hrt⟩
    rename_i u6 c6 h6
    have p6 := p5.read_ok h6
    split at hres
    · subst hres
      exact Or.inr ⟨rfl, p6.emit_stop _ _ hse⟩
    split at hres
    · rename_i c7 h7
      subst hres
      exact Or.inr ⟨rfl, p6.not_encrypted h7⟩
    rename_i c7 h7
    have p7 := p6.encrypted h7
    split at hres
    · rename_i e8 c8 h8
      subst hres
      exact Or.inr ⟨rfl, p7.send_error h8 _ hst⟩
    rename_i u8 c8 h8
    have p8 := p7.send_ok h8
    split at hres
    · rename_i e9 c9 h9
      subst hres
      exact Or.inr ⟨rfl, p8.read_error h9 _ hrt⟩
    rename_i u9 c9 h9
    have p9 := p8.read_ok h9
    split at hres
    · subst hres
      exact Or.inr ⟨rfl, p9.emit_stop _ _ hse⟩
    · subst hres
      exact Or.inl ⟨rfl, p9⟩

theorem linesOf_of_mem_connectFailureTails {tail : List Event}
    (h : tail ∈ connectFailureTails) : linesOf tail = [] := by
  simp only [connectFailureTails, List.mem_cons, List.mem_singleton, List.not_mem_nil,
    or_false] at h
  rcases h with h | h | h | h | h <;> subst h <;> rfl

/-- C4 (amended): in every run of `connectToHost` the events of the call are
events without any timed out call, followed, exactly when the run returns false,
by one of the failure tails: `ServerError` alone (a response with the wrong code),
or a timed out `waitForConnected` or `waitForEncrypted` with
`ConnectionTimeoutError`, a timed out `waitForReadyRead` with
`ResponseTimeoutError`, a timed out `waitForBytesWritten` with
`SendDataTimeoutError`.  The signals of the call are the signals of the response
reader, one per line read with a code in 400..599, followed by the signal of that
tail: one signal more when the run returns false, none more when it returns true. -/
theorem connectToHost_signals (c : SmtpClient) :
    ∃ sm tail, eventsSince c (connectToHost c).2 = sm ++ tail ∧
      (∀ ev ∈ sm, failedWait ev = false) ∧
      signalsOf (eventsSince c (connectToHost c).2) =
        (linesOf (eventsSince c (connectToHost c).2)).flatMap advisory ++ signalsOf tail ∧
      (((connectToHost c).1 = true ∧ tail = []) ∨
        ((connectToHost c).1 = false ∧ tail ∈ connectFailureTails)) := by
  rcases connectToHost_outcome c with ⟨hr, sm, ht, hs⟩ | ⟨hr, sm, tail, ht, hs, hm⟩
  · refine ⟨sm, [], ?_, hs.1, ?_, Or.inl ⟨hr, rfl⟩⟩
    · simp [eventsSince, ht]
    · simp [eventsSince, ht, hs.2, signalsOf]
  · refine ⟨sm, tail, ?_, hs.1, ?_, Or.inr ⟨hr, hm⟩⟩
    · simp [eventsSince, ht]
    · simp [eventsSince, ht, signalsOf_append, linesOf_append, hs.2,
        linesOf_of_mem_connectFailureTails hm]

/-- C4 (counterexample): with the greeting `421 busy` the run returns false after
two signals, the `ServerError` of the reader for the 4xx line and the `ServerError`
of `connectToHost` for the wrong code; and with a greeting whose continuation line
starts with 421 and whose last line starts with 220 the run returns true after one
signal. -/
theorem connectToHost_two_signals :
    ((connectToHost (scripted [some ["421 busy".toList]] [] ConnectionType.TcpConnection)).1 =
        false ∧
      signalsOf (eventsSince
        (scripted [some ["421 busy".toList]] [] ConnectionType.TcpConnection)
        (connectToHost
          (scripted [some ["421 busy".toList]] [] ConnectionType.TcpConnection)).2) =
        [SmtpError.ServerError, SmtpError.ServerError]) ∧
      ((connectToHost (scripted [some ["421-wait".toList, "220 ready".toList],
          some ["250 ok".toList]] [] ConnectionType.TcpConnection)).1 = true ∧
        signalsOf (eventsSince
          (scripted [some ["421-wait".toList, "220 ready".toList], some ["250 ok".toList]] []
            ConnectionType.TcpConnection)
          (connectToHost (scripted [some ["421-wait".toList, "220 ready".toList],
            some ["250 ok".toList]] [] ConnectionType.TcpConnection)).2) =
          [SmtpError.ServerError]) := by
  decide


/-! ## Authentication (C5, C6) -/

/-- The run of `login` with `AuthPlain` when the command is flushed and answered. -/
theorem login_plain_run (c : SmtpClient) (user password : QString) (r : Reply)
    (rest : List (Option (List QString))) (hs : NoSendTimeout c) (hb : c.socket.buffer = [])
    (ha : c.socket.arrivals = r.arrivals ++ rest) (hw : r.wellFormed = true) :
    login c user password AuthMethod.AuthPlain =
      if r.code ≠ 235 then
        (false, emit (afterExchange c (authPlainCommand user password) r rest)
          SmtpError.AuthenticationFailedError)
      else (true, afterExchange c (authPlainCommand user password) r rest) := by
  obtain ⟨h1, h2⟩ := exchange c (authPlainCommand user password) r rest hs hb ha hw
  simp only [login, h1, h2, afterExchange_responseCode]

/-- C5: `login` with `AuthPlain`, when no write times out and the command is
answered by a well-formed response, sends exactly one command; it returns true
if the response code is 235, and for any other code it returns false and emits
`AuthenticationFailedError`. -/
theorem login_plain_one_command (c : SmtpClient) (user password : QString) (r : Reply)
    (rest : List (Option (List QString))) (hs : NoSendTimeout c) (hb : c.socket.buffer = [])
    (ha : c.socket.arrivals = r.arrivals ++ rest) (hw : r.wellFormed = true) :
    sentOf (eventsSince c (login c user password AuthMethod.AuthPlain).2) =
        [wire (authPlainCommand user password)] ∧
      (r.code = 235 → (login c user password AuthMethod.AuthPlain).1 = true) ∧
      (r.code ≠ 235 → (login c user password AuthMethod.AuthPlain).1 = false ∧
        SmtpError.AuthenticationFailedError ∈
          signalsOf (eventsSince c (login c user password AuthMethod.AuthPlain).2)) := by
  rw [login_plain_run c user password r rest hs hb ha hw]
  by_cases h : r.code = 235 <;>
    simp [h, emit, record, eventsSince, sentOf_append, signalsOf_append, sentOf, signalsOf]

theorem login_plain_one_command_witness :
    sentOf (eventsSince (scripted (Reply.single "535 denied").arrivals [] ConnectionType.TcpConnection)
        (login (scripted (Reply.single "535 denied").arrivals [] ConnectionType.TcpConnection)
          "user".toList "secret".toList AuthMethod.AuthPlain).2) =
        [wire (authPlainCommand "user".toList "secret".toList)] ∧
      (login (scripted (Reply.single "535 denied").arrivals [] ConnectionType.TcpConnection)
          "user".toList "secret".toList AuthMethod.AuthPlain).1 = false ∧
      SmtpError.AuthenticationFailedError ∈
        signalsOf (eventsSince
          (scripted (Reply.single "535 denied").arrivals [] ConnectionType.TcpConnection)
          (login (scripted (Reply.single "535 denied").arrivals [] ConnectionType.TcpConnection)
            "user".toList "secret".toList AuthMethod.AuthPlain).2) := by
  have h := login_plain_one_command
    (scripted (Reply.single "535 denied").arrivals [] ConnectionType.TcpConnection)
    "user".toList "secret".toList (Reply.single "535 denied") []
    (by intro b hb; cases hb) rfl (by simp [scripted]) (by decide)
  exact ⟨h.1, h.2.2 (by decide)⟩


/-- C6: `login` with `AuthLogin`, when no write times out and every command sent
is answered by a well-formed response.  A first response `r1` with a code other
than 334 ends the call after `AUTH LOGIN` alone; a first response with code 334
and a second response `r2` with a code other than 334 end it after the Base64 user
name; with two 334 responses all three commands are sent and the call returns true
exactly when the third response `r3` has code 235.  Each wrong code makes `login`
return false and emit `AuthenticationFailedError`. -/
theorem login_authLogin_steps (c : SmtpClient) (user password : QString)
    (hs : NoSendTimeout c) (hb : c.socket.buffer = []) :
    (∀ (r1 : Reply) (rest : List (Option (List QString))),
        c.socket.arrivals = r1.arrivals ++ rest → r1.wellFormed = true → r1.code ≠ 334 →
        (login c user password AuthMethod.AuthLogin).1 = false ∧
          sentOf (eventsSince c (login c user password AuthMethod.AuthLogin).2) =
            [wire "AUTH LOGIN".toList] ∧
          SmtpError.AuthenticationFailedError ∈
            signalsOf (eventsSince c (login c user password AuthMethod.AuthLogin).2)) ∧
      (∀ (r1 r2 : Reply) (rest : List (Option (List QString))),
        c.socket.arrivals = r1.arrivals ++ (r2.arrivals ++ rest) →
        r1.wellFormed = true → r2.wellFormed = true → r1.code = 334 → r2.code ≠ 334 →
        (login c user password AuthMethod.AuthLogin).1 = false ∧
          sentOf (eventsSince c (login c user password AuthMethod.AuthLogin).2) =
            [wire "AUTH LOGIN".toList, wire (toBase64 (toUtf8 user))] ∧
          SmtpError.AuthenticationFailedError ∈
            signalsOf (eventsSince c (login c user password AuthMethod.AuthLogin).2)) ∧
      (∀ (r1 r2 r3 : Reply) (rest : List (Option (List QString))),
        c.socket.arrivals = r1.arrivals ++ (r2.arrivals ++ (r3.arrivals ++ rest)) →
        r1.wellFormed = true → r2.wellFormed = true → r3.wellFormed = true →
        r1.code = 334 → r2.code = 334 →
        sentOf (eventsSince c (login c user password AuthMethod.AuthLogin).2) =
            [wire "AUTH LOGIN".toList, wire (toBase64 (toUtf8 user)),
              wire (toBase64 (toUtf8 password))] ∧
          ((login c user password AuthMethod.AuthLogin).1 = true ↔ r3.code = 235) ∧
          (r3.code ≠ 235 → SmtpError.AuthenticationFailedError ∈
            signalsOf (eventsSince c (login c user password AuthMethod.AuthLogin).2))) := by
  refine ⟨?_, ?_, ?_⟩
  · intro r1 rest ha hw1 hc1
    obtain ⟨s1, w1⟩ := exchange c "AUTH LOGIN".toList r1 rest hs hb ha hw1
    have hrun : login c user password AuthMethod.AuthLogin =
        (false, emit (afterExchange c "AUTH LOGIN".toList r1 rest)
          SmtpError.AuthenticationFailedError) := by
      simp only [login, s1, w1, afterExchange_responseCode]
      simp [hc1]
    rw [hrun]
    simp [emit, record, eventsSince, sentOf_append, signalsOf_append, sentOf, signalsOf]
  · intro r1 r2 rest ha hw1 hw2 hc1 hc2
    obtain ⟨s1, w1⟩ := exchange c "AUTH LOGIN".toList r1 (r2.arrivals ++ rest) hs hb ha hw1
    obtain ⟨s2, w2⟩ := exchange (afterExchange c "AUTH LOGIN".toList r1 (r2.arrivals ++ rest))
      (toBase64 (toUtf8 user)) r2 rest (afterExchange_noSendTimeout hs _ _ _) rfl rfl hw2
    have hrun : login c user password AuthMethod.AuthLogin =
        (false, emit (afterExchange (afterExchange c "AUTH LOGIN".toList r1 (r2.arrivals ++ rest))
          (toBase64 (toUtf8 user)) r2 rest) SmtpError.AuthenticationFailedError) := by
      simp only [login, s1, w1, s2, w2, afterExchange_responseCode]
      simp [hc1, hc2]
    rw [hrun]
    simp [emit, record, eventsSince, sentOf_append, signalsOf_append, sentOf, signalsOf]
  · intro r1 r2 r3 rest ha hw1 hw2 hw3 hc1 hc2
    obtain ⟨s1, w1⟩ := exchange c "AUTH LOGIN".toList r1 (r2.arrivals ++ (r3.arrivals ++ rest))
      hs hb ha hw1
    obtain ⟨s2, w2⟩ := exchange
      (afterExchange c "AUTH LOGIN".toList r1 (r2.arrivals ++ (r3.arrivals ++ rest)))
      (toBase64 (toUtf8 user)) r2 (r3.arrivals ++ rest) (afterExchange_noSendTimeout hs _ _ _)
      rfl rfl hw2
    obtain ⟨s3, w3⟩ := exchange
      (afterExchange
        (afterExchange c "AUTH LOGIN".toList r1 (r2.arrivals ++ (r3.arrivals ++ rest)))
        (toBase64 (toUtf8 user)) r2 (r3.arrivals ++ rest))
      (toBase64 (toUtf8 password)) r3 rest
      (afterExchange_noSendTimeout (afterExchange_noSendTimeout hs _ _ _) _ _ _) rfl rfl hw3
    have hrun : login c user password AuthMethod.AuthLogin =
        if r3.code ≠ 235 then
          (false, emit (afterExchange (afterExchange
            (afterExchange c "AUTH LOGIN".toList r1 (r2.arrivals ++ (r3.arrivals ++ rest)))
            (toBase64 (toUtf8 user)) r2 (r3.arrivals ++ rest))
            (toBase64 (toUtf8 password)) r3 rest) SmtpError.AuthenticationFailedError)
        else
          (true, afterExchange (afterExchange
            (afterExchange c "AUTH LOGIN".toList r1 (r2.arrivals ++ (r3.arrivals ++ rest)))
            (toBase64 (toUtf8 user)) r2 (r3.arrivals ++ rest))
            (toBase64 (toUtf8 password)) r3 rest) := by
      simp only [login, s1, w1, s2, w2, s3, w3, afterExchange_responseCode]
      simp [hc1, hc2]
    rw [hrun]
    by_cases h3 : r3.code = 235 <;>
      simp [h3, emit, record, eventsSince, sentOf_append, signalsOf_append, sentOf, signalsOf]

theorem login_authLogin_steps_witness :
    (login (scripted (arrivalsOf [Reply.single "334 VXNlcm5hbWU6", Reply.single "535 no"]) []
        ConnectionType.TcpConnection) "user".toList "secret".toList AuthMethod.AuthLogin).1 =
        false ∧
      sentOf (eventsSince
        (scripted (arrivalsOf [Reply.single "334 VXNlcm5hbWU6", Reply.single "535 no"]) []
          ConnectionType.TcpConnection)
        (login (scripted (arrivalsOf [Reply.single "334 VXNlcm5hbWU6", Reply.single "535 no"]) []
          ConnectionType.TcpConnection) "user".toList "secret".toList
          AuthMethod.AuthLogin).2) =
        [wire "AUTH LOGIN".toList, wire "dXNlcg==".toList] := by
  have h := (login_authLogin_steps
    (scripted (arrivalsOf [Reply.single "334 VXNlcm5hbWU6", Reply.single "535 no"]) []
      ConnectionType.TcpConnection) "user".toList "secret".toList
    (by intro b hb; cases hb) rfl).2.1
    (Reply.single "334 VXNlcm5hbWU6") (Reply.single "535 no") [] (by rfl) (by decide)
    (by decide) (by decide) (by decide)
  exact ⟨h.1, h.2.1⟩


/-! ## Time-outs during `login` (C7) -/

theorem mem_timeoutTails_read :
    [Event.waitForReadyRead false, Event.smtpError SmtpError.ResponseTimeoutError] ∈
      timeoutTails := by
  simp [timeoutTails]

theorem mem_timeoutTails_send :
    [Event.waitForBytesWritten false, Event.smtpError SmtpError.SendDataTimeoutError] ∈
      timeoutTails := by
  simp [timeoutTails]

/-- Every run of `login` either returns true after smooth events, or returns
false after emitting `AuthenticationFailedError` from a state reached smoothly
(wrong code) or from a state stopped on a time-out tail. -/
theorem login_outcome (c : SmtpClient) (user password : QString) (method : AuthMethod) :
    ((login c user password method).1 = true ∧ Progress c (login c user password method).2) ∨
      ((login c user password method).1 = false ∧
        ∃ c1, (login c user password method).2 = emit c1 SmtpError.AuthenticationFailedError ∧
          (Progress c c1 ∨ StoppedOn timeoutTails c c1)) := by
  have p0 := Progress.refl c
  generalize hres : login c user password method = res
  unfold login at hres
  split at hres
  · split at hres
    · rename_i e1 c1 h1
      subst hres
      exact Or.inr ⟨rfl, c1, rfl, Or.inr (p0.send_error h1 _ mem_timeoutTails_send)⟩
    rename_i u1 c1 h1
    have p1 := p0.send_ok h1
    split at hres
    · rename_i e2 c2 h2
      subst hres
      exact Or.inr ⟨rfl, c2, rfl, Or.inr (p1.read_error h2 _ mem_timeoutTails_read)⟩
    rename_i u2 c2 h2
    have p2 := p1.read_ok h2
    split at hres
    · subst hres
      exact Or.inr ⟨rfl, c2, rfl, Or.inl p2⟩
    · subst hres
      exact Or.inl ⟨rfl, p2⟩
  · split at hres
    · rename_i e1 c1 h1
      subst hres
      exact Or.inr ⟨rfl, c1, rfl, Or.inr (p0.send_error h1 _ mem_timeoutTails_send)⟩
    rename_i u1 c1 h1
    have p1 := p0.send_ok h1
    split at hres
    · rename_i e2 c2 h2
      subst hres
      exact Or.inr ⟨rfl, c2, rfl, Or.inr (p1.read_error h2 _ mem_timeoutTails_read)⟩
    rename_i u2 c2 h2
    have p2 := p1.read_ok h2
    split at hres
    · subst hres
      exact Or.inr ⟨rfl, c2, rfl, Or.inl p2⟩
    split at hres
    · rename_i e3 c3 h3
      subst hres
      exact Or.inr ⟨rfl, c3, rfl, Or.inr (p2.send_error h3 _ mem_timeoutTails_send)⟩
    rename_i u3 c3 h3
    have p3 := p2.send_ok h3
    split at hres
    · rename_i e4 c4 h4
      subst hres
      exact Or.inr ⟨rfl, c4, rfl, Or.inr (p3.read_error h4 _ mem_timeoutTails_read)⟩
    rename_i u4 c4 h4
    have p4 := p3.read_ok h4
    split at hres
    · subst hres
      exact Or.inr ⟨rfl, c4, rfl, Or.inl p4⟩
    split at hres
    · rename_i e5 c5 h5
      subst hres
      exact Or.inr ⟨rfl, c5, rfl, Or.inr (p4.send_error h5 _ mem_timeoutTails_send)⟩
    rename_i u5 c5 h5
    have p5 := p4.send_ok h5
    split at hres
    · rename_i e6 c6 h6
      subst hres
      exact Or.inr ⟨rfl, c6, rfl, Or.inr (p5.read_error h6 _ mem_timeoutTails_read)⟩
    rename_i u6 c6 h6
    have p6 := p5.read_ok h6
    split at hres
    · subst hres
      exact Or.inr ⟨rfl, c6, rfl, Or.inl p6⟩
    · subst hres
      exact Or.inl ⟨rfl, p6⟩

theorem mem_advisory {e : SmtpError} {l : QString} (h : e ∈ advisory l) :
    e = SmtpError.ServerError ∨ e = SmtpError.ClientError := by
  unfold advisory at h
  rcases List.mem_append.mp h with h | h
  · split at h <;> simp at h
    exact Or.inl h
  · split at h <;> simp at h
    exact Or.inr h

theorem mem_flatMap_advisory {e : SmtpError} {ls : List QString}
    (h : e ∈ ls.flatMap advisory) :
    e = SmtpError.ServerError ∨ e = SmtpError.ClientError := by
  obtain ⟨l, _, hl⟩ := List.mem_flatMap.mp h
  exact mem_advisory hl

theorem Smooth.signal_cases {evs : List Event} (hs : Smooth evs) {e : SmtpError}
    (h : e ∈ signalsOf evs) : e = SmtpError.ServerError ∨ e = SmtpError.ClientError := by
  rw [hs.2] at h
  exact mem_flatMap_advisory h

theorem linesOf_of_mem_timeoutTails {tail : List Event} (h : tail ∈ timeoutTails) :
    linesOf tail = [] := by
  simp only [timeoutTails, List.mem_cons, List.mem_singleton, List.not_mem_nil,
    or_false] at h
  rcases h with h | h <;> subst h <;> rfl

/-- C7 (amended): in every `login` call during which a `waitForReadyRead` or a
`waitForBytesWritten` times out, `login` returns false and the events of the call
end with the timed out call, the signal emitted for it (`ResponseTimeoutError` or
`SendDataTimeoutError`) and `AuthenticationFailedError`: the signals of the call
are those of the response reader, then the time-out signal, then
`AuthenticationFailedError`. -/
theorem login_timeout_signals (c : SmtpClient) (user password : QString)
    (method : AuthMethod)
    (h : ∃ ev ∈ eventsSince c (login c user password method).2, failedWait ev = true) :
    (login c user password method).1 = false ∧
      ∃ sm tail, tail ∈ timeoutTails ∧ (∀ ev ∈ sm, failedWait ev = false) ∧
        eventsSince c (login c user password method).2 =
          sm ++ tail ++ [Event.smtpError SmtpError.AuthenticationFailedError] ∧
        signalsOf (eventsSince c (login c user password method).2) =
          (linesOf (eventsSince c (login c user password method).2)).flatMap advisory ++
            signalsOf tail ++ [SmtpError.AuthenticationFailedError] := by
  obtain ⟨ev, hev, hfail⟩ := h
  rcases login_outcome c user password method with ⟨_, sm, ht, hs⟩ | ⟨hr, c1, hc1, hp⟩
  · rw [eventsSince_of_trace c _ sm ht] at hev
    rw [hs.1 ev hev] at hfail
    cases hfail
  · rcases hp with ⟨sm, ht, hs⟩ | ⟨sm, tail, ht, hs, hm⟩
    · have ht2 : (login c user password method).2.trace =
          c.trace ++ (sm ++ [Event.smtpError SmtpError.AuthenticationFailedError]) := by
        rw [hc1]; simp [emit, record, ht]
      rw [eventsSince_of_trace c _ _ ht2] at hev
      rcases List.mem_append.mp hev with h1 | h1
      · rw [hs.1 ev h1] at hfail
        cases hfail
      · simp only [List.mem_singleton] at h1
        subst h1
        cases hfail
    · have ht2 : (login c user password method).2.trace =
          c.trace ++ (sm ++ tail ++ [Event.smtpError SmtpError.AuthenticationFailedError]) := by
        rw [hc1]; simp [emit, record, ht]
      refine ⟨hr, sm, tail, hm, hs.1, eventsSince_of_trace c _ _ ht2, ?_⟩
      rw [eventsSince_of_trace c _ _ ht2]
      simp [signalsOf_append, linesOf_append, hs.2, linesOf_of_mem_timeoutTails hm, signalsOf,
        linesOf]

theorem login_timeout_signals_witness :
    (login (scripted [] [] ConnectionType.TcpConnection) "user".toList "secret".toList
        AuthMethod.AuthPlain).1 = false ∧
      ∃ sm tail, tail ∈ timeoutTails ∧ (∀ ev ∈ sm, failedWait ev = false) ∧
        eventsSince (scripted [] [] ConnectionType.TcpConnection)
            (login (scripted [] [] ConnectionType.TcpConnection) "user".toList "secret".toList
              AuthMethod.AuthPlain).2 =
          sm ++ tail ++ [Event.smtpError SmtpError.AuthenticationFailedError] ∧
        signalsOf (eventsSince (scripted [] [] ConnectionType.TcpConnection)
            (login (scripted [] [] ConnectionType.TcpConnection) "user".toList "secret".toList
              AuthMethod.AuthPlain).2) =
          (linesOf (eventsSince (scripted [] [] ConnectionType.TcpConnection)
            (login (scripted [] [] ConnectionType.TcpConnection) "user".toList "secret".toList
              AuthMethod.AuthPlain).2)).flatMap advisory ++
            signalsOf tail ++ [SmtpError.AuthenticationFailedError] :=
  login_timeout_signals (scripted [] [] ConnectionType.TcpConnection) "user".toList
    "secret".toList AuthMethod.AuthPlain
    ⟨Event.waitForReadyRead false, by decide, rfl⟩

/-- C7 (counterexample): when the response to `AUTH PLAIN` never arrives, the
observers receive `ResponseTimeoutError` before `AuthenticationFailedError`. -/
theorem login_timeout_is_signalled :
    (login (scripted [] [] ConnectionType.TcpConnection) "user".toList "secret".toList
        AuthMethod.AuthPlain).1 = false ∧
      signalsOf (eventsSince (scripted [] [] ConnectionType.TcpConnection)
        (login (scripted [] [] ConnectionType.TcpConnection) "user".toList "secret".toList
          AuthMethod.AuthPlain).2) =
        [SmtpError.ResponseTimeoutError, SmtpError.AuthenticationFailedError] := by
  decide


/-! ## Quit (C8) -/

/-- C8 (amended): when the write of `QUIT` exceeds the send time-out while the
socket is in the connected state, the events of `quit` are the write, the timed out
`waitForBytesWritten`, the `SendDataTimeoutError` signal emitted by `sendMessage`
and the direct `disconnectFromHost`: exactly one error signal is emitted. -/
theorem quit_send_timeout (c : SmtpClient) (hf : c.socket.flushes.head? = some false)
    (hst : c.socket.state = SocketState.ConnectedState) :
    eventsSince c (quit c) =
        [Event.write (wire "QUIT".toList), Event.waitForBytesWritten false,
          Event.smtpError SmtpError.SendDataTimeoutError, Event.disconnectFromHost] ∧
      signalsOf (eventsSince c (quit c)) = [SmtpError.SendDataTimeoutError] := by
  have hd : c.socket.flushes.headD true = false := by
    cases hfl : c.socket.flushes with
    | nil => rw [hfl] at hf; cases hf
    | cons b bs => rw [hfl] at hf; simpa using hf
  have hq : eventsSince c (quit c) =
      [Event.write (wire "QUIT".toList), Event.waitForBytesWritten false,
        Event.smtpError SmtpError.SendDataTimeoutError, Event.disconnectFromHost] := by
    unfold quit
    rw [sendMessage_stalled c _ hd]
    simp [hst, socketDisconnectFromHost, record, eventsSince]
  rw [hq]
  exact ⟨rfl, rfl⟩

theorem quit_send_timeout_witness :
    eventsSince (scriptedConnected [] [false] ConnectionType.TcpConnection)
        (quit (scriptedConnected [] [false] ConnectionType.TcpConnection)) =
        [Event.write (wire "QUIT".toList), Event.waitForBytesWritten false,
          Event.smtpError SmtpError.SendDataTimeoutError, Event.disconnectFromHost] ∧
      signalsOf (eventsSince (scriptedConnected [] [false] ConnectionType.TcpConnection)
        (quit (scriptedConnected [] [false] ConnectionType.TcpConnection))) =
        [SmtpError.SendDataTimeoutError] :=
  quit_send_timeout (scriptedConnected [] [false] ConnectionType.TcpConnection) rfl rfl

/-- C8 (counterexample): a `quit` whose write times out on a connected socket
disconnects it, and the observers receive the signal `SendDataTimeoutError`. -/
theorem quit_emits_send_timeout :
    Event.disconnectFromHost ∈
        eventsSince (scriptedConnected [] [false] ConnectionType.TcpConnection)
          (quit (scriptedConnected [] [false] ConnectionType.TcpConnection)) ∧
      signalsOf (eventsSince (scriptedConnected [] [false] ConnectionType.TcpConnection)
        (quit (scriptedConnected [] [false] ConnectionType.TcpConnection))) ≠ [] ∧
      SmtpError.SendDataTimeoutError ∈
        signalsOf (eventsSince (scriptedConnected [] [false] ConnectionType.TcpConnection)
          (quit (scriptedConnected [] [false] ConnectionType.TcpConnection))) := by
  decide


/-! ## Time-outs during `sendMail` (C9) -/

theorem rcptLoop_outcome (opening : QString) (c0 : SmtpClient) (addrs : List QString) :
    ∀ c : SmtpClient, Progress c0 c →
      (((rcptLoop opening addrs c).1 = LoopExit.finished ∨
          (rcptLoop opening addrs c).1 = LoopExit.returnedFalse) ∧
        Progress c0 (rcptLoop opening addrs c).2) ∨
      ((∃ e, (rcptLoop opening addrs c).1 = LoopExit.threw e) ∧
        StoppedOn timeoutTails c0 (rcptLoop opening addrs c).2) := by
  induction addrs with
  | nil => intro c p; exact Or.inl ⟨Or.inl rfl, p⟩
  | cons a addrs ih =>
    intro c p
    generalize hres : rcptLoop opening (a :: addrs) c = res
    unfold rcptLoop at hres
    split at hres
    · rename_i e1 c1 h1
      subst hres
      exact Or.inr ⟨⟨e1, rfl⟩, p.send_error h1 _ mem_timeoutTails_send⟩
    rename_i u1 c1 h1
    have p1 := p.send_ok h1
    split at hres
    · rename_i e2 c2 h2
      subst hres
      exact Or.inr ⟨⟨e2, rfl⟩, p1.read_error h2 _ mem_timeoutTails_read⟩
    rename_i u2 c2 h2
    have p2 := p1.read_ok h2
    split at hres
    · subst hres
      exact Or.inl ⟨Or.inr rfl, p2⟩
    · subst hres
      exact ih c2 p2

theorem sendData_outcome (c0 c : SmtpClient) (email : MimeMessage) (p : Progress c0 c) :
    Progress c0 (sendData c email).2 ∨
      ((sendData c email).1 = false ∧ StoppedOn timeoutTails c0 (sendData c email).2) := by
  generalize hres : sendData c email = res
  unfold sendData at hres
  split at hres
  · rename_i e1 c1 h1
    subst hres
    exact Or.inr ⟨rfl, p.send_error h1 _ mem_timeoutTails_send⟩
  rename_i u1 c1 h1
  have p1 := p.send_ok h1
  split at hres
  · rename_i e2 c2 h2
    subst hres
    exact Or.inr ⟨rfl, p1.read_error h2 _ mem_timeoutTails_read⟩
  rename_i u2 c2 h2
  have p2 := p1.read_ok h2
  split at hres
  · subst hres
    exact Or.inl p2
  split at hres
  · rename_i e3 c3 h3
    subst hres
    exact Or.inr ⟨rfl, p2.send_error h3 _ mem_timeoutTails_send⟩
  rename_i u3 c3 h3
  have p3 := p2.send_ok h3
  split at hres
  · rename_i e4 c4 h4
    subst hres
    exact Or.inr ⟨rfl, p3.send_error h4 _ mem_timeoutTails_send⟩
  rename_i u4 c4 h4
  have p4 := p3.send_ok h4
  split at hres
  · rename_i e5 c5 h5
    subst hres
    exact Or.inr ⟨rfl, p4.read_error h5 _ mem_timeoutTails_read⟩
  rename_i u5 c5 h5
  have p5 := p4.read_ok h5
  split at hres <;> subst hres <;> exact Or.inl p5

/-- Every run of `sendMail` either ends after smooth events, or returns false
stopped on a time-out tail. -/
theorem sendMail_outcome (c : SmtpClient) (email : MimeMessage) :
    Progress c (sendMail c email).2 ∨
      ((sendMail c email).1 = false ∧ StoppedOn timeoutTails c (sendMail c email).2) := by
  have p0 := Progress.refl c
  generalize hres : sendMail c email = res
  unfold sendMail at hres
  split at hres
  · rename_i e1 c1 h1
    subst hres
    exact Or.inr ⟨rfl, p0.send_error h1 _ mem_timeoutTails_send⟩
  rename_i u1 c1 h1
  have p1 := p0.send_ok h1
  split at hres
  · rename_i e2 c2 h2
    subst hres
    exact Or.inr ⟨rfl, p1.read_error h2 _ mem_timeoutTails_read⟩
  rename_i u2 c2 h2
  have p2 := p1.read_ok h2
  split at hres
  · subst hres
    exact Or.inl p2
  have q3 := rcptLoop_outcome "RCPT TO:<".toList c email.recipientsTo c2 p2
  split at hres
  · rename_i e3 c3 h3
    subst hres
    rw [h3] at q3
    rcases q3 with ⟨h | h, _⟩ | ⟨_, h⟩
    · cases h
    · cases h
    · exact Or.inr ⟨rfl, h⟩
  · rename_i c3 h3
    subst hres
    rw [h3] at q3
    rcases q3 with ⟨_, h⟩ | ⟨⟨e, h⟩, _⟩
    · exact Or.inl h
    · cases h
  rename_i c3 h3
  rw [h3] at q3
  have p3 : Progress c c3 := by
    rcases q3 with ⟨_, h⟩ | ⟨⟨e, h⟩, _⟩
    · exact h
    · cases h
  have q4 := rcptLoop_outcome "RCPT TO:<".toList c email.recipientsCc c3 p3
  split at hres
  · rename_i e4 c4 h4
    subst hres
    rw [h4] at q4
    rcases q4 with ⟨h | h, _⟩ | ⟨_, h⟩
    · cases h
    · cases h
    · exact Or.inr ⟨rfl, h⟩
  · rename_i c4 h4
    subst hres
    rw [h4] at q4
    rcases q4 with ⟨_, h⟩ | ⟨⟨e, h⟩, _⟩
    · exact Or.inl h
    · cases h
  rename_i c4 h4
  rw [h4] at q4
  have p4 : Progress c c4 := by
    rcases q4 with ⟨_, h⟩ | ⟨⟨e, h⟩, _⟩
    · exact h
    · cases h
  have q5 := rcptLoop_outcome "RCPT TO: <".toList c email.recipientsBcc c4 p4
  split at hres
  · rename_i e5 c5 h5
    subst hres
    rw [h5] at q5
    rcases q5 with ⟨h | h, _⟩ | ⟨_, h⟩
    · cases h
    · cases h
    · exact Or.inr ⟨rfl, h⟩
  · rename_i c5 h5
    subst hres
    rw [h5] at q5
    rcases q5 with ⟨_, h⟩ | ⟨⟨e, h⟩, _⟩
    · exact Or.inl h
    · cases h
  rename_i c5 h5
  rw [h5] at q5
  have p5 : Progress c c5 := by
    rcases q5 with ⟨_, h⟩ | ⟨⟨e, h⟩, _⟩
    · exact h
    · cases h
  subst hres
  exact sendData_outcome c c5 email p5

/-- C9: in every run of `sendMail` in which a `waitForReadyRead` of a response
wait times out, `sendMail` returns false, the timed out call and the
`ResponseTimeoutError` emitted for it are the last two events of the run (so
nothing is written after the command whose response timed out), no call timed out
before it, and `ResponseTimeoutError` is emitted exactly once. -/
theorem sendMail_response_timeout (c : SmtpClient) (email : MimeMessage)
    (h : Event.waitForReadyRead false ∈ eventsSince c (sendMail c email).2) :
    (sendMail c email).1 = false ∧
      (∃ sm, eventsSince c (sendMail c email).2 =
          sm ++ [Event.waitForReadyRead false,
            Event.smtpError SmtpError.ResponseTimeoutError] ∧
        (∀ ev ∈ sm, failedWait ev = false) ∧
        SmtpError.ResponseTimeoutError ∉ signalsOf sm) ∧
      (signalsOf (eventsSince c (sendMail c email).2)).count
        SmtpError.ResponseTimeoutError = 1 := by
  rcases sendMail_outcome c email with ⟨sm, ht, hs⟩ | ⟨hr, sm, tail, ht, hs, hm⟩
  · rw [eventsSince_of_trace c _ sm ht] at h
    have := hs.1 _ h
    cases this
  · rw [eventsSince_of_trace c _ _ ht] at h ⊢
    have hno : SmtpError.ResponseTimeoutError ∉ signalsOf sm := by
      intro hmem
      rcases hs.signal_cases hmem with h1 | h1 <;> cases h1
    simp only [timeoutTails, List.mem_cons, List.mem_singleton, List.not_mem_nil,
      or_false] at hm
    rcases hm with hm | hm
    · subst hm
      refine ⟨hr, ⟨sm, rfl, hs.1, hno⟩, ?_⟩
      rw [signalsOf_append, List.count_append, List.count_eq_zero_of_not_mem hno]
      rfl
    · subst hm
      rcases List.mem_append.mp h with h1 | h1
      · have := hs.1 _ h1
        cases this
      · simp at h1

theorem sendMail_response_timeout_witness :
    (sendMail (scripted (arrivalsOf [Reply.single "250 ok", Reply.single "250 ok",
        Reply.single "250 ok", Reply.single "250 ok"]) [] ConnectionType.TcpConnection)
        sampleMail).1 = false ∧
      (signalsOf (eventsSince
        (scripted (arrivalsOf [Reply.single "250 ok", Reply.single "250 ok",
          Reply.single "250 ok", Reply.single "250 ok"]) [] ConnectionType.TcpConnection)
        (sendMail (scripted (arrivalsOf [Reply.single "250 ok", Reply.single "250 ok",
          Reply.single "250 ok", Reply.single "250 ok"]) [] ConnectionType.TcpConnection)
          sampleMail).2)).count SmtpError.ResponseTimeoutError = 1 := by
  have h := sendMail_response_timeout
    (scripted (arrivalsOf [Reply.single "250 ok", Reply.single "250 ok",
      Reply.single "250 ok", Reply.single "250 ok"]) [] ConnectionType.TcpConnection)
    sampleMail (by decide)
  exact ⟨h.1, h.2.2⟩


/-! ## The response reader (C10) -/

/-- C10: when the lines delivered without time-out, each of at least 4 characters,
are `chunks`, then `lastPre`, then `fin`, then `post`, where `fin` is the first line
whose character at index 3 is a space, `waitForResponse` returns normally having
read exactly the lines up to and including `fin` (the lines `post` stay in the
buffer), `responseText` is `fin` and `responseCode` is the integer value of the
first three characters of `fin`. -/
theorem waitForResponse_returns_at_first_final_line (c : SmtpClient)
    (chunks : List (List QString)) (lastPre : List QString) (fin : QString)
    (post : List QString) (rest : List (Option (List QString)))
    (hbuf : c.socket.buffer = [])
    (harr : c.socket.arrivals = chunks.map some ++ some (lastPre ++ fin :: post) :: rest)
    (_hlen : ∀ l ∈ chunks.flatten ++ lastPre ++ fin :: post, 4 ≤ l.length)
    (hpre : ∀ l ∈ chunks.flatten ++ lastPre, charAt l 3 ≠ Char.ofNat 32)
    (hfin : charAt fin 3 = Char.ofNat 32) :
    (waitForResponse c).1 = Except.ok () ∧
      linesOf (eventsSince c (waitForResponse c).2) = chunks.flatten ++ lastPre ++ [fin] ∧
      (waitForResponse c).2.socket.buffer = post ∧
      (waitForResponse c).2.socket.arrivals = rest ∧
      (waitForResponse c).2.responseText = fin ∧
      (waitForResponse c).2.responseCode = toInt (left 3 fin) := by
  have h1 : ∀ ch ∈ chunks, ∀ l ∈ ch, isFinal l = false := by
    intro ch hch l hl
    have := hpre l (List.mem_append_left _ (List.mem_flatten.mpr ⟨ch, hch, hl⟩))
    simp [isFinal, this]
  have h2 : ∀ l ∈ lastPre, isFinal l = false := by
    intro l hl
    have := hpre l (List.mem_append_right _ hl)
    simp [isFinal, this]
  have h3 : isFinal fin = true := by simp [isFinal, hfin]
  have h := waitForResponseLoop_chunks chunks lastPre fin post rest c hbuf h1 h2 h3
  rw [← harr] at h
  have hw : waitForResponse c = (Except.ok (), afterRead c
      (chunks.flatMap chunkEvents ++ chunkEvents (lastPre ++ [fin])) fin post rest) := h
  rw [hw]
  refine ⟨rfl, ?_, rfl, rfl, rfl, rfl⟩
  rw [eventsSince_of_trace c _ _ rfl]
  simp [linesOf_append, linesOf_flatMap_chunkEvents, linesOf_chunkEvents]

theorem waitForResponse_returns_at_first_final_line_witness :
    (waitForResponse (scripted [some ["250-line1".toList], some ["250 line2".toList]] []
        ConnectionType.TcpConnection)).1 = Except.ok () ∧
      linesOf (eventsSince
        (scripted [some ["250-line1".toList], some ["250 line2".toList]] []
          ConnectionType.TcpConnection)
        (waitForResponse (scripted [some ["250-line1".toList], some ["250 line2".toList]] []
          ConnectionType.TcpConnection)).2) = ["250-line1".toList, "250 line2".toList] ∧
      (waitForResponse (scripted [some ["250-line1".toList], some ["250 line2".toList]] []
        ConnectionType.TcpConnection)).2.responseCode = 250 := by
  have h := waitForResponse_returns_at_first_final_line
    (scripted [some ["250-line1".toList], some ["250 line2".toList]] []
      ConnectionType.TcpConnection)
    [["250-line1".toList]] [] "250 line2".toList [] [] rfl rfl (by decide) (by decide)
    (by decide)
  exact ⟨h.1, h.2.1, h.2.2.2.2.2.trans (by decide)⟩


/-! ## The response reader on an arbitrary socket -/

theorem tdiv_hundred (x k : Int) (hk : 0 < k) :
    x.tdiv 100 = k ↔ 100 * k ≤ x ∧ x < 100 * k + 100 := by
  rcases le_or_lt 0 x with h | h
  · rw [Int.tdiv_eq_ediv h (by decide)]
    omega
  · have h1 : x.tdiv 100 = -((-x).tdiv 100) := by
      rw [Int.neg_tdiv]; simp
    rw [h1, Int.tdiv_eq_ediv (by omega) (by decide)]
    omega

/-- The signals of the source, decided by `responseCode / 100`, are those the
specification describes by ranges. -/
theorem advisory_eq_signalsForCode (l : QString) : advisory l = signalsForCode (codeOf l) := by
  unfold advisory signalsForCode
  have h4 := tdiv_hundred (codeOf l) 4 (by decide)
  have h5 := tdiv_hundred (codeOf l) 5 (by decide)
  by_cases c4 : (codeOf l).tdiv 100 = 4
  · have := h4.mp c4
    have n5 : ¬ (codeOf l).tdiv 100 = 5 := fun h => by have := h5.mp h; omega
    rw [if_pos c4, if_neg n5, if_pos (by omega)]
    rfl
  · have n4 : ¬ (400 ≤ codeOf l ∧ codeOf l ≤ 499) := fun h => c4 (h4.mpr (by omega))
    rw [if_neg c4, if_neg n4]
    by_cases c5 : (codeOf l).tdiv 100 = 5
    · have := h5.mp c5
      rw [if_pos c5, if_pos (by omega)]
      rfl
    · have n5 : ¬ (500 ≤ codeOf l ∧ codeOf l ≤ 599) := fun h => c5 (h5.mpr (by omega))
      rw [if_neg c5, if_neg n5]
      rfl

theorem lineEvents_eq_spec : lineEvents = lineEventsSpec := by
  funext l
  simp [lineEvents, lineEventsSpec, advisory_eq_signalsForCode]

theorem chunkEvents_eq_spec : chunkEvents = roundEventsSpec := by
  funext ls
  simp [chunkEvents, roundEventsSpec, lineEvents_eq_spec]

/-- The line loop on any buffer: it reads lines that do not end a response and
returns at the first that does, which it stores with its code. -/
theorem readLines_spec (ls : List QString) :
    ∀ c : SmtpClient, ∃ read : List QString,
      (readLines c ls).2.trace = c.trace ++ read.flatMap lineEvents ∧
      ((readLines c ls).1 = true →
        ∃ pre fin, read = pre ++ [fin] ∧ (∀ l ∈ pre, isFinal l = false) ∧ isFinal fin = true ∧
          (readLines c ls).2.responseText = fin ∧
          (readLines c ls).2.responseCode = codeOf fin) ∧
      ((readLines c ls).1 = false → ∀ l ∈ read, isFinal l = false) := by
  induction ls with
  | nil =>
    intro c
    exact ⟨[], by simp [readLines], by simp [readLines], by simp⟩
  | cons l ls ih =>
    intro c
    rw [readLines_cons]
    by_cases hf : isFinal l = true
    · rw [if_pos hf]
      exact ⟨[l], by simp [afterRead], fun _ => ⟨[], l, rfl, by simp, hf, rfl, rfl⟩,
        fun h => by cases h⟩
    · rw [if_neg hf]
      obtain ⟨read, h1, h2, h3⟩ := ih (afterRead c (lineEvents l) l ls c.socket.arrivals)
      refine ⟨l :: read, by rw [h1]; simp [afterRead], ?_, ?_⟩
      · intro hb
        obtain ⟨pre, fin, e1, e2, e3, e4, e5⟩ := h2 hb
        refine ⟨l :: pre, fin, by rw [e1]; rfl, ?_, e3, e4, e5⟩
        intro x hx
        rcases List.mem_cons.mp hx with hx | hx
        · rw [hx]; simpa using hf
        · exact e2 x hx
      · intro hb x hx
        rcases List.mem_cons.mp hx with hx | hx
        · rw [hx]; simpa using hf
        · exact h3 hb x hx

theorem waitForResponseLoop_spec (arr : List (Option (List QString))) :
    ∀ c : SmtpClient, ∃ segs : List (List QString),
      (waitForResponseLoop c arr).2.trace =
        c.trace ++ (segs.flatMap chunkEvents ++ readerTail (waitForResponseLoop c arr).1) ∧
      ((waitForResponseLoop c arr).1 = Except.ok () →
        ∃ pre fin, segs.flatten = pre ++ [fin] ∧ (∀ l ∈ pre, isFinal l = false) ∧
          isFinal fin = true ∧ (waitForResponseLoop c arr).2.responseText = fin ∧
          (waitForResponseLoop c arr).2.responseCode = codeOf fin) ∧
      ((waitForResponseLoop c arr).1 ≠ Except.ok () →
        ∀ l ∈ segs.flatten, isFinal l = false) := by
  induction arr with
  | nil =>
    intro c
    exact ⟨[], by simp [waitForResponseLoop, emit, record, readerTail],
      by simp [waitForResponseLoop], by simp⟩
  | cons a arr ih =>
    intro c
    cases a with
    | none =>
      exact ⟨[], by simp [waitForResponseLoop, socketWaitForReadyRead, emit, record, readerTail],
        by simp [waitForResponseLoop], by simp⟩
    | some ls =>
      obtain ⟨read, hr, hr2, hr3⟩ := readLines_spec (c.socket.buffer ++ ls)
        (socketWaitForReadyRead c (some ls) arr)
      have hstep : waitForResponseLoop c (some ls :: arr) =
          match readLines (socketWaitForReadyRead c (some ls) arr) (c.socket.buffer ++ ls) with
          | (true, c2) => (Except.ok (), c2)
          | (false, c2) => waitForResponseLoop c2 arr := by
        simp [waitForResponseLoop, socketWaitForReadyRead, record]
      rw [hstep]
      rcases hrl : readLines (socketWaitForReadyRead c (some ls) arr) (c.socket.buffer ++ ls)
        with ⟨b, c2⟩
      rw [hrl] at hr hr2 hr3
      cases b with
      | true =>
        refine ⟨[read], ?_, ?_, ?_⟩
        · simp only []
          rw [hr]
          simp [socketWaitForReadyRead, record, chunkEvents, readerTail]
        · intro _
          simpa using hr2 rfl
        · intro h
          exact absurd rfl h
      | false =>
        obtain ⟨segs, hs, hs2, hs3⟩ := ih c2
        have hnf := hr3 rfl
        refine ⟨read :: segs, ?_, ?_, ?_⟩
        · simp only []
          rw [hs, hr]
          simp [socketWaitForReadyRead, record, chunkEvents]
        · intro hok
          obtain ⟨pre, fin, e1, e2, e3, e4, e5⟩ := hs2 hok
          refine ⟨read ++ pre, fin, by simp [e1], ?_, e3, e4, e5⟩
          intro x hx
          rcases List.mem_append.mp hx with hx | hx
          · exact hnf x hx
          · exact e2 x hx
        · intro hne x hx
          simp only [List.flatten_cons, List.mem_append] at hx
          rcases hx with hx | hx
          · exact hnf x hx
          · exact hs3 hne x hx

/-- Any `waitForResponse` call: the rounds it reads, the exit tail, and on a
normal return the line it stops at, which is the only one that ends a response. -/
theorem waitForResponse_spec (c : SmtpClient) :
    ∃ segs : List (List QString),
      (waitForResponse c).2.trace =
        c.trace ++ (segs.flatMap chunkEvents ++ readerTail (waitForResponse c).1) ∧
      ((waitForResponse c).1 = Except.ok () →
        ∃ pre fin, segs.flatten = pre ++ [fin] ∧ (∀ l ∈ pre, isFinal l = false) ∧
          isFinal fin = true ∧ (waitForResponse c).2.responseText = fin ∧
          (waitForResponse c).2.responseCode = codeOf fin) ∧
      ((waitForResponse c).1 ≠ Except.ok () → ∀ l ∈ segs.flatten, isFinal l = false) :=
  waitForResponseLoop_spec c.socket.arrivals c


/-! ## Signals of the response reader (C19) -/

theorem flatMap_eq_replicate {α β : Type} (f : α → List β) (x : β) (ls : List α)
    (h : ∀ l ∈ ls, f l = [x]) : ls.flatMap f = List.replicate ls.length x := by
  induction ls with
  | nil => rfl
  | cons l ls ih =>
    rw [List.flatMap_cons, h l (List.mem_cons_self _ _),
      ih (fun y hy => h y (List.mem_cons_of_mem _ hy))]
    rfl

theorem flatMap_eq_nil_of_forall {α β : Type} (f : α → List β) (ls : List α)
    (h : ∀ l ∈ ls, f l = []) : ls.flatMap f = [] :=
  List.flatMap_eq_nil_iff.mpr h

theorem signalsOf_readerTail_lines (res : Except Exn Unit) : linesOf (readerTail res) = [] := by
  cases res <;> rfl

/-- C19: the events of any `waitForResponse` call are rounds of one successful
`waitForReadyRead` followed, for every line read (continuation lines included), by
the `readLine` and by `ServerError` exactly when the code of that line is in
400..499, `ClientError` exactly when it is in 500..599, nothing otherwise; the
signals of the call are those of its lines followed by the signal of a time-out,
if any.  So a well-formed response of `n` lines whose codes are all in 400..499
(in 500..599) makes the call emit `n` times `ServerError` (`ClientError`), and one
whose codes are all outside 400..599 makes it emit nothing. -/
theorem waitForResponse_signals_per_line (c : SmtpClient) :
    (∃ segs : List (List QString),
        eventsSince c (waitForResponse c).2 =
          segs.flatMap roundEventsSpec ++ readerTail (waitForResponse c).1 ∧
        linesOf (eventsSince c (waitForResponse c).2) = segs.flatten ∧
        signalsOf (eventsSince c (waitForResponse c).2) =
          segs.flatten.flatMap (fun l => signalsForCode (codeOf l)) ++
            signalsOf (readerTail (waitForResponse c).1)) ∧
      (∀ (r : Reply) (rest : List (Option (List QString))),
        c.socket.buffer = [] → c.socket.arrivals = r.arrivals ++ rest →
        r.wellFormed = true →
        ((∀ l ∈ r.lines, 400 ≤ codeOf l ∧ codeOf l ≤ 499) →
          signalsOf (eventsSince c (waitForResponse c).2) =
            List.replicate r.lines.length SmtpError.ServerError) ∧
        ((∀ l ∈ r.lines, 500 ≤ codeOf l ∧ codeOf l ≤ 599) →
          signalsOf (eventsSince c (waitForResponse c).2) =
            List.replicate r.lines.length SmtpError.ClientError) ∧
        ((∀ l ∈ r.lines, ¬ (400 ≤ codeOf l ∧ codeOf l ≤ 599)) →
          signalsOf (eventsSince c (waitForResponse c).2) = [])) := by
  refine ⟨?_, ?_⟩
  · obtain ⟨segs, ht⟩ := waitForResponse_trace c
    refine ⟨segs, ?_, ?_, ?_⟩
    · rw [eventsSince_of_trace c _ _ ht, chunkEvents_eq_spec]
    · rw [eventsSince_of_trace c _ _ ht, linesOf_append, linesOf_flatMap_chunkEvents,
        signalsOf_readerTail_lines, List.append_nil]
    · rw [eventsSince_of_trace c _ _ ht, signalsOf_append, signalsOf_flatMap_chunkEvents]
      congr 1
      congr 1
      funext l
      exact advisory_eq_signalsForCode l
  · intro r rest hb ha hw
    have hrun := waitForResponse_reply c r rest hb ha hw
    have hs : signalsOf (eventsSince c (waitForResponse c).2) =
        r.lines.flatMap (fun l => signalsForCode (codeOf l)) := by
      rw [hrun, eventsSince_of_trace c _ r.events rfl, signalsOf_reply_events]
      congr 1
      funext l
      exact advisory_eq_signalsForCode l
    rw [hs]
    refine ⟨?_, ?_, ?_⟩
    · intro h
      exact flatMap_eq_replicate _ _ _ (fun l hl => by
        have := h l hl
        simp [signalsForCode, this])
    · intro h
      exact flatMap_eq_replicate _ _ _ (fun l hl => by
        have := h l hl
        have n4 : ¬ (400 ≤ codeOf l ∧ codeOf l ≤ 499) := by omega
        simp [signalsForCode, n4, this])
    · intro h
      exact flatMap_eq_nil_of_forall _ _ (fun l hl => by
        have := h l hl
        have n4 : ¬ (400 ≤ codeOf l ∧ codeOf l ≤ 499) := by omega
        have n5 : ¬ (500 ≤ codeOf l ∧ codeOf l ≤ 599) := by omega
        simp [signalsForCode, n4, n5])

theorem waitForResponse_signals_per_line_witness :
    signalsOf (eventsSince (scripted busyReply.arrivals [] ConnectionType.TcpConnection)
        (waitForResponse (scripted busyReply.arrivals [] ConnectionType.TcpConnection)).2) =
      [SmtpError.ServerError, SmtpError.ServerError, SmtpError.ServerError] :=
  ((waitForResponse_signals_per_line
    (scripted busyReply.arrivals [] ConnectionType.TcpConnection)).2 busyReply [] rfl
    (by simp [scripted]) (by decide)).1 (by decide)


/-! ## Signals of `sendMail` (C20) -/

theorem signalsForCode_eq_nil {code : Int} (h : ¬ (400 ≤ code ∧ code ≤ 599)) :
    signalsForCode code = [] := by
  have n4 : ¬ (400 ≤ code ∧ code ≤ 499) := by omega
  have n5 : ¬ (500 ≤ code ∧ code ≤ 599) := by omega
  simp [signalsForCode, n4, n5]

theorem exists_failedWait_of_mem_timeoutTails {tail : List Event} (h : tail ∈ timeoutTails) :
    ∃ ev ∈ tail, failedWait ev = true := by
  simp only [timeoutTails, List.mem_cons, List.mem_singleton, List.not_mem_nil,
    or_false] at h
  rcases h with h | h <;> subst h
  · exact ⟨Event.waitForReadyRead false, by simp, rfl⟩
  · exact ⟨Event.waitForBytesWritten false, by simp, rfl⟩

/-- C20: `sendMail` emits no signal of its own.  In every run of `sendMail` in
which no blocking call times out and every line read has a code outside 400..599,
no signal is emitted, whatever the run returns. -/
theorem sendMail_emits_no_signal_of_its_own (c : SmtpClient) (email : MimeMessage)
    (hno : ∀ ev ∈ eventsSince c (sendMail c email).2, failedWait ev = false)
    (hcodes : ∀ l ∈ linesOf (eventsSince c (sendMail c email).2),
      ¬ (400 ≤ codeOf l ∧ codeOf l ≤ 599)) :
    signalsOf (eventsSince c (sendMail c email).2) = [] := by
  rcases sendMail_outcome c email with ⟨sm, ht, hs⟩ | ⟨_, sm, tail, ht, _, hm⟩
  · rw [eventsSince_of_trace c _ sm ht] at hcodes ⊢
    rw [hs.2]
    exact flatMap_eq_nil_of_forall _ _ (fun l hl => by
      rw [advisory_eq_signalsForCode]
      exact signalsForCode_eq_nil (hcodes l hl))
  · rw [eventsSince_of_trace c _ _ ht] at hno
    obtain ⟨ev, hev, hf⟩ := exists_failedWait_of_mem_timeoutTails hm
    have := hno ev (List.mem_append_right _ hev)
    rw [this] at hf
    cases hf

theorem sendMail_emits_no_signal_of_its_own_witness :
    ((sendMail (scripted (Reply.single "251 ok").arrivals [] ConnectionType.TcpConnection)
        sampleMail).1 = false ∧
      signalsOf (eventsSince
        (scripted (Reply.single "251 ok").arrivals [] ConnectionType.TcpConnection)
        (sendMail (scripted (Reply.single "251 ok").arrivals [] ConnectionType.TcpConnection)
          sampleMail).2) = []) ∧
      ((sendMail (scripted (Reply.single "abc hello").arrivals [] ConnectionType.TcpConnection)
        sampleMail).1 = false ∧
      (sendMail (scripted (Reply.single "abc hello").arrivals [] ConnectionType.TcpConnection)
        sampleMail).2.responseCode = 0 ∧
      signalsOf (eventsSince
        (scripted (Reply.single "abc hello").arrivals [] ConnectionType.TcpConnection)
        (sendMail (scripted (Reply.single "abc hello").arrivals [] ConnectionType.TcpConnection)
          sampleMail).2) = []) :=
  ⟨⟨by decide, sendMail_emits_no_signal_of_its_own
      (scripted (Reply.single "251 ok").arrivals [] ConnectionType.TcpConnection) sampleMail
      (by decide) (by decide)⟩,
    ⟨by decide, by decide, sendMail_emits_no_signal_of_its_own
      (scripted (Reply.single "abc hello").arrivals [] ConnectionType.TcpConnection)
      sampleMail (by decide) (by decide)⟩⟩


/-! ## The response code (C14) -/

/-- The text `toInt` converts once the white space around it is dropped. -/
theorem toInt_eq (s : QString) :
    toInt s =
      match ((s.dropWhile isSpace).reverse.dropWhile isSpace).reverse with
      | [] => 0
      | ch :: ds =>
        if ch = Char.ofNat 43 then unsignedValue ds
        else if ch = Char.ofNat 45 then - unsignedValue ds
        else unsignedValue (ch :: ds) :=
  rfl

theorem trimmed_length_le (s : QString) :
    ((s.dropWhile isSpace).reverse.dropWhile isSpace).reverse.length ≤ s.length := by
  have h1 := (List.dropWhile_suffix (l := s) isSpace).length_le
  have h2 := (List.dropWhile_suffix (l := (s.dropWhile isSpace).reverse) isSpace).length_le
  simp only [List.length_reverse] at h2 ⊢
  omega

theorem trimmed_eq_of_length (s : QString)
    (h : ((s.dropWhile isSpace).reverse.dropWhile isSpace).reverse.length = s.length) :
    ((s.dropWhile isSpace).reverse.dropWhile isSpace).reverse = s := by
  have s1 := List.dropWhile_suffix (l := s) isSpace
  have s2 := List.dropWhile_suffix (l := (s.dropWhile isSpace).reverse) isSpace
  have h1 := s1.length_le
  have h2 := s2.length_le
  simp only [List.length_reverse] at h h2
  have e2 := s2.eq_of_length (by simp only [List.length_reverse]; omega)
  have e1 := s1.eq_of_length (by omega)
  rw [e2, List.reverse_reverse, e1]

theorem trimmed_decompose (s : QString) :
    ∃ ws1 ws2 : List Char,
      s = ws1 ++ ((s.dropWhile isSpace).reverse.dropWhile isSpace).reverse ++ ws2 ∧
      (∀ ch ∈ ws1, isSpace ch = true) ∧ (∀ ch ∈ ws2, isSpace ch = true) := by
  refine ⟨s.takeWhile isSpace, ((s.dropWhile isSpace).reverse.takeWhile isSpace).reverse, ?_,
    fun ch h => List.mem_takeWhile_imp h, fun ch h => ?_⟩
  · have h1 := List.takeWhile_append_dropWhile isSpace s
    have h2 := List.takeWhile_append_dropWhile isSpace (s.dropWhile isSpace).reverse
    have h3 : s.dropWhile isSpace =
        ((s.dropWhile isSpace).reverse.dropWhile isSpace).reverse ++
          ((s.dropWhile isSpace).reverse.takeWhile isSpace).reverse := by
      rw [← List.reverse_append, h2, List.reverse_reverse]
    rw [List.append_assoc, ← h3, h1]
  · exact List.mem_takeWhile_imp (List.mem_reverse.mp h)

theorem unsignedValue_ne_zero {ds : List Char} (h : unsignedValue ds ≠ 0) :
    ds ≠ [] ∧ ∀ ch ∈ ds, isDigit ch = true := by
  unfold unsignedValue at h
  split at h
  · rename_i hd
    exact ⟨hd.1, fun ch hch => List.all_eq_true.mp hd.2 ch hch⟩
  · exact absurd rfl h

/-- A text that `toInt` converts to a value other than 0 is a number. -/
theorem isNumber_of_toInt_ne_zero (s : QString) (h : toInt s ≠ 0) : IsNumber s := by
  obtain ⟨ws1, ws2, hs, hw1, hw2⟩ := trimmed_decompose s
  rw [toInt_eq] at h
  generalize ((s.dropWhile isSpace).reverse.dropWhile isSpace).reverse = t at h hs
  cases t with
  | nil => exact absurd rfl h
  | cons ch ds =>
    simp only [] at h
    by_cases hp : ch = Char.ofNat 43
    · rw [if_pos hp] at h
      obtain ⟨h1, h2⟩ := unsignedValue_ne_zero h
      exact ⟨ws1, [Char.ofNat 43], ds, ws2, by rw [hs, hp]; simp, hw1, hw2,
        Or.inr (Or.inl rfl), h1, h2⟩
    · rw [if_neg hp] at h
      by_cases hm : ch = Char.ofNat 45
      · rw [if_pos hm] at h
        have h0 : unsignedValue ds ≠ 0 := fun h0 => h (by rw [h0]; rfl)
        obtain ⟨h1, h2⟩ := unsignedValue_ne_zero h0
        exact ⟨ws1, [Char.ofNat 45], ds, ws2, by rw [hs, hm]; simp, hw1, hw2,
          Or.inr (Or.inr rfl), h1, h2⟩
      · rw [if_neg hm] at h
        obtain ⟨h1, h2⟩ := unsignedValue_ne_zero h
        exact ⟨ws1, [], ch :: ds, ws2, by rw [hs]; simp, hw1, hw2, Or.inl rfl, h1, h2⟩

theorem isDigit_bounds {ch : Char} (h : isDigit ch = true) : 48 ≤ ch.toNat ∧ ch.toNat ≤ 57 := by
  simpa [isDigit] using h

theorem unsignedValue_short (ds : List Char) (h : ds.length ≤ 2) :
    0 ≤ unsignedValue ds ∧ unsignedValue ds ≤ 99 := by
  unfold unsignedValue
  split
  · rename_i hd
    have hall := fun ch hch => isDigit_bounds (List.all_eq_true.mp hd.2 ch hch)
    match ds, h, hall with
    | [], _, _ => simp [digitsValue]
    | [a], _, hall =>
      have := hall a (by simp)
      simp only [digitsValue, List.foldl]
      omega
    | [a, b], _, hall =>
      have := hall a (by simp)
      have := hall b (by simp)
      simp only [digitsValue, List.foldl]
      omega
  · simp

/-- A text of at most three characters whose value is at least 100 is made of
three decimal digits. -/
theorem unsignedValue_three (ds : List Char) (k : Int) (h : ds.length ≤ 3)
    (hv : unsignedValue ds = k) (hk : 100 ≤ k) :
    ∃ a b d : Char, ds = [a, b, d] ∧
      (48 ≤ a.toNat ∧ a.toNat ≤ 57) ∧ (48 ≤ b.toNat ∧ b.toNat ≤ 57) ∧
      (48 ≤ d.toNat ∧ d.toNat ≤ 57) ∧
      k = 100 * ((a.toNat : Int) - 48) + 10 * ((b.toNat : Int) - 48) + ((d.toNat : Int) - 48) := by
  match ds, h with
  | [], _ =>
    have := unsignedValue_short [] (by simp)
    rw [hv] at this
    omega
  | [a], _ =>
    have := unsignedValue_short [a] (by simp)
    rw [hv] at this
    omega
  | [a, b], _ =>
    have := unsignedValue_short [a, b] (by simp)
    rw [hv] at this
    omega
  | [a, b, d], _ =>
    have hne : unsignedValue [a, b, d] ≠ 0 := by rw [hv]; omega
    obtain ⟨_, hall⟩ := unsignedValue_ne_zero hne
    have ha := isDigit_bounds (hall a (by simp))
    have hb := isDigit_bounds (hall b (by simp))
    have hd := isDigit_bounds (hall d (by simp))
    refine ⟨a, b, d, rfl, ha, hb, hd, ?_⟩
    have hval : unsignedValue [a, b, d] = (digitsValue [a, b, d] : Int) := by
      unfold unsignedValue
      rw [if_pos ⟨by simp, List.all_eq_true.mpr hall⟩]
    rw [hval] at hv
    simp only [digitsValue, List.foldl] at hv
    omega

theorem toInt_three (s : QString) (k : Int) (h : s.length ≤ 3) (hv : toInt s = k)
    (hk : 100 ≤ k) :
    ∃ a b d : Char, s = [a, b, d] ∧
      (48 ≤ a.toNat ∧ a.toNat ≤ 57) ∧ (48 ≤ b.toNat ∧ b.toNat ≤ 57) ∧
      (48 ≤ d.toNat ∧ d.toNat ≤ 57) ∧
      k = 100 * ((a.toNat : Int) - 48) + 10 * ((b.toNat : Int) - 48) + ((d.toNat : Int) - 48) := by
  have hle := trimmed_length_le s
  have heq := trimmed_eq_of_length s
  rw [toInt_eq] at hv
  generalize ((s.dropWhile isSpace).reverse.dropWhile isSpace).reverse = t at hv hle heq
  cases t with
  | nil => simp only [] at hv; omega
  | cons ch ds =>
    simp only [] at hv
    simp only [List.length_cons] at hle
    by_cases hp : ch = Char.ofNat 43
    · rw [if_pos hp] at hv
      have := unsignedValue_short ds (by omega)
      omega
    · rw [if_neg hp] at hv
      by_cases hm : ch = Char.ofNat 45
      · rw [if_pos hm] at hv
        have := unsignedValue_short ds (by omega)
        omega
      · rw [if_neg hm] at hv
        obtain ⟨a, b, d, e, r⟩ := unsignedValue_three (ch :: ds) k
          (by simp only [List.length_cons]; omega) hv hk
        have hlen := congrArg List.length e
        simp only [List.length_cons, List.length_nil] at hlen
        have hs : ch :: ds = s := heq (by simp only [List.length_cons]; omega)
        exact ⟨a, b, d, by rw [← hs, e], r⟩

theorem char_eq_of_toNat {ch : Char} {n : Nat} (h : ch.toNat = n) : ch = Char.ofNat n := by
  rw [← h, Char.ofNat_toNat]

/-- For the codes the state machine expects, the comparison succeeds exactly on
the three decimal digits of the code. -/
theorem toInt_eq_expected_iff (s : QString) (h : s.length ≤ 3) (k : Nat)
    (hk : k ∈ expectedCodes) : toInt s = (k : Int) ↔ s = decimalDigits k := by
  constructor
  · intro hv
    simp only [expectedCodes, List.mem_cons, List.mem_singleton, List.not_mem_nil,
      or_false] at hk
    rcases hk with hk | hk | hk | hk | hk <;> subst hk <;>
      obtain ⟨a, b, d, e, ha, hb, hd, hval⟩ := toInt_three s _ h hv (by decide) <;>
      rw [e] <;>
      simp only [Nat.cast_ofNat] at hval
    · rw [char_eq_of_toNat (show a.toNat = 50 by omega),
        char_eq_of_toNat (show b.toNat = 50 by omega),
        char_eq_of_toNat (show d.toNat = 48 by omega)]
      decide
    · rw [char_eq_of_toNat (show a.toNat = 50 by omega),
        char_eq_of_toNat (show b.toNat = 51 by omega),
        char_eq_of_toNat (show d.toNat = 53 by omega)]
      decide
    · rw [char_eq_of_toNat (show a.toNat = 50 by omega),
        char_eq_of_toNat (show b.toNat = 53 by omega),
        char_eq_of_toNat (show d.toNat = 48 by omega)]
      decide
    · rw [char_eq_of_toNat (show a.toNat = 51 by omega),
        char_eq_of_toNat (show b.toNat = 51 by omega),
        char_eq_of_toNat (show d.toNat = 52 by omega)]
      decide
    · rw [char_eq_of_toNat (show a.toNat = 51 by omega),
        char_eq_of_toNat (show b.toNat = 53 by omega),
        char_eq_of_toNat (show d.toNat = 52 by omega)]
      decide
  · intro hs
    subst hs
    simp only [expectedCodes, List.mem_cons, List.mem_singleton, List.not_mem_nil,
      or_false] at hk
    rcases hk with hk | hk | hk | hk | hk <;> subst hk <;> decide

/-- C14: after every `waitForResponse` call that returns, `responseText` is the
last line read and `responseCode` is the value `toInt` gives to its first three
characters, which is 0 when they are not a number.  Hence for each expected code
`k` (220, 235, 250, 334, 354) the comparison `responseCode == k` holds if and only
if the first three characters of that line are the decimal digits of `k`, and a
line whose first three characters are not a number fails every such comparison. -/
theorem responseCode_of_most_recent_line (c : SmtpClient)
    (h : (waitForResponse c).1 = Except.ok ()) :
    (linesOf (eventsSince c (waitForResponse c).2)).getLast? =
        some (waitForResponse c).2.responseText ∧
      (waitForResponse c).2.responseCode = toInt (left 3 (waitForResponse c).2.responseText) ∧
      (¬ IsNumber (left 3 (waitForResponse c).2.responseText) →
        (waitForResponse c).2.responseCode = 0 ∧
          ∀ k ∈ expectedCodes, (waitForResponse c).2.responseCode ≠ (k : Int)) ∧
      (∀ k ∈ expectedCodes,
        ((waitForResponse c).2.responseCode = (k : Int) ↔
          left 3 (waitForResponse c).2.responseText = decimalDigits k)) := by
  obtain ⟨segs, ht, hok, _⟩ := waitForResponse_spec c
  obtain ⟨pre, fin, e1, _, _, e4, e5⟩ := hok h
  have hcode : (waitForResponse c).2.responseCode =
      toInt (left 3 (waitForResponse c).2.responseText) := by
    rw [e5, e4]; rfl
  have hlen : (left 3 (waitForResponse c).2.responseText).length ≤ 3 :=
    List.length_take_le _ _
  refine ⟨?_, hcode, ?_, ?_⟩
  · rw [eventsSince_of_trace c _ _ ht, linesOf_append, linesOf_flatMap_chunkEvents,
      signalsOf_readerTail_lines, List.append_nil, e1, e4]
    simp
  · intro hn
    have h0 : (waitForResponse c).2.responseCode = 0 := by
      rw [hcode]
      by_contra hne
      exact hn (isNumber_of_toInt_ne_zero _ hne)
    refine ⟨h0, ?_⟩
    intro k hk
    rw [h0]
    simp only [expectedCodes, List.mem_cons, List.mem_singleton, List.not_mem_nil,
      or_false] at hk
    rcases hk with hk | hk | hk | hk | hk <;> subst hk <;> decide
  · intro k hk
    rw [hcode]
    exact toInt_eq_expected_iff _ hlen k hk

theorem responseCode_of_most_recent_line_witness :
    (waitForResponse (scripted [some ["250-line1".toList, "250 line2".toList]] []
        ConnectionType.TcpConnection)).2.responseCode = 250 ∧
      left 3 (waitForResponse (scripted [some ["250-line1".toList, "250 line2".toList]] []
        ConnectionType.TcpConnection)).2.responseText = decimalDigits 250 := by
  have h := responseCode_of_most_recent_line
    (scripted [some ["250-line1".toList, "250 line2".toList]] [] ConnectionType.TcpConnection)
    (by rfl)
  have h2 := (h.2.2.2 250 (by decide)).mpr (by decide)
  exact ⟨h2, (h.2.2.2 250 (by decide)).mp h2⟩


/-! ## Short lines (C15) -/

/-- The value `toInt` gives to the decimal digits of a number below 1000. -/
theorem toInt_decimalDigits : ∀ k, k < 1000 → toInt (decimalDigits k) = (k : Int) := by
  set_option maxRecDepth 100000 in
  decide

/-- C15 (amended): a line of fewer than 4 characters is treated as not ending the
response, because index 3 lies past its end and reads as the null character: the
line loop stores the line and goes on reading.  The code stored for it is the
value `toInt` gives to the whole line: the number `k` when the line is the decimal
digits of `k`, and 0 when the line is not a number. -/
theorem short_line_keeps_reading (c : SmtpClient) (line : QString) (rest : List QString)
    (h : line.length < 4) :
    isFinal line = false ∧
      readLines c (line :: rest) =
        readLines (afterRead c (lineEvents line) line rest c.socket.arrivals) rest ∧
      (afterRead c (lineEvents line) line rest c.socket.arrivals).responseCode = toInt line ∧
      (∀ k : Nat, k < 1000 → line = decimalDigits k →
        (afterRead c (lineEvents line) line rest c.socket.arrivals).responseCode = (k : Int)) ∧
      (¬ IsNumber line →
        (afterRead c (lineEvents line) line rest c.socket.arrivals).responseCode = 0) := by
  have hnf : isFinal line = false := by
    have : charAt line 3 = Char.ofNat 0 := List.getD_eq_default _ _ (by omega)
    simp only [isFinal, this]
    decide
  have hcode : (afterRead c (lineEvents line) line rest c.socket.arrivals).responseCode =
      toInt line := by
    show toInt (left 3 line) = toInt line
    rw [show left 3 line = line from List.take_of_length_le (by omega)]
  refine ⟨hnf, ?_, hcode, ?_, ?_⟩
  · rw [readLines_cons, if_neg (by simp [hnf])]
  · intro k hk hl
    rw [hcode, hl]
    exact toInt_decimalDigits k hk
  · intro hn
    rw [hcode]
    by_contra hne
    exact hn (isNumber_of_toInt_ne_zero _ hne)

theorem short_line_keeps_reading_witness :
    isFinal "250".toList = false ∧
      (afterRead (scripted [] [] ConnectionType.TcpConnection) (lineEvents "250".toList)
        "250".toList []
        (scripted [] [] ConnectionType.TcpConnection).socket.arrivals).responseCode = 250 ∧
      isFinal "\r\n".toList = false ∧
      (afterRead (scripted [] [] ConnectionType.TcpConnection) (lineEvents "\r\n".toList)
        "\r\n".toList []
        (scripted [] [] ConnectionType.TcpConnection).socket.arrivals).responseCode = 0 :=
  ⟨(short_line_keeps_reading (scripted [] [] ConnectionType.TcpConnection)
      "250".toList [] (by decide)).1,
    (short_line_keeps_reading (scripted [] [] ConnectionType.TcpConnection)
      "250".toList [] (by decide)).2.2.2.1 250 (by decide) (by decide),
    (short_line_keeps_reading (scripted [] [] ConnectionType.TcpConnection)
      "\r\n".toList [] (by decide)).1,
    (short_line_keeps_reading (scripted [] [] ConnectionType.TcpConnection)
      "\r\n".toList [] (by decide)).2.2.1.trans (by decide)⟩

/-- C15 (counterexample): the bare line `250` is treated as not ending the
response (the call goes on reading until the time-out), and the code recorded for
it is 250, not 0.  The same holds when the line is read with its terminator, as
`250` CR LF, and the line `25` LF, of three characters, records the code 25. -/
theorem bare_code_line_records_its_code :
    (linesOf (eventsSince (scripted [some ["250".toList]] [] ConnectionType.TcpConnection)
        (waitForResponse (scripted [some ["250".toList]] [] ConnectionType.TcpConnection)).2) =
        ["250".toList] ∧
      Event.waitForReadyRead false ∈
        eventsSince (scripted [some ["250".toList]] [] ConnectionType.TcpConnection)
          (waitForResponse (scripted [some ["250".toList]] [] ConnectionType.TcpConnection)).2 ∧
      (waitForResponse (scripted [some ["250".toList]] [] ConnectionType.TcpConnection)).2.responseCode
        = 250) ∧
      (Event.waitForReadyRead false ∈
        eventsSince (scripted [some ["250\r\n".toList]] [] ConnectionType.TcpConnection)
          (waitForResponse
            (scripted [some ["250\r\n".toList]] [] ConnectionType.TcpConnection)).2 ∧
      (waitForResponse
        (scripted [some ["250\r\n".toList]] [] ConnectionType.TcpConnection)).2.responseCode
        = 250) ∧
      ("25\n".toList.length = 3 ∧
        Event.waitForReadyRead false ∈
          eventsSince (scripted [some ["25\n".toList]] [] ConnectionType.TcpConnection)
            (waitForResponse
              (scripted [some ["25\n".toList]] [] ConnectionType.TcpConnection)).2 ∧
        (waitForResponse
          (scripted [some ["25\n".toList]] [] ConnectionType.TcpConnection)).2.responseCode
          = 25) := by
  decide


/-! ## The `AUTH PLAIN` command (C13) -/

theorem utf8EncodeChar_lt (ch : Char) : ∀ b ∈ utf8EncodeChar ch, b < 256 := by
  have hv : ch.toNat < 0x110000 := by
    have h := ch.valid
    rcases h with h | h
    · exact Nat.lt_trans h (by decide)
    · exact h.2
  intro b hb
  unfold utf8EncodeChar at hb
  simp only at hb
  split at hb
  · simp at hb; omega
  · split at hb
    · simp at hb; omega
    · split at hb
      · simp at hb; omega
      · simp at hb; omega

theorem toUtf8_lt (s : QString) : ∀ b ∈ toUtf8 s, b < 256 := by
  intro b hb
  obtain ⟨ch, _, h⟩ := List.mem_flatMap.mp hb
  exact utf8EncodeChar_lt ch b h

theorem foldl_bits (bs : List Nat) : ∀ acc, bs.foldl (fun acc b => 2 * acc + b) acc =
    acc * 2 ^ bs.length + ofBits bs := by
  induction bs with
  | nil => intro acc; simp [ofBits]
  | cons b bs ih =>
    intro acc
    simp only [List.foldl_cons, ofBits, List.length_cons]
    rw [ih, ih (2 * 0 + b)]
    ring

theorem ofBits_append (a b : List Nat) :
    ofBits (a ++ b) = ofBits a * 2 ^ b.length + ofBits b := by
  unfold ofBits
  rw [List.foldl_append, foldl_bits]
  rfl

theorem bitsOf_length (w : Nat) : ∀ n, (bitsOf w n).length = w := by
  induction w with
  | zero => intro n; rfl
  | succ w ih => intro n; simp [bitsOf, ih]

/-- The `w` binary digits of `n` write the number `n` modulo `2 ^ w`. -/
theorem ofBits_bitsOf (w : Nat) : ∀ n, ofBits (bitsOf w n) = n % 2 ^ w := by
  induction w with
  | zero => intro n; simp [bitsOf, ofBits, Nat.mod_one]
  | succ w ih =>
    intro n
    rw [bitsOf, ofBits_append, ih]
    simp only [List.length_singleton, pow_one, ofBits, List.foldl_cons, List.foldl_nil]
    rw [Nat.pow_succ, Nat.mul_comm (2 ^ w) 2, Nat.mod_mul]
    generalize n / 2 % 2 ^ w = x
    omega

theorem bitsOf_add (k : Nat) :
    ∀ w n, bitsOf (w + k) n = bitsOf w (n / 2 ^ k) ++ bitsOf k n := by
  induction k with
  | zero => intro w n; simp [bitsOf]
  | succ k ih =>
    intro w n
    rw [← Nat.add_assoc, bitsOf, ih, bitsOf, List.append_assoc, Nat.div_div_eq_div_mul,
      Nat.pow_succ, Nat.mul_comm 2]

theorem ofBits_marker (pre : List Nat) (w n : Nat) :
    ofBits (pre ++ bitsOf w n) = ofBits pre * 2 ^ w + n % 2 ^ w := by
  rw [ofBits_append, ofBits_bitsOf, bitsOf_length]

theorem take_bitsOf (w k n : Nat) : (bitsOf (w + k) n).take w = bitsOf w (n / 2 ^ k) := by
  rw [bitsOf_add, List.take_left' (bitsOf_length w _)]

theorem drop_bitsOf (w k n : Nat) : (bitsOf (w + k) n).drop w = bitsOf k n := by
  rw [bitsOf_add, List.drop_left' (bitsOf_length w _)]

/-- The bytes `toUtf8` gives to a character are those of the table of RFC 3629. -/
theorem utf8EncodeChar_eq_spec (ch : Char) : utf8EncodeChar ch = utf8CharSpec ch.toNat := by
  have hv : ch.toNat < 0x110000 := by
    have h := ch.valid
    rcases h with h | h
    · exact Nat.lt_trans h (by decide)
    · exact h.2
  have m1 : ofBits [0] = 0 := rfl
  have m2 : ofBits [1, 0] = 2 := rfl
  have m3 : ofBits [1, 1, 0] = 6 := rfl
  have m4 : ofBits [1, 1, 1, 0] = 14 := rfl
  have m5 : ofBits [1, 1, 1, 1, 0] = 30 := rfl
  unfold utf8EncodeChar utf8CharSpec
  simp only []
  generalize ch.toNat = v at hv ⊢
  split
  · rw [show (0 :: bitsOf 7 v) = [0] ++ bitsOf 7 v from rfl, ofBits_marker, m1]
    repeat (first | omega | congr 1)
  split
  · rw [take_bitsOf 5 6 v, drop_bitsOf 5 6 v, ofBits_marker, ofBits_marker, m2, m3]
    repeat (first | omega | congr 1)
  split
  · rw [take_bitsOf 4 12 v, drop_bitsOf 10 6 v, drop_bitsOf 4 12 v, take_bitsOf 6 6 v,
      ofBits_marker, ofBits_marker, ofBits_marker, m2, m4]
    repeat (first | omega | congr 1)
  · rw [take_bitsOf 3 18 v, drop_bitsOf 15 6 v, drop_bitsOf 3 18 v, drop_bitsOf 9 12 v,
      take_bitsOf 6 12 v, take_bitsOf 6 6 v,
      ofBits_marker, ofBits_marker, ofBits_marker, ofBits_marker, m2, m5]
    repeat (first | omega | congr 1)

/-- The method `toUtf8` gives the UTF-8 encoding of RFC 3629. -/
theorem toUtf8_eq_spec (s : QString) : toUtf8 s = utf8Spec s := by
  unfold toUtf8 utf8Spec
  rw [show utf8EncodeChar = fun ch => utf8CharSpec ch.toNat from funext utf8EncodeChar_eq_spec]

/-- On 6-bit values the digit of `toBase64` is the character of RFC 4648. -/
theorem base64Digit_eq_spec : ∀ n, n < 64 → base64Digit n = base64CharSpec n := by
  decide

/-- On bytes, `toBase64` is the Base64 encoding of RFC 4648. -/
theorem toBase64_eq_spec : ∀ bytes : QByteArray, (∀ b ∈ bytes, b < 256) →
    toBase64 bytes = base64Spec bytes
  | [], _ => rfl
  | [a], h => by
    have ha := h a (by simp)
    simp only [toBase64, base64Spec]
    rw [show a * 16 / 64 % 64 = a / 4 by omega, show a * 16 % 64 = a % 4 * 16 by omega,
      base64Digit_eq_spec _ (show a / 4 < 64 by omega),
      base64Digit_eq_spec _ (show a % 4 * 16 < 64 by omega)]
  | [a, b], h => by
    have ha := h a (by simp)
    have hb := h b (by simp)
    simp only [toBase64, base64Spec]
    rw [show (a * 256 + b) * 4 / 4096 % 64 = a / 4 by omega,
      show (a * 256 + b) * 4 / 64 % 64 = a % 4 * 16 + b / 16 by omega,
      show (a * 256 + b) * 4 % 64 = b % 16 * 4 by omega,
      base64Digit_eq_spec _ (show a / 4 < 64 by omega),
      base64Digit_eq_spec _ (show a % 4 * 16 + b / 16 < 64 by omega),
      base64Digit_eq_spec _ (show b % 16 * 4 < 64 by omega)]
  | a :: b :: d :: rest, h => by
    have ha := h a (by simp)
    have hb := h b (by simp)
    have hd := h d (by simp)
    have ih := toBase64_eq_spec rest (fun x hx => h x (by simp [hx]))
    simp only [toBase64, base64Spec, ih]
    rw [show (a * 65536 + b * 256 + d) / 262144 % 64 = a / 4 by omega,
      show (a * 65536 + b * 256 + d) / 4096 % 64 = a % 4 * 16 + b / 16 by omega,
      show (a * 65536 + b * 256 + d) / 64 % 64 = b % 16 * 4 + d / 64 by omega,
      show (a * 65536 + b * 256 + d) % 64 = d % 64 by omega,
      base64Digit_eq_spec _ (show a / 4 < 64 by omega),
      base64Digit_eq_spec _ (show a % 4 * 16 + b / 16 < 64 by omega),
      base64Digit_eq_spec _ (show b % 16 * 4 + d / 64 < 64 by omega),
      base64Digit_eq_spec _ (show d % 64 < 64 by omega)]

theorem base64CharSpec_ascii (n : Nat) : (base64CharSpec n).toNat ≤ 0x7f := by
  by_cases h : n < 64
  · revert n
    decide
  · have : base64CharSpec n = Char.ofNat 47 := by
      unfold base64CharSpec
      rw [if_neg (by omega), if_neg (by omega), if_neg (by omega), if_neg (by omega)]
    rw [this]
    decide

theorem base64Spec_ascii : ∀ bytes : QByteArray, ∀ ch ∈ base64Spec bytes, ch.toNat ≤ 0x7f
  | [], ch, h => by simp [base64Spec] at h
  | [a], ch, h => by
    simp only [base64Spec, List.mem_cons, List.mem_singleton, List.not_mem_nil, or_false] at h
    rcases h with h | h | h | h <;> subst h <;> first | exact base64CharSpec_ascii _ | decide
  | [a, b], ch, h => by
    simp only [base64Spec, List.mem_cons, List.mem_singleton, List.not_mem_nil, or_false] at h
    rcases h with h | h | h | h <;> subst h <;> first | exact base64CharSpec_ascii _ | decide
  | a :: b :: d :: rest, ch, h => by
    simp only [base64Spec, List.mem_cons] at h
    rcases h with h | h | h | h | h
    · subst h; exact base64CharSpec_ascii _
    · subst h; exact base64CharSpec_ascii _
    · subst h; exact base64CharSpec_ascii _
    · subst h; exact base64CharSpec_ascii _
    · exact base64Spec_ascii rest ch h

theorem toUtf8_ascii (s : QString) (h : ∀ ch ∈ s, ch.toNat ≤ 0x7f) :
    toUtf8 s = s.map Char.toNat := by
  induction s with
  | nil => rfl
  | cons ch s ih =>
    have hc := h ch (by simp)
    have := ih (fun x hx => h x (by simp [hx]))
    simp only [toUtf8, List.flatMap_cons, List.map_cons] at this ⊢
    rw [this]
    simp [utf8EncodeChar, hc]

/-- What `login` with `AuthPlain` writes on any socket: its one command. -/
theorem login_plain_sent (c : SmtpClient) (user password : QString) :
    sentOf (eventsSince c (login c user password AuthMethod.AuthPlain).2) =
      [wire (authPlainCommand user password)] := by
  have ht := sendMessage_trace c (authPlainCommand user password)
  generalize hres : login c user password AuthMethod.AuthPlain = res
  unfold login at hres
  simp only [] at hres
  rcases hsm : sendMessage c (authPlainCommand user password) with ⟨_ | _, c1⟩
  all_goals rw [hsm] at hres ht; simp only [] at hres ht
  · subst hres
    simp [eventsSince, emit, record, ht, sentOf_append, sentOf, senderTail]
  obtain ⟨evs, hw, hn⟩ := waitForResponse_sent c1
  rcases hwr : waitForResponse c1 with ⟨_ | _, c2⟩
  all_goals rw [hwr] at hres hw; simp only [] at hres hw
  · subst hres
    simp [eventsSince, emit, record, ht, hw, sentOf_append, sentOf, senderTail, hn]
  split at hres <;> subst hres <;>
    simp [eventsSince, emit, record, ht, hw, sentOf_append, sentOf, senderTail, hn]

/-- C13: for every user name and password, on every socket, `login` with
`AuthPlain` writes exactly one command: the text `AUTH PLAIN ` followed by the
Base64 encoding (RFC 4648) of the bytes 0, the UTF-8 bytes (RFC 3629) of the user
name, 0, the UTF-8 bytes of the password, then CR LF.  The text is ASCII, so its
bytes are the codes of its characters. -/
theorem login_plain_command_bytes (c : SmtpClient) (user password : QString) :
    sentOf (eventsSince c (login c user password AuthMethod.AuthPlain).2) =
        [utf8Spec ("AUTH PLAIN ".toList ++
          base64Spec ([0] ++ utf8Spec user ++ [0] ++ utf8Spec password)) ++ [13, 10]] ∧
      utf8Spec ("AUTH PLAIN ".toList ++
          base64Spec ([0] ++ utf8Spec user ++ [0] ++ utf8Spec password)) =
        ("AUTH PLAIN ".toList ++
          base64Spec ([0] ++ utf8Spec user ++ [0] ++ utf8Spec password)).map Char.toNat := by
  have hb : ∀ b ∈ [0] ++ toUtf8 user ++ [0] ++ toUtf8 password, b < 256 := by
    intro b hb
    simp only [List.mem_append, List.mem_singleton] at hb
    rcases hb with ((hb | hb) | hb) | hb
    · omega
    · exact toUtf8_lt user b hb
    · omega
    · exact toUtf8_lt password b hb
  rw [← toUtf8_eq_spec user, ← toUtf8_eq_spec password, ← toUtf8_eq_spec]
  refine ⟨?_, ?_⟩
  · rw [login_plain_sent, ← toBase64_eq_spec _ hb]
    rfl
  · apply toUtf8_ascii
    intro ch hch
    rcases List.mem_append.mp hch with h | h
    · have key : ∀ x ∈ "AUTH PLAIN ".toList, x.toNat ≤ 0x7f := by decide
      exact key ch h
    · exact base64Spec_ascii _ ch h

/-- The command for the user name `user` and the password `pass` is
`AUTH PLAIN AHVzZXIAcGFzcw==`; for the user name `é` and the password `€😀`, whose
UTF-8 bytes are C3 A9 and E2 82 AC F0 9F 98 80, it is `AUTH PLAIN AMOpAOKCrPCfmIA=`. -/
theorem login_plain_command_bytes_witness :
    sentOf (eventsSince (scripted [] [] ConnectionType.TcpConnection)
        (login (scripted [] [] ConnectionType.TcpConnection) "user".toList "pass".toList
          AuthMethod.AuthPlain).2) =
        [[65, 85, 84, 72, 32, 80, 76, 65, 73, 78, 32, 65, 72, 86, 122, 90, 88, 73, 65, 99, 71,
          70, 122, 99, 119, 61, 61, 13, 10]] ∧
      sentOf (eventsSince (scripted [] [] ConnectionType.TcpConnection)
        (login (scripted [] [] ConnectionType.TcpConnection) "é".toList "€😀".toList
          AuthMethod.AuthPlain).2) =
        [[65, 85, 84, 72, 32, 80, 76, 65, 73, 78, 32, 65, 77, 79, 112, 65, 79, 75, 67, 114, 80,
          67, 102, 109, 73, 65, 61, 13, 10]] ∧
      utf8Spec "é€😀".toList = [0xc3, 0xa9, 0xe2, 0x82, 0xac, 0xf0, 0x9f, 0x98, 0x80] :=
  ⟨(login_plain_command_bytes (scripted [] [] ConnectionType.TcpConnection) "user".toList
      "pass".toList).1.trans (by decide),
    (login_plain_command_bytes (scripted [] [] ConnectionType.TcpConnection) "é".toList
      "€😀".toList).1.trans (by decide),
    by decide⟩


/-! ## The `EHLO` commands of `connectToHost` (C11) -/

theorem readLines_frame (ls : List QString) :
    ∀ c : SmtpClient, (readLines c ls).2.name = c.name ∧
      (readLines c ls).2.connectionType = c.connectionType := by
  induction ls with
  | nil => intro c; exact ⟨rfl, rfl⟩
  | cons l ls ih =>
    intro c
    rw [readLines_cons]
    split
    · exact ⟨rfl, rfl⟩
    · exact ih _

theorem waitForResponseLoop_frame (arr : List (Option (List QString))) :
    ∀ c : SmtpClient, (waitForResponseLoop c arr).2.name = c.name ∧
      (waitForResponseLoop c arr).2.connectionType = c.connectionType := by
  induction arr with
  | nil => intro c; exact ⟨rfl, rfl⟩
  | cons a arr ih =>
    intro c
    cases a with
    | none => exact ⟨rfl, rfl⟩
    | some ls =>
      have hstep : waitForResponseLoop c (some ls :: arr) =
          match readLines (socketWaitForReadyRead c (some ls) arr) (c.socket.buffer ++ ls) with
          | (true, c2) => (Except.ok (), c2)
          | (false, c2) => waitForResponseLoop c2 arr := by
        simp [waitForResponseLoop, socketWaitForReadyRead, record]
      have hr := readLines_frame (c.socket.buffer ++ ls)
        (socketWaitForReadyRead c (some ls) arr)
      rw [hstep]
      rcases hrl : readLines (socketWaitForReadyRead c (some ls) arr) (c.socket.buffer ++ ls)
        with ⟨b, c2⟩
      rw [hrl] at hr
      cases b with
      | true => exact hr
      | false =>
        simp only []
        have := ih c2
        exact ⟨this.1.trans hr.1, this.2.trans hr.2⟩

/-- Reading a response changes neither the name nor the connection type. -/
theorem waitForResponse_frame (c : SmtpClient) :
    (waitForResponse c).2.name = c.name ∧
      (waitForResponse c).2.connectionType = c.connectionType :=
  waitForResponseLoop_frame c.socket.arrivals c

theorem sendMessage_frame (c : SmtpClient) (text : QString) :
    (sendMessage c text).2.name = c.name ∧
      (sendMessage c text).2.connectionType = c.connectionType := by
  cases h : c.socket.flushes.headD true with
  | true => rw [sendMessage_flushed c text h]; exact ⟨rfl, rfl⟩
  | false => rw [sendMessage_stalled c text h]; exact ⟨rfl, rfl⟩

theorem Wrote.wrote_refl (c : SmtpClient) : Wrote c c [] :=
  ⟨rfl, rfl, [], by simp, rfl⟩

theorem Wrote.wrote_record_call {c0 c : SmtpClient} {sent : List QByteArray} (h : Wrote c0 c sent)
    (ev : Event) (hev : sentOf [ev] = []) : Wrote c0 (record c ev) sent := by
  obtain ⟨h1, h2, evs, h3, h4⟩ := h
  exact ⟨h1, h2, evs ++ [ev], by simp [record, h3], by rw [sentOf_append, h4, hev]; simp⟩

theorem Wrote.wrote_send_ok {c0 c c1 : SmtpClient} {sent : List QByteArray} {text : QString}
    {u : Unit} (h : Wrote c0 c sent) (hr : sendMessage c text = (Except.ok u, c1)) :
    Wrote c0 c1 (sent ++ [wire text]) := by
  obtain ⟨h1, h2, evs, h3, h4⟩ := h
  have ht := sendMessage_trace c text
  have hf := sendMessage_frame c text
  rw [hr] at ht hf
  refine ⟨hf.1.trans h1, hf.2.trans h2, evs ++ (Event.write (wire text) :: senderTail (Except.ok u)),
    by rw [ht, h3, List.append_assoc], ?_⟩
  simp [sentOf_append, h4, sentOf, senderTail]

theorem Wrote.wrote_read_ok {c0 c c1 : SmtpClient} {sent : List QByteArray} {u : Unit}
    (h : Wrote c0 c sent) (hr : waitForResponse c = (Except.ok u, c1)) : Wrote c0 c1 sent := by
  obtain ⟨h1, h2, evs, h3, h4⟩ := h
  obtain ⟨ev2, ht, hn⟩ := waitForResponse_sent c
  have hf := waitForResponse_frame c
  rw [hr] at ht hf
  exact ⟨hf.1.trans h1, hf.2.trans h2, evs ++ ev2, by rw [ht, h3, List.append_assoc],
    by rw [sentOf_append, h4, hn]; simp⟩

theorem Wrote.wrote_connected {c0 c c1 : SmtpClient} {sent : List QByteArray} {b : Bool}
    (h : Wrote c0 c sent) (hr : socketWaitForConnected c = (b, c1)) : Wrote c0 c1 sent := by
  simp only [socketWaitForConnected, Prod.mk.injEq] at hr
  obtain ⟨_, h2⟩ := hr
  subst h2
  obtain ⟨h1, h2, evs, h3, h4⟩ := h
  exact ⟨h1, h2, evs ++ [Event.waitForConnected c.socket.connects], by simp [record, h3],
    by rw [sentOf_append, h4]; simp [sentOf]⟩

theorem ehlo_ne_starttls (name : QString) :
    wire ("EHLO ".toList ++ name) ≠ wire "STARTTLS".toList := by
  have h1 : wire ("EHLO ".toList ++ name) = 69 :: wire ("HLO ".toList ++ name) :=
    wire_cons_ascii (Char.ofNat 69) _ (by decide)
  have h2 : wire "STARTTLS".toList = 83 :: wire "TARTTLS".toList :=
    wire_cons_ascii (Char.ofNat 83) _ (by decide)
  rw [h1, h2]
  intro h
  have := (List.cons.inj h).1
  omega

theorem count_first_third {α : Type} [BEq α] [LawfulBEq α] (x y : α) (h : y ≠ x) :
    List.count x [x, y, x] = 2 := by
  simp [List.count_cons, h]

/-- C11: in every run of `connectToHost` that returns true, with the connection
type `TlsConnection` the events of the run are events in which `EHLO <name>` and
then `STARTTLS` are written, the encryption upgrade with its successful
`waitForEncrypted`, and events in which `EHLO <name>` is written once more: the
command is written exactly twice.  With `TcpConnection` or `SslConnection` the
only command written is `EHLO <name>`, once, and `STARTTLS` is never written. -/
theorem connectToHost_ehlo_count (c : SmtpClient) (h : (connectToHost c).1 = true) :
    (c.connectionType = ConnectionType.TlsConnection →
        (∃ pre post, eventsSince c (connectToHost c).2 =
            pre ++ [Event.startClientEncryption, Event.waitForEncrypted true] ++ post ∧
          sentOf pre = [wire ("EHLO ".toList ++ c.name), wire "STARTTLS".toList] ∧
          sentOf post = [wire ("EHLO ".toList ++ c.name)]) ∧
        (sentOf (eventsSince c (connectToHost c).2)).count
          (wire ("EHLO ".toList ++ c.name)) = 2) ∧
      (c.connectionType ≠ ConnectionType.TlsConnection →
        sentOf (eventsSince c (connectToHost c).2) = [wire ("EHLO ".toList ++ c.name)] ∧
        wire "STARTTLS".toList ∉ sentOf (eventsSince c (connectToHost c).2)) := by
  have hopen : ∀ ev, sentOf [ev] = [] → Wrote c (record c ev) [] :=
    fun ev a => (Wrote.wrote_refl c).wrote_record_call ev a
  generalize hres : connectToHost c = res at h
  unfold connectToHost at hres
  split at hres
  all_goals
    simp only [] at hres
    split at hres
    · subst hres; cases h
    rename_i c1 h1
    have p1 : Wrote c c1 [] := by
      first
        | exact (hopen Event.connectToHost rfl).wrote_connected h1
        | exact (hopen Event.connectToHostEncrypted rfl).wrote_connected h1
    split at hres
    · subst hres; cases h
    rename_i u2 c2 h2
    have p2 := p1.wrote_read_ok h2
    split at hres
    · subst hres; cases h
    split at hres
    · subst hres; cases h
    rename_i u3 c3 h3
    have p3 := p2.wrote_send_ok h3
    rw [p2.1] at p3
    split at hres
    · subst hres; cases h
    rename_i u4 c4 h4
    have p4 := p3.wrote_read_ok h4
    split at hres
    · subst hres; cases h
    split at hres
    swap
    · rename_i hct
      subst hres
      rw [p4.2.1] at hct
      obtain ⟨_, _, evs, ht, hs⟩ := p4
      refine ⟨fun hc => absurd hc hct, fun _ => ?_⟩
      rw [eventsSince_of_trace c _ evs ht, hs]
      exact ⟨rfl, by simpa using (ehlo_ne_starttls c.name).symm⟩
    rename_i hct
    rw [p4.2.1] at hct
    split at hres
    · subst hres; cases h
    rename_i u5 c5 h5
    have p5 := p4.wrote_send_ok h5
    split at hres
    · subst hres; cases h
    rename_i u6 c6 h6
    have p6 := p5.wrote_read_ok h6
    split at hres
    · subst hres; cases h
    split at hres
    · subst hres; cases h
    rename_i c7 h7
    simp only [socketWaitForEncrypted, Prod.mk.injEq] at h7
    obtain ⟨he, h7⟩ := h7
    have q7 : Wrote c7 c7 [] := Wrote.wrote_refl c7
    have n7 : c7.name = c.name := by rw [← h7]; exact p6.1
    split at hres
    · subst hres; cases h
    rename_i u8 c8 h8
    have q8 := q7.wrote_send_ok h8
    rw [n7] at q8
    split at hres
    · subst hres; cases h
    rename_i u9 c9 h9
    have q9 := q8.wrote_read_ok h9
    split at hres
    · subst hres; cases h
    subst hres
    obtain ⟨_, _, pre, tpre, spre⟩ := p6
    obtain ⟨_, _, post, tpost, spost⟩ := q9
    have ht : c9.trace = c.trace ++
        (pre ++ [Event.startClientEncryption, Event.waitForEncrypted true] ++ post) := by
      rw [tpost, ← h7]
      simp [record, tpre, he]
    refine ⟨fun _ => ?_, fun hc => absurd hct hc⟩
    rw [eventsSince_of_trace c _ _ ht]
    refine ⟨⟨pre, post, rfl, by simpa using spre, by simpa using spost⟩, ?_⟩
    simp only [sentOf_append, spre, spost, sentOf, List.nil_append, List.cons_append,
      List.append_nil]
    exact count_first_third _ _ (ehlo_ne_starttls c.name).symm


theorem connectToHost_ehlo_count_witness :
    (sentOf (eventsSince
        (scripted (arrivalsOf [Reply.single "220 ready", Reply.single "250 ok",
          Reply.single "220 go ahead", Reply.single "250 ok"]) [] ConnectionType.TlsConnection)
        (connectToHost (scripted (arrivalsOf [Reply.single "220 ready", Reply.single "250 ok",
          Reply.single "220 go ahead", Reply.single "250 ok"]) []
          ConnectionType.TlsConnection)).2)).count (wire "EHLO client.local".toList) = 2 :=
  ((connectToHost_ehlo_count
    (scripted (arrivalsOf [Reply.single "220 ready", Reply.single "250 ok",
      Reply.single "220 go ahead", Reply.single "250 ok"]) [] ConnectionType.TlsConnection)
    (by decide)).1 rfl).2

/-! ## A STARTTLS session (C12) -/

theorem Reply.hasCode.code {r : Reply} {k : Int} (h : r.hasCode k) : r.code = k :=
  h r.fin (by simp [Reply.lines])

theorem signalsOf_events_of_hasCode {r : Reply} {k : Int} (h : r.hasCode k)
    (hk : ¬ (400 ≤ k ∧ k ≤ 599)) : signalsOf r.events = [] := by
  rw [signalsOf_reply_events]
  exact flatMap_eq_nil_of_forall _ _ (fun l hl => by
    rw [advisory_eq_signalsForCode, h l hl]
    exact signalsForCode_eq_nil hk)

theorem headD_of_all_true (l : List Bool) (h : ∀ b ∈ l, b = true) : l.headD true = true := by
  cases l with
  | nil => rfl
  | cons b bs => simpa using h b (List.mem_cons_self _ _)

theorem tail_all_true (l : List Bool) (h : ∀ b ∈ l, b = true) : ∀ b ∈ l.tail, b = true :=
  fun b hb => h b (List.mem_of_mem_tail hb)

/-- C12: a `TlsConnection` session on a socket that connects, flushes every
write and upgrades to encryption, and whose script answers the connection, the
first `EHLO`, `STARTTLS` and the second `EHLO` by well-formed responses whose lines
all carry the codes 220, 250, 220 and 250: `connectToHost` returns true, emits no
signal, and the commands written are exactly `EHLO <name>`, `STARTTLS`,
`EHLO <name>`. -/
theorem connectToHost_starttls_session (c : SmtpClient)
    (greeting ehlo1 starttls ehlo2 : Reply) (rest : List (Option (List QString)))
    (hct : c.connectionType = ConnectionType.TlsConnection)
    (hconn : c.socket.connects = true) (henc : c.socket.encrypts = true)
    (hs : NoSendTimeout c) (hb : c.socket.buffer = [])
    (ha : c.socket.arrivals = greeting.arrivals ++
      (ehlo1.arrivals ++ (starttls.arrivals ++ (ehlo2.arrivals ++ rest))))
    (hwg : greeting.wellFormed = true) (hw1 : ehlo1.wellFormed = true)
    (hw2 : starttls.wellFormed = true) (hw3 : ehlo2.wellFormed = true)
    (hcg : greeting.hasCode 220) (hc1 : ehlo1.hasCode 250) (hc2 : starttls.hasCode 220)
    (hc3 : ehlo2.hasCode 250) :
    (connectToHost c).1 = true ∧
      signalsOf (eventsSince c (connectToHost c).2) = [] ∧
      sentOf (eventsSince c (connectToHost c).2) =
        [wire ("EHLO ".toList ++ c.name), wire "STARTTLS".toList,
          wire ("EHLO ".toList ++ c.name)] := by
  have eg : ∀ x evs buf r, (afterRead x evs greeting.fin buf r).responseCode = 220 :=
    fun _ _ _ _ => hcg.code
  have e1 : ∀ x evs buf r, (afterRead x evs ehlo1.fin buf r).responseCode = 250 :=
    fun _ _ _ _ => hc1.code
  have e2 : ∀ x evs buf r, (afterRead x evs starttls.fin buf r).responseCode = 220 :=
    fun _ _ _ _ => hc2.code
  have e3 : ∀ x evs buf r, (afterRead x evs ehlo2.fin buf r).responseCode = 250 :=
    fun _ _ _ _ => hc3.code
  have sg := signalsOf_events_of_hasCode hcg (by decide)
  have s1 := signalsOf_events_of_hasCode hc1 (by decide)
  have s2 := signalsOf_events_of_hasCode hc2 (by decide)
  have s3 := signalsOf_events_of_hasCode hc3 (by decide)
  have f0 := headD_of_all_true _ hs
  have f1 := headD_of_all_true _ (tail_all_true _ hs)
  have f2 := headD_of_all_true _ (tail_all_true _ (tail_all_true _ hs))
  generalize hres : connectToHost c = res
  unfold connectToHost at hres
  rw [hct] at hres
  simp only [socketWaitForConnected, record, hconn] at hres
  rw [waitForResponse_reply _ greeting
    (ehlo1.arrivals ++ (starttls.arrivals ++ (ehlo2.arrivals ++ rest)))
    (by exact hb) (by exact ha) hwg] at hres
  simp only [eg, ne_eq, not_true_eq_false, if_false] at hres
  rw [sendMessage_flushed _ _ (by exact f0)] at hres
  simp only [] at hres
  rw [waitForResponse_reply _ ehlo1 (starttls.arrivals ++ (ehlo2.arrivals ++ rest))
    (by rfl) (by rfl) hw1] at hres
  simp only [e1, ne_eq, not_true_eq_false, if_false] at hres
  rw [if_pos (by exact hct)] at hres
  rw [sendMessage_flushed _ _ (by exact f1)] at hres
  simp only [] at hres
  rw [waitForResponse_reply _ starttls (ehlo2.arrivals ++ rest) (by rfl) (by rfl) hw2] at hres
  simp only [e2, ne_eq, not_true_eq_false, if_false] at hres
  simp only [socketWaitForEncrypted, record] at hres
  simp only [afterRead, afterSend, henc] at hres
  rw [sendMessage_flushed _ _ (by exact f2)] at hres
  simp only [] at hres
  rw [waitForResponse_reply _ ehlo2 rest (by rfl) (by rfl) hw3] at hres
  simp only [e3, ne_eq, not_true_eq_false, if_false] at hres
  subst hres
  refine ⟨rfl, ?_, ?_⟩
  · simp [eventsSince, afterRead, afterSend, signalsOf_append, signalsOf, sg, s1, s2, s3]
  · simp [eventsSince, afterRead, afterSend, sentOf_append, sentOf]
theorem connectToHost_starttls_session_witness :
    (connectToHost (scripted (arrivalsOf [Reply.single "220 smtp.example.com ESMTP",
        Reply.single "250 STARTTLS", Reply.single "220 go ahead", Reply.single "250 ok"]) []
        ConnectionType.TlsConnection)).1 = true ∧
      signalsOf (eventsSince
        (scripted (arrivalsOf [Reply.single "220 smtp.example.com ESMTP",
          Reply.single "250 STARTTLS", Reply.single "220 go ahead", Reply.single "250 ok"]) []
          ConnectionType.TlsConnection)
        (connectToHost (scripted (arrivalsOf [Reply.single "220 smtp.example.com ESMTP",
          Reply.single "250 STARTTLS", Reply.single "220 go ahead", Reply.single "250 ok"]) []
          ConnectionType.TlsConnection)).2) = [] ∧
      sentOf (eventsSince
        (scripted (arrivalsOf [Reply.single "220 smtp.example.com ESMTP",
          Reply.single "250 STARTTLS", Reply.single "220 go ahead", Reply.single "250 ok"]) []
          ConnectionType.TlsConnection)
        (connectToHost (scripted (arrivalsOf [Reply.single "220 smtp.example.com ESMTP",
          Reply.single "250 STARTTLS", Reply.single "220 go ahead", Reply.single "250 ok"]) []
          ConnectionType.TlsConnection)).2) =
        [wire "EHLO client.local".toList, wire "STARTTLS".toList,
          wire "EHLO client.local".toList] :=
  connectToHost_starttls_session
    (scripted (arrivalsOf [Reply.single "220 smtp.example.com ESMTP",
      Reply.single "250 STARTTLS", Reply.single "220 go ahead", Reply.single "250 ok"]) []
      ConnectionType.TlsConnection)
    (Reply.single "220 smtp.example.com ESMTP") (Reply.single "250 STARTTLS")
    (Reply.single "220 go ahead") (Reply.single "250 ok") [] rfl rfl rfl
    (by intro b hb; cases hb) rfl (by rfl) (by decide) (by decide) (by decide) (by decide)
    (by unfold Reply.hasCode; decide) (by unfold Reply.hasCode; decide)
    (by unfold Reply.hasCode; decide) (by unfold Reply.hasCode; decide)


/-! ## The data phase (C16) -/

/-- The run of `sendMail` up to the response to `MAIL FROM` and through the
recipient loops, when every response is well formed with code 250 and no write
times out: the state reached, ready for `DATA`. -/
theorem sendMail_reaches_data (c : SmtpClient) (email : MimeMessage) (mail : Reply)
    (rcpts : List Reply) (rest : List (Option (List QString)))
    (hs : NoSendTimeout c) (hb : c.socket.buffer = [])
    (ha : c.socket.arrivals = mail.arrivals ++ (arrivalsOf rcpts ++ rest))
    (hl : rcpts.length = email.recipientsTo.length + email.recipientsCc.length +
      email.recipientsBcc.length)
    (hmw : mail.wellFormed = true) (hmc : mail.code = 250)
    (hok : ∀ r ∈ rcpts, r.wellFormed = true ∧ r.code = 250) :
    ∃ c3 evs, sendMail c email = sendData c3 email ∧ NoSendTimeout c3 ∧
      c3.socket.buffer = [] ∧ c3.socket.arrivals = rest ∧ c3.trace = c.trace ++ evs ∧
      sentOf evs = wire (mailFromCommand email) :: (rcptCommands email).map wire := by
  obtain ⟨s1, w1⟩ := exchange c (mailFromCommand email) mail (arrivalsOf rcpts ++ rest)
    hs hb ha hmw
  have hlen : rcpts.length = (rcptCommands email).length := by
    rw [rcptCommands_length]; exact hl
  obtain ⟨c3, h1, h2, h3, h4, h5⟩ := commandLoop_accepted (rcptCommands email) rcpts
    (afterExchange c (mailFromCommand email) mail (arrivalsOf rcpts ++ rest)) rest
    hlen hok (afterExchange_noSendTimeout hs _ _ _) rfl rfl
  refine ⟨c3, ([Event.write (wire (mailFromCommand email)), Event.waitForBytesWritten true] ++
    mail.events) ++ scriptEvents (rcptCommands email) rcpts, ?_, h2, h3, h4, ?_, ?_⟩
  · rw [sendMail_eq]
    simp only [s1, w1, afterExchange_responseCode, h1]
    simp [hmc]
  · rw [h5]; simp
  · simp [sentOf_append, sentOf, sentOf_scriptEvents, hlen]


theorem FlushesFirst.first_flush {k : Nat} {c : SmtpClient} (h : FlushesFirst (k + 1) c) :
    c.socket.flushes.headD true = true := by
  unfold FlushesFirst at h
  cases hf : c.socket.flushes with
  | nil => rfl
  | cons b bs =>
    rw [hf] at h
    simpa using h b (by simp)

theorem FlushesFirst.afterExchange {k : Nat} {c : SmtpClient} (h : FlushesFirst (k + 1) c)
    (text : QString) (r : Reply) (rest : List (Option (List QString))) :
    FlushesFirst k (afterExchange c text r rest) := by
  intro b hb
  apply h b
  change b ∈ c.socket.flushes.tail.take k at hb
  cases hf : c.socket.flushes with
  | nil => rw [hf] at hb; simp at hb
  | cons x xs =>
    rw [hf] at hb
    simp only [List.tail_cons] at hb
    simp [hb]

/-- A command whose write is flushed, answered by a well-formed response. -/
theorem exchange_flushed (c : SmtpClient) (text : QString) (r : Reply)
    (rest : List (Option (List QString))) (hf : c.socket.flushes.headD true = true)
    (hb : c.socket.buffer = []) (ha : c.socket.arrivals = r.arrivals ++ rest)
    (hw : r.wellFormed = true) :
    sendMessage c text = (Except.ok (), afterSend c text) ∧
      waitForResponse (afterSend c text) = (Except.ok (), afterExchange c text r rest) :=
  ⟨sendMessage_flushed c text hf, waitForResponse_reply (afterSend c text) r rest hb ha hw⟩

/-- Responses that all have code 250 let the loop run to its end when the writes
of its commands are flushed. -/
theorem commandLoop_flushed (texts : List QString) :
    ∀ (rs : List Reply) (c : SmtpClient) (rest : List (Option (List QString))) (k : Nat),
      rs.length = texts.length → (∀ r ∈ rs, r.wellFormed = true ∧ r.code = 250) →
      FlushesFirst (texts.length + k) c → c.socket.buffer = [] →
      c.socket.arrivals = arrivalsOf rs ++ rest →
      ∃ c2, commandLoop texts c = (LoopExit.finished, c2) ∧ FlushesFirst k c2 ∧
        c2.socket.flushes = c.socket.flushes.drop texts.length ∧
        c2.socket.buffer = [] ∧ c2.socket.arrivals = rest ∧
        c2.trace = c.trace ++ scriptEvents texts rs := by
  induction texts with
  | nil =>
    intro rs c rest k hl _ hf hb ha
    cases rs with
    | nil =>
      exact ⟨c, rfl, by simpa using hf, rfl, hb, by simpa [arrivalsOf] using ha,
        by simp [scriptEvents]⟩
    | cons r rs => simp at hl
  | cons t texts ih =>
    intro rs c rest k hl hok hf hb ha
    cases rs with
    | nil => simp at hl
    | cons r rs =>
      have hr := hok r (List.mem_cons_self _ _)
      rw [arrivalsOf_cons, List.append_assoc] at ha
      have hf1 : FlushesFirst ((texts.length + k) + 1) c := by
        have e : (t :: texts).length + k = (texts.length + k) + 1 := by
          simp only [List.length_cons]; omega
        rwa [e] at hf
      obtain ⟨s1, w1⟩ := exchange_flushed c t r (arrivalsOf rs ++ rest) hf1.first_flush hb ha hr.1
      obtain ⟨c2, h1, h2, h3, h4, h5, h6⟩ := ih rs
        (afterExchange c t r (arrivalsOf rs ++ rest)) rest k
        (by simpa using hl) (fun x hx => hok x (List.mem_cons_of_mem _ hx))
        (hf1.afterExchange t r _) rfl rfl
      refine ⟨c2, ?_, h2, ?_, h4, h5, ?_⟩
      · simp only [commandLoop, s1, w1, afterExchange_responseCode]
        simp [hr.2, h1]
      · rw [h3]
        change c.socket.flushes.tail.drop texts.length = _
        cases c.socket.flushes <;> simp
      · rw [h6]
        simp [scriptEvents, exchangeEvents]

/-- The run of `sendMail` through `MAIL FROM` and the recipient loops when every
response is well formed with code 250 and the writes are flushed: the state
reached, ready for `DATA`, with one more flush known to complete. -/
theorem sendMail_reaches_data_flushed (c : SmtpClient) (email : MimeMessage) (mail : Reply)
    (rcpts : List Reply) (rest : List (Option (List QString)))
    (hf : FlushesFirst (rcpts.length + 2) c) (hb : c.socket.buffer = [])
    (ha : c.socket.arrivals = mail.arrivals ++ (arrivalsOf rcpts ++ rest))
    (hl : rcpts.length = email.recipientsTo.length + email.recipientsCc.length +
      email.recipientsBcc.length)
    (hmw : mail.wellFormed = true) (hmc : mail.code = 250)
    (hok : ∀ r ∈ rcpts, r.wellFormed = true ∧ r.code = 250) :
    ∃ c3 evs, sendMail c email = sendData c3 email ∧
      c3.socket.flushes.headD true = true ∧
      c3.socket.flushes.tail = c.socket.flushes.drop (rcpts.length + 2) ∧
      c3.socket.buffer = [] ∧ c3.socket.arrivals = rest ∧ c3.trace = c.trace ++ evs ∧
      sentOf evs = wire (mailFromCommand email) :: (rcptCommands email).map wire := by
  have hf0 : FlushesFirst ((rcpts.length + 1) + 1) c := hf
  obtain ⟨s1, w1⟩ := exchange_flushed c (mailFromCommand email) mail (arrivalsOf rcpts ++ rest)
    hf0.first_flush hb ha hmw
  have hlen : rcpts.length = (rcptCommands email).length := by
    rw [rcptCommands_length]; exact hl
  have hf1 : FlushesFirst ((rcptCommands email).length + 1)
      (afterExchange c (mailFromCommand email) mail (arrivalsOf rcpts ++ rest)) := by
    rw [← hlen]
    exact hf0.afterExchange _ _ _
  obtain ⟨c3, h1, h2, h3, h4, h5, h6⟩ := commandLoop_flushed (rcptCommands email) rcpts
    (afterExchange c (mailFromCommand email) mail (arrivalsOf rcpts ++ rest)) rest 1
    hlen hok hf1 rfl rfl
  refine ⟨c3, ([Event.write (wire (mailFromCommand email)), Event.waitForBytesWritten true] ++
    mail.events) ++ scriptEvents (rcptCommands email) rcpts, ?_, h2.first_flush, ?_, h4, h5, ?_, ?_⟩
  · rw [sendMail_eq]
    simp only [s1, w1, afterExchange_responseCode, h1]
    simp [hmc]
  · rw [h3, ← hlen]
    change (c.socket.flushes.tail.drop rcpts.length).tail = _
    cases c.socket.flushes with
    | nil => simp
    | cons x xs => simp [List.tail_drop]
  · rw [h6]; simp
  · simp [sentOf_append, sentOf, sentOf_scriptEvents, hlen]

/-- The data phase when `DATA` is answered with code 354 and the write of the
message text is flushed: the `.` is written next, and nothing after it. -/
theorem sendData_body_flushed (c : SmtpClient) (email : MimeMessage) (data : Reply)
    (rest : List (Option (List QString))) (hf1 : c.socket.flushes.headD true = true)
    (hf2 : c.socket.flushes.tail.headD true = true) (hb : c.socket.buffer = [])
    (ha : c.socket.arrivals = data.arrivals ++ rest) (hdw : data.wellFormed = true)
    (hdc : data.code = 354) :
    ∃ evs, (sendData c email).2.trace = c.trace ++ (exchangeEvents "DATA".toList data ++
        ([Event.write (wire email.content), Event.waitForBytesWritten true,
          Event.write (wire ".".toList)] ++ evs)) ∧ sentOf evs = [] := by
  obtain ⟨s1, w1⟩ := exchange_flushed c "DATA".toList data rest hf1 hb ha hdw
  have s3 := sendMessage_flushed (afterExchange c "DATA".toList data rest) email.content hf2
  have t4 := sendMessage_trace
    (afterSend (afterExchange c "DATA".toList data rest) email.content) ".".toList
  have base : (afterSend (afterExchange c "DATA".toList data rest) email.content).trace =
      c.trace ++ (exchangeEvents "DATA".toList data ++
        [Event.write (wire email.content), Event.waitForBytesWritten true]) := by
    simp [afterSend, exchangeEvents]
  generalize hres : sendData c email = res
  unfold sendData at hres
  rw [s1] at hres
  simp only [w1, afterExchange_responseCode, hdc, ne_eq, not_true_eq_false, if_false, s3]
    at hres
  split at hres
  · rename_i e4 c4 h4
    subst hres
    rw [h4] at t4
    refine ⟨senderTail (Except.error e4), ?_, rfl⟩
    rw [t4, base]
    simp
  rename_i u4 c4 h4
  rw [h4] at t4
  obtain ⟨ev5, t5, n5⟩ := waitForResponse_sent c4
  have hfin : (waitForResponse c4).2.trace = c.trace ++ (exchangeEvents "DATA".toList data ++
      ([Event.write (wire email.content), Event.waitForBytesWritten true,
        Event.write (wire ".".toList)] ++ (Event.waitForBytesWritten true :: ev5))) := by
    rw [t5, t4, base]
    simp [senderTail]
  have hn : sentOf (Event.waitForBytesWritten true :: ev5) = [] := by
    simpa [sentOf] using n5
  split at hres
  · rename_i e5 c5 h5
    subst hres
    rw [h5] at hfin
    exact ⟨_, hfin, hn⟩
  rename_i u5 c5 h5
  rw [h5] at hfin
  split at hres <;> subst hres <;> exact ⟨_, hfin, hn⟩

/-- The data phase when `DATA` is answered with code 354 and the flush of the
message text times out: the run ends there with the result false. -/
theorem sendData_body_stalled (c : SmtpClient) (email : MimeMessage) (data : Reply)
    (rest : List (Option (List QString))) (hf1 : c.socket.flushes.headD true = true)
    (hf2 : c.socket.flushes.tail.headD true = false) (hb : c.socket.buffer = [])
    (ha : c.socket.arrivals = data.arrivals ++ rest) (hdw : data.wellFormed = true)
    (hdc : data.code = 354) :
    (sendData c email).1 = false ∧
      (sendData c email).2.trace = c.trace ++ (exchangeEvents "DATA".toList data ++
        [Event.write (wire email.content), Event.waitForBytesWritten false,
          Event.smtpError SmtpError.SendDataTimeoutError]) := by
  obtain ⟨s1, w1⟩ := exchange_flushed c "DATA".toList data rest hf1 hb ha hdw
  have s3 := sendMessage_stalled (afterExchange c "DATA".toList data rest) email.content hf2
  generalize hres : sendData c email = res
  unfold sendData at hres
  rw [s1] at hres
  simp only [w1, afterExchange_responseCode, hdc, ne_eq, not_true_eq_false, if_false, s3]
    at hres
  subst hres
  refine ⟨rfl, ?_⟩
  simp [exchangeEvents]

theorem headD_drop (l : List Bool) : ∀ n, (l.drop n).headD true = l.getD n true := by
  induction l with
  | nil => intro n; simp
  | cons x xs ih =>
    intro n
    cases n with
    | zero => rfl
    | succ n => simp [ih]

/-- C16 (amended): when `MAIL FROM` and every recipient are answered with code 250,
`DATA` is answered with code 354 and the writes of these commands are flushed,
`sendMail` writes after `DATA` the UTF-8 bytes (RFC 3629) of the message text,
unchanged, followed by CR LF.  If that write is flushed within the send time-out,
it then writes the single character `.` followed by CR LF, and nothing else; if
the flush times out, nothing more is written, `SendDataTimeoutError` is emitted
and the result is false. -/
theorem sendMail_data_phase_bytes (c : SmtpClient) (email : MimeMessage) (mail : Reply)
    (rcpts : List Reply) (data : Reply) (rest : List (Option (List QString)))
    (hf : FlushesFirst (rcpts.length + 2) c) (hb : c.socket.buffer = [])
    (ha : c.socket.arrivals = mail.arrivals ++ (arrivalsOf rcpts ++ (data.arrivals ++ rest)))
    (hl : rcpts.length = email.recipientsTo.length + email.recipientsCc.length +
      email.recipientsBcc.length)
    (hmw : mail.wellFormed = true) (hmc : mail.code = 250)
    (hok : ∀ r ∈ rcpts, r.wellFormed = true ∧ r.code = 250)
    (hdw : data.wellFormed = true) (hdc : data.code = 354) :
    (c.socket.flushes.getD (rcpts.length + 2) true = true →
        sentOf (eventsSince c (sendMail c email).2) =
          wire (mailFromCommand email) :: ((rcptCommands email).map wire ++
            [wire "DATA".toList, utf8Spec email.content ++ [13, 10], [46, 13, 10]])) ∧
      (c.socket.flushes.getD (rcpts.length + 2) true = false →
        (sendMail c email).1 = false ∧
        sentOf (eventsSince c (sendMail c email).2) =
          wire (mailFromCommand email) :: ((rcptCommands email).map wire ++
            [wire "DATA".toList, utf8Spec email.content ++ [13, 10]]) ∧
        ∃ pre, eventsSince c (sendMail c email).2 =
          pre ++ [Event.write (utf8Spec email.content ++ [13, 10]),
            Event.waitForBytesWritten false,
            Event.smtpError SmtpError.SendDataTimeoutError]) := by
  obtain ⟨c3, evs, hrun, g1, g2, h3, h4, h5, h6⟩ := sendMail_reaches_data_flushed c email mail
    rcpts (data.arrivals ++ rest) hf hb ha hl hmw hmc hok
  have hbody : wire email.content = utf8Spec email.content ++ [13, 10] := by
    rw [← toUtf8_eq_spec]
    rfl
  have hdot : wire ".".toList = [46, 13, 10] := rfl
  have hg : c3.socket.flushes.tail.headD true = c.socket.flushes.getD (rcpts.length + 2) true := by
    rw [g2, headD_drop]
  refine ⟨fun hflush => ?_, fun hflush => ?_⟩
  · obtain ⟨ev2, t2, n2⟩ := sendData_body_flushed c3 email data rest g1 (hg.trans hflush)
      h3 h4 hdw hdc
    rw [hrun, eventsSince_of_trace c _ (evs ++ (exchangeEvents "DATA".toList data ++
      ([Event.write (wire email.content), Event.waitForBytesWritten true,
        Event.write (wire ".".toList)] ++ ev2)))
      (by rw [t2, h5, List.append_assoc])]
    rw [← hbody, ← hdot]
    simp [sentOf_append, h6, sentOf_exchangeEvents, sentOf, n2]
  · obtain ⟨r2, t2⟩ := sendData_body_stalled c3 email data rest g1 (hg.trans hflush)
      h3 h4 hdw hdc
    have hev : eventsSince c (sendMail c email).2 = evs ++ (exchangeEvents "DATA".toList data ++
        [Event.write (wire email.content), Event.waitForBytesWritten false,
          Event.smtpError SmtpError.SendDataTimeoutError]) := by
      rw [hrun]
      exact eventsSince_of_trace c _ _ (by rw [t2, h5, List.append_assoc])
    refine ⟨by rw [hrun]; exact r2, ?_, evs ++ exchangeEvents "DATA".toList data, ?_⟩
    · rw [hev, ← hbody]
      simp [sentOf_append, h6, sentOf_exchangeEvents, sentOf]
    · rw [hev, ← hbody, List.append_assoc]

theorem sendMail_data_phase_bytes_witness :
    sentOf (eventsSince
        (scripted (arrivalsOf [Reply.single "250 sender ok", Reply.single "250 ok",
          Reply.single "354 go ahead"]) [] ConnectionType.TcpConnection)
        (sendMail (scripted (arrivalsOf [Reply.single "250 sender ok", Reply.single "250 ok",
          Reply.single "354 go ahead"]) [] ConnectionType.TcpConnection) dottedMail).2) =
      [wire "MAIL FROM: <alice@example.com>".toList, wire "RCPT TO:<bob@example.com>".toList,
        wire "DATA".toList, [104, 105, 13, 10, 46, 13, 10, 98, 121, 101, 13, 10],
        [46, 13, 10]] :=
  ((sendMail_data_phase_bytes
    (scripted (arrivalsOf [Reply.single "250 sender ok", Reply.single "250 ok",
      Reply.single "354 go ahead"]) [] ConnectionType.TcpConnection) dottedMail
    (Reply.single "250 sender ok") [Reply.single "250 ok"] (Reply.single "354 go ahead") []
    (by intro b hb; cases hb) rfl (by rfl) (by decide) (by decide) (by decide) (by decide)
    (by decide) (by decide)).1 (by decide)).trans (by decide)

/-- C16 (counterexample): `DATA` is answered with `354 go ahead` and the flush of
the message text times out: `sendMail` returns false having written the message
text and CR LF only; the line `.` is never written. -/
theorem body_flush_timeout_omits_dot :
    (linesOf (eventsSince
        (scripted (arrivalsOf [Reply.single "250 sender ok", Reply.single "250 ok",
          Reply.single "250 ok", Reply.single "250 ok", Reply.single "354 go ahead"])
          [true, true, true, true, true, false] ConnectionType.TcpConnection)
        (sendMail (scripted (arrivalsOf [Reply.single "250 sender ok", Reply.single "250 ok",
          Reply.single "250 ok", Reply.single "250 ok", Reply.single "354 go ahead"])
          [true, true, true, true, true, false] ConnectionType.TcpConnection)
          sampleMail).2)).getLast? = some "354 go ahead".toList ∧
      (sendMail (scripted (arrivalsOf [Reply.single "250 sender ok", Reply.single "250 ok",
          Reply.single "250 ok", Reply.single "250 ok", Reply.single "354 go ahead"])
          [true, true, true, true, true, false] ConnectionType.TcpConnection)
          sampleMail).1 = false ∧
      sentOf (eventsSince
        (scripted (arrivalsOf [Reply.single "250 sender ok", Reply.single "250 ok",
          Reply.single "250 ok", Reply.single "250 ok", Reply.single "354 go ahead"])
          [true, true, true, true, true, false] ConnectionType.TcpConnection)
        (sendMail (scripted (arrivalsOf [Reply.single "250 sender ok", Reply.single "250 ok",
          Reply.single "250 ok", Reply.single "250 ok", Reply.single "354 go ahead"])
          [true, true, true, true, true, false] ConnectionType.TcpConnection)
          sampleMail).2) =
        [wire "MAIL FROM: <alice@example.com>".toList, wire "RCPT TO:<bob@example.com>".toList,
          wire "RCPT TO:<carol@example.com>".toList, wire "RCPT TO: <dave@example.com>".toList,
          wire "DATA".toList, "Subject: hi\r\n\r\nhello\r\n".toList.map Char.toNat] ∧
      [46, 13, 10] ∉ sentOf (eventsSince
        (scripted (arrivalsOf [Reply.single "250 sender ok", Reply.single "250 ok",
          Reply.single "250 ok", Reply.single "250 ok", Reply.single "354 go ahead"])
          [true, true, true, true, true, false] ConnectionType.TcpConnection)
        (sendMail (scripted (arrivalsOf [Reply.single "250 sender ok", Reply.single "250 ok",
          Reply.single "250 ok", Reply.single "250 ok", Reply.single "354 go ahead"])
          [true, true, true, true, true, false] ConnectionType.TcpConnection)
          sampleMail).2) := by
  decide


/-! ## Spacing of the recipient commands (C17) -/

/-- C17 (amended): when `MAIL FROM` and every recipient are answered with code 250
and no write times out, the recipient commands written are, in order,
`RCPT TO:<addr>` with no space after the colon for every address of the To list
and of the Cc list, and `RCPT TO: <addr>` with one space after the colon for every
address of the Bcc list. -/
theorem sendMail_rcpt_spacing (c : SmtpClient) (email : MimeMessage) (mail : Reply)
    (rcpts : List Reply) (rest : List (Option (List QString)))
    (hs : NoSendTimeout c) (hb : c.socket.buffer = [])
    (ha : c.socket.arrivals = mail.arrivals ++ (arrivalsOf rcpts ++ rest))
    (hl : rcpts.length = email.recipientsTo.length + email.recipientsCc.length +
      email.recipientsBcc.length)
    (hmw : mail.wellFormed = true) (hmc : mail.code = 250)
    (hok : ∀ r ∈ rcpts, r.wellFormed = true ∧ r.code = 250) :
    ∃ tail, sentOf (eventsSince c (sendMail c email).2) =
      wire (mailFromCommand email) ::
        (email.recipientsTo.map (fun a => wire ("RCPT TO:<".toList ++ a ++ ">".toList)) ++
          (email.recipientsCc.map (fun a => wire ("RCPT TO:<".toList ++ a ++ ">".toList)) ++
            (email.recipientsBcc.map (fun a => wire ("RCPT TO: <".toList ++ a ++ ">".toList)) ++
              wire "DATA".toList :: tail))) := by
  obtain ⟨c3, evs, hrun, h2, _, _, h5, h6⟩ := sendMail_reaches_data c email mail rcpts rest
    hs hb ha hl hmw hmc hok
  obtain ⟨ev2, tail, t2, n2, _⟩ := sendData_sent c3 email h2
  refine ⟨tail, ?_⟩
  rw [hrun, eventsSince_of_trace c _ (evs ++ ev2) (by rw [t2, h5, List.append_assoc]),
    sentOf_append, h6, n2]
  simp [rcptCommands, List.map_append, List.map_map, Function.comp_def]

theorem sendMail_rcpt_spacing_witness :
    ∃ tail, sentOf (eventsSince
        (scripted (arrivalsOf [Reply.single "250 sender ok", Reply.single "250 ok",
          Reply.single "250 ok", Reply.single "250 ok"]) [] ConnectionType.TcpConnection)
        (sendMail (scripted (arrivalsOf [Reply.single "250 sender ok", Reply.single "250 ok",
          Reply.single "250 ok", Reply.single "250 ok"]) [] ConnectionType.TcpConnection)
          sampleMail).2) =
      wire "MAIL FROM: <alice@example.com>".toList ::
        ([wire "RCPT TO:<bob@example.com>".toList] ++
          ([wire "RCPT TO:<carol@example.com>".toList] ++
            ([wire "RCPT TO: <dave@example.com>".toList] ++ wire "DATA".toList :: tail))) :=
  sendMail_rcpt_spacing
    (scripted (arrivalsOf [Reply.single "250 sender ok", Reply.single "250 ok",
      Reply.single "250 ok", Reply.single "250 ok"]) [] ConnectionType.TcpConnection)
    sampleMail (Reply.single "250 sender ok")
    [Reply.single "250 ok", Reply.single "250 ok", Reply.single "250 ok"] []
    (by intro b hb; cases hb) rfl (by rfl) (by decide) (by decide) (by decide) (by decide)

/-- C17 (counterexample): the recipient of the Cc list of `sampleMail` is sent as
`RCPT TO:<carol@example.com>`, with no space after the colon; the command with a
space is never written. -/
theorem cc_recipient_has_no_space :
    wire "RCPT TO:<carol@example.com>".toList ∈ sentOf (eventsSince
        (scripted (arrivalsOf [Reply.single "250 sender ok", Reply.single "250 ok",
          Reply.single "250 ok", Reply.single "250 ok"]) [] ConnectionType.TcpConnection)
        (sendMail (scripted (arrivalsOf [Reply.single "250 sender ok", Reply.single "250 ok",
          Reply.single "250 ok", Reply.single "250 ok"]) [] ConnectionType.TcpConnection)
          sampleMail).2) ∧
      wire "RCPT TO: <carol@example.com>".toList ∉ sentOf (eventsSince
        (scripted (arrivalsOf [Reply.single "250 sender ok", Reply.single "250 ok",
          Reply.single "250 ok", Reply.single "250 ok"]) [] ConnectionType.TcpConnection)
        (sendMail (scripted (arrivalsOf [Reply.single "250 sender ok", Reply.single "250 ok",
          Reply.single "250 ok", Reply.single "250 ok"]) [] ConnectionType.TcpConnection)
          sampleMail).2) := by
  decide


/-! ## One response per line written (C18) -/

theorem disciplineRun_append (a b : List Event) :
    ∀ s, disciplineRun s (a ++ b) = (disciplineRun s a).bind (fun s2 => disciplineRun s2 b) := by
  induction a with
  | nil => intro s; rfl
  | cons ev a ih =>
    intro s
    simp only [List.cons_append, disciplineRun]
    cases disciplineStep s ev with
    | none => rfl
    | some s2 => exact ih s2

theorem Disc.disc_extend {c0 c c1 : SmtpClient} {s s2 : Option Nat} (h : Disc c0 c s)
    (evs : List Event) (ht : c1.trace = c.trace ++ evs) (hr : disciplineRun s evs = some s2) :
    Disc c0 c1 s2 := by
  obtain ⟨ev0, h1, h2⟩ := h
  exact ⟨ev0 ++ evs, by rw [ht, h1, List.append_assoc],
    by rw [disciplineRun_append, h2]; exact hr⟩

theorem Disc.disc_record_call {c0 c : SmtpClient} {s : Option Nat} (h : Disc c0 c s) (ev : Event)
    (hev : disciplineStep s ev = some s) : Disc c0 (record c ev) s :=
  h.disc_extend [ev] rfl (by simp [disciplineRun, hev])

theorem Disc.emit {c0 c : SmtpClient} {s : Option Nat} (h : Disc c0 c s) (e : SmtpError) :
    Disc c0 (emit c e) s :=
  h.disc_record_call _ rfl

end Smtp
